import Mathlib

/-!
Open-addressing hash table with quadratic probing (`Console1.cpp`).

A shallow embedding of the classes `Book`, `HashItem` and `HashTable` of
`Console1.cpp`, followed by theorems about `insert`, `search`, `remove` and
`rehash`.

Conventions of the embedding.

* `size_t` values are natural numbers; every `size_t` operation that can wrap
  is followed by `% SIZE_MOD` (64-bit `size_t`).
* A `std::string` is the list of its `char` values (integers).  The function
  `std::hash<string>` belongs to the standard library, not to the program; it
  is the parameter `strHash` of every function that reaches `hashFunction`.
* `table[i]` is `slot table i`; an index outside the vector (undefined behaviour
  in C++) reads `HashItem.empty` and writes nothing.  When the vector has
  `sizeT` cells and `sizeT ≥ 1` (`HashTable.WF`), every index used is inside
  the vector.
* A `do { ... attempt++; } while (attempt < bound)` loop is a recursive function
  on the number of iterations still allowed (`bound` at the start) and the
  current `attempt`; for `bound ≥ 1` these are exactly the iterations of the
  C++ loop.
* `double` values that occur in `needsRehash` are natural numbers: the
  conversions of `size` and `sizeT` are integers, and the rounded quotient is
  kept times `2 ^ 128`.  `roundDouble` is IEEE rounding to nearest, ties to
  even, to 53 significant bits.
* `int` and `char` values are integers; `Book.representable` marks the books
  whose year fits a 32-bit `int` and whose characters are ASCII.  The theorems
  hold for every book; the tables built to exhibit a behaviour use
  representable books only.
* `search` returns the index of the cell whose `data` the C++ pointer refers to,
  `none` for `nullptr`.
* `print` returns the lines it writes, each as the pair of the index and the
  book printed.
* The functions whose name ends in `Checked` run the same code with every
  `% sizeT` and every vector access checked: the result is `none` when a
  divisor is zero or an index is outside the vector.
-/

/-- Modulus of `size_t` arithmetic. -/
def SIZE_MOD : Nat := 2 ^ 64

/-- Conversion of a signed integer value (`int`, `char`) to `size_t`. -/
def toSizeT (x : Int) : Nat := (x % (SIZE_MOD : Int)).toNat

/-- Class `Book`: year, title, author. -/
structure Book where
  year : Int
  title : List Int
  author : List Int
deriving DecidableEq, Repr

/-- Enumeration `CellStatus`. -/
inductive CellStatus where
  | EMPTY
  | OCCUPIED
  | DELETED
deriving DecidableEq, Repr

/-- Struct `HashItem`: the stored book and the status of the cell. -/
structure HashItem where
  data : Book
  status : CellStatus
deriving DecidableEq, Repr

/-- The default-constructed item `HashItem()`: `data(0, "", "")`, status `EMPTY`. -/
def HashItem.empty : HashItem := ⟨⟨0, [], []⟩, CellStatus.EMPTY⟩

/-- Fields of class `HashTable`: the vector `table`, the capacity `sizeT` and the
number of stored elements `size`. -/
structure HashTable where
  table : List HashItem
  sizeT : Nat
  size : Nat
deriving DecidableEq, Repr

/-- The read `table[i]`. -/
def slot (table : List HashItem) (i : Nat) : HashItem := table.getD i HashItem.empty

/-- The comparison of `search` and `remove`: title, author and year all equal. -/
def sameBook (a b : Book) : Bool :=
  decide (a.title = b.title) && decide (a.author = b.author) && decide (a.year = b.year)

/-- Method `hashFunction`, reading the member `sizeT`:
polynomial hash of the title, `std::hash` of the author, combined with the year. -/
def hashFunction (strHash : List Int → Nat) (sizeT : Nat) (book : Book) : Nat :=
  let titleHash := book.title.foldl
    (fun acc c => ((acc * 31 + toSizeT c) % SIZE_MOD) % sizeT) 0
  let authorHash := (strHash book.author % SIZE_MOD) % sizeT
  (((toSizeT book.year + titleHash) % SIZE_MOD) ^^^ authorHash) % sizeT

/-- Method `quadraticProbing`, reading the member `sizeT`. -/
def quadraticProbing (sizeT startIndex attempt : Nat) : Nat :=
  ((startIndex + (attempt * attempt) % SIZE_MOD) % SIZE_MOD) % sizeT

/-- One step of the search for the exponent: when the value `p.1` has at least
`53 + s` bits, drop its `s` lowest bits and count them in `p.2`. -/
def shiftStep (p : Nat × Nat) (s : Nat) : Nat × Nat :=
  if 2 ^ (52 + s) ≤ p.1 then (p.1 / 2 ^ s, p.2 + s) else p

/-- Number of bits of `q` in excess of 53, for `q < 2 ^ 200`: the lowest bits are
dropped in steps of 128, 64, ..., 1 until fewer than 54 bits are left. -/
def excessBits (q : Nat) : Nat :=
  ([128, 64, 32, 16, 8, 4, 2, 1].foldl shiftStep (q, 0)).2

/-- Rounding of the quotient `num / den` to 53 significant bits, to nearest with
ties to even: the rounding of IEEE `double` arithmetic, for a quotient below
`2 ^ 200` that is an integer or at least `2 ^ 52` (the result is then an
integer).  With `e` the
number of bits in excess of 53, `m` is the quotient truncated to 53 bits and
`rest / (2 ^ e * den)` the fraction of the last kept bit that was cut off. -/
def roundDouble (num den : Nat) : Nat :=
  let q := num / den
  let e := excessBits q
  let m := q / 2 ^ e
  let rest := num - m * 2 ^ e * den
  if 2 * rest < 2 ^ e * den ∨ (2 * rest = 2 ^ e * den ∧ m % 2 = 0) then m * 2 ^ e
  else (m + 1) * 2 ^ e

/-- Conversion `static_cast<double>(n)` of a `size_t` value: `n` rounded to 53
significant bits. -/
def toDouble (n : Nat) : Nat := roundDouble n 1

/-- The `double` nearest to `0.7` (`0x1.6666666666666p-1`), times `2 ^ 128`. -/
def DOUBLE_SEVEN_TENTHS : Nat := 6305039478318694 * 2 ^ 75

/-- Method `needsRehash`: `static_cast<double>(size) / sizeT >= 0.7`.
Both members are converted to `double`, the quotient is rounded to `double`
(here times `2 ^ 128`, which keeps it an integer) and compared with the
`double` written `0.7`.  For `sizeT = 0` the quotient is `+inf` when
`size > 0` and NaN, which compares false, when `size = 0`. -/
def needsRehash (t : HashTable) : Bool :=
  if t.sizeT = 0 then decide (0 < t.size)
  else decide (DOUBLE_SEVEN_TENTHS ≤ roundDouble (toDouble t.size * 2 ^ 128) (toDouble t.sizeT))

/-- The `do ... while (attempt < newsizeT)` loop of `rehash` for one book.
`sizeT` is still the old capacity while the loop runs, so `hashFunction` and
`quadraticProbing` are evaluated with it.  When no attempt finds a free cell
the book is not stored. -/
def rehashLoop (strHash : List Int → Nat) (sizeT : Nat) (book : Book)
    (newTable : List HashItem) : Nat → Nat → List HashItem
  | 0, _ => newTable
  | fuel + 1, attempt =>
    let hash := hashFunction strHash sizeT book
    let index := quadraticProbing sizeT hash attempt
    if (slot newTable index).status ≠ CellStatus.OCCUPIED then
      newTable.set index ⟨book, CellStatus.OCCUPIED⟩
    else
      rehashLoop strHash sizeT book newTable fuel (attempt + 1)

/-- Body of the `for (i = 0; i < sizeT; ++i)` loop of `rehash`. -/
def rehashStep (strHash : List Int → Nat) (t : HashTable) (newsizeT : Nat)
    (newTable : List HashItem) (i : Nat) : List HashItem :=
  if (slot t.table i).status = CellStatus.OCCUPIED then
    rehashLoop strHash t.sizeT (slot t.table i).data newTable newsizeT 0
  else
    newTable

/-- Method `rehash`. -/
def HashTable.rehash (strHash : List Int → Nat) (t : HashTable) : HashTable :=
  let newsizeT := (t.sizeT * 2) % SIZE_MOD
  let newTable := List.replicate newsizeT HashItem.empty
  ⟨(List.range t.sizeT).foldl (rehashStep strHash t newsizeT) newTable, newsizeT, t.size⟩

/-- Constructor `HashTable(initialsizeT)`. -/
def HashTable.new (initialsizeT : Nat) : HashTable :=
  ⟨List.replicate initialsizeT HashItem.empty, initialsizeT, 0⟩

/-- The default argument of the constructor. -/
def DEFAULT_SIZE : Nat := 11

/-- The `do ... while (attempt < sizeT)` loop of `insert`. -/
def insertLoop (t : HashTable) (book : Book) (hash : Nat) : Nat → Nat → HashTable × Bool
  | 0, _ => (t, false)
  | fuel + 1, attempt =>
    let index := quadraticProbing t.sizeT hash attempt
    if (slot t.table index).status ≠ CellStatus.OCCUPIED then
      (⟨t.table.set index ⟨book, CellStatus.OCCUPIED⟩, t.sizeT, (t.size + 1) % SIZE_MOD⟩, true)
    else
      insertLoop t book hash fuel (attempt + 1)

/-- The opening statement of `insert`: `if (needsRehash()) rehash();`. -/
def HashTable.growIfNeeded (strHash : List Int → Nat) (t : HashTable) : HashTable :=
  if needsRehash t then t.rehash strHash else t

/-- Method `insert`: the table afterwards and the returned flag. -/
def HashTable.insert (strHash : List Int → Nat) (t : HashTable) (book : Book) :
    HashTable × Bool :=
  let t1 := t.growIfNeeded strHash
  insertLoop t1 book (hashFunction strHash t1.sizeT book) t1.sizeT 0

/-- The `do ... while (attempt < sizeT)` loop of `search`. -/
def searchLoop (t : HashTable) (book : Book) (hash : Nat) : Nat → Nat → Option Nat
  | 0, _ => none
  | fuel + 1, attempt =>
    let index := quadraticProbing t.sizeT hash attempt
    if (slot t.table index).status = CellStatus.EMPTY then none
    else if (slot t.table index).status = CellStatus.OCCUPIED ∧
        sameBook (slot t.table index).data book = true then some index
    else searchLoop t book hash fuel (attempt + 1)

/-- Method `search`: the index of the cell whose `data` is returned. -/
def HashTable.search (strHash : List Int → Nat) (t : HashTable) (book : Book) : Option Nat :=
  searchLoop t book (hashFunction strHash t.sizeT book) t.sizeT 0

/-- The `do ... while (attempt < sizeT)` loop of `remove`. -/
def removeLoop (t : HashTable) (book : Book) (hash : Nat) : Nat → Nat → HashTable × Bool
  | 0, _ => (t, false)
  | fuel + 1, attempt =>
    let index := quadraticProbing t.sizeT hash attempt
    if (slot t.table index).status = CellStatus.EMPTY then (t, false)
    else if (slot t.table index).status = CellStatus.OCCUPIED ∧
        sameBook (slot t.table index).data book = true then
      (⟨t.table.set index ⟨(slot t.table index).data, CellStatus.DELETED⟩, t.sizeT,
        (t.size + (SIZE_MOD - 1)) % SIZE_MOD⟩, true)
    else removeLoop t book hash fuel (attempt + 1)

/-- Method `remove`: the table afterwards and the returned flag. -/
def HashTable.remove (strHash : List Int → Nat) (t : HashTable) (book : Book) :
    HashTable × Bool :=
  removeLoop t book (hashFunction strHash t.sizeT book) t.sizeT 0

/-- The test `status == OCCUPIED`. -/
def isOccupied (c : HashItem) : Bool := decide (c.status = CellStatus.OCCUPIED)

/-- Number of cells of the vector whose status is `OCCUPIED`. -/
def occupiedCount (t : HashTable) : Nat := t.table.countP isOccupied

/-- A table whose vector has `sizeT` cells, with `sizeT ≥ 1`. -/
def HashTable.WF (t : HashTable) : Prop := t.table.length = t.sizeT ∧ 1 ≤ t.sizeT

instance (t : HashTable) : Decidable t.WF := by
  unfold HashTable.WF; infer_instance

/-- A string hash used to evaluate the functions on concrete books: every
string hashes to 0. -/
def strHash0 : List Int → Nat := fun _ => 0

/-- A book with the given year, empty title and empty author. -/
def bookOfYear (y : Int) : Book := ⟨y, [], []⟩

/-- Every occupied cell of `newTable` holds a book of an occupied cell of `tab`. -/
def FromOld (tab newTable : List HashItem) : Prop :=
  ∀ j, (slot newTable j).status = CellStatus.OCCUPIED →
    ∃ i, (slot tab i).status = CellStatus.OCCUPIED ∧ (slot tab i).data = (slot newTable j).data

/-- Bound on the number of cells of a `std::vector<HashItem>`: `max_size()` is
below `PTRDIFF_MAX`, so a vector that exists has fewer than `2 ^ 63` cells. -/
def SLOT_LIMIT : Nat := 2 ^ 63

/-- States reached from a constructed table (initial capacity at least 1) by
calls of `insert` and `remove`, every allocated vector being below
`SLOT_LIMIT` cells. -/
inductive Reachable (strHash : List Int → Nat) : HashTable → Prop
  | new (n : Nat) (h1 : 1 ≤ n) (h2 : n < SLOT_LIMIT) : Reachable strHash (HashTable.new n)
  | insert (t : HashTable) (r : Book) (ht : Reachable strHash t)
      (hfit : (t.insert strHash r).1.sizeT < SLOT_LIMIT) :
      Reachable strHash (t.insert strHash r).1
  | remove (t : HashTable) (r : Book) (ht : Reachable strHash t) :
      Reachable strHash (t.remove strHash r).1

/-- The table after inserting the books of a list one after the other. -/
def insertAll (strHash : List Int → Nat) : HashTable → List Book → HashTable
  | t, [] => t
  | t, b :: bs => insertAll strHash (t.insert strHash b).1 bs

/-- Every table met while inserting the books of a list stays below `SLOT_LIMIT` cells. -/
def fitsAll (strHash : List Int → Nat) : HashTable → List Book → Bool
  | _, [] => true
  | t, b :: bs =>
    decide ((t.insert strHash b).1.sizeT < SLOT_LIMIT) && fitsAll strHash (t.insert strHash b).1 bs

/-- The invariant of reachable tables: the vector has `sizeT` cells, the
capacity is between 1 and `SLOT_LIMIT`, `size` is at least the number of
occupied cells and at most the capacity. -/
def TableInv (t : HashTable) : Prop :=
  t.table.length = t.sizeT ∧ 1 ≤ t.sizeT ∧ t.sizeT < SLOT_LIMIT ∧
  occupiedCount t ≤ t.size ∧ t.size ≤ t.sizeT

/-- A table of capacity 2 holding the books of years 0 and 1: constructed with
capacity 2, then two calls of `insert`. -/
def tableTwo : HashTable :=
  insertAll strHash0 (HashTable.new 2) [bookOfYear 0, bookOfYear 1]

/-- The table left by the call `insert (bookOfYear 4)` on `tableTwo`. -/
def tableFour : HashTable := (tableTwo.insert strHash0 (bookOfYear 4)).1

/-- The default table after inserting the books of years 0 to 6. -/
def tableSeven : HashTable :=
  insertAll strHash0 (HashTable.new DEFAULT_SIZE)
    [bookOfYear 0, bookOfYear 1, bookOfYear 2, bookOfYear 3, bookOfYear 4, bookOfYear 5,
      bookOfYear 6]

/-- The default table after inserting the books of years 11 to 18. -/
def tableEight : HashTable :=
  insertAll strHash0 (HashTable.new DEFAULT_SIZE)
    [bookOfYear 11, bookOfYear 12, bookOfYear 13, bookOfYear 14, bookOfYear 15, bookOfYear 16,
      bookOfYear 17, bookOfYear 18]

/-- The default table after inserting nine different books; the ninth call
grows the table. -/
def tableNine : HashTable :=
  insertAll strHash0 (HashTable.new DEFAULT_SIZE)
    [bookOfYear 11, bookOfYear 5, bookOfYear 6, bookOfYear 2, bookOfYear 4, bookOfYear 0,
      bookOfYear 1, bookOfYear 10, bookOfYear 3]

/-- The default table after inserting the same book twice. -/
def tableDup : HashTable :=
  insertAll strHash0 (HashTable.new DEFAULT_SIZE) [bookOfYear 1949, bookOfYear 1949]

/-- Probe index of the specification: `(start + attempt²) mod capacity`, over the
natural numbers. -/
def specProbe (capacity start attempt : Nat) : Nat := (start + attempt * attempt) % capacity

/-- Reference walk of `search`, following the specification, over a list of
attempts: at the cell `specProbe capacity start k`, an `EMPTY` cell stops the
walk with not-found, an `OCCUPIED` cell whose year, title and author equal
those of `r` stops it with that cell, any other cell is skipped; when the
attempts are used up the result is not-found. -/
def searchWalk (t : HashTable) (r : Book) (start : Nat) : List Nat → Option Nat
  | [] => none
  | k :: ks =>
    match (slot t.table (specProbe t.sizeT start k)).status with
    | CellStatus.EMPTY => none
    | CellStatus.OCCUPIED =>
      if (slot t.table (specProbe t.sizeT start k)).data.year = r.year ∧
          (slot t.table (specProbe t.sizeT start k)).data.title = r.title ∧
          (slot t.table (specProbe t.sizeT start k)).data.author = r.author then
        some (specProbe t.sizeT start k)
      else searchWalk t r start ks
    | CellStatus.DELETED => searchWalk t r start ks

/-- Reference definition of `search`: the walk over the attempts
`0, 1, ..., capacity - 1` from the hash start index of `r`. -/
def searchSpec (strHash : List Int → Nat) (t : HashTable) (r : Book) : Option Nat :=
  searchWalk t r (hashFunction strHash t.sizeT r) (List.range t.sizeT)

/-- Eight books with empty title and author whose years are the multiples of 32
from 0 to 224. -/
def booksThirtyTwo : List Book :=
  [bookOfYear 0, bookOfYear 32, bookOfYear 64, bookOfYear 96, bookOfYear 128, bookOfYear 160,
    bookOfYear 192, bookOfYear 224]

/-- The string hash that maps every string to `x`. -/
def constHash (x : Nat) : List Int → Nat := fun _ => x

/-- Two string hashes give the same hash start index, at capacity `c`, to every
book whose author is the empty string. -/
def HashAgree (s1 s2 : List Int → Nat) (c : Nat) : Prop :=
  ∀ b : Book, b.author = [] → hashFunction s1 c b = hashFunction s2 c b

/-- Every occupied cell holds a book whose author is the empty string. -/
def Plain (tab : List HashItem) : Prop :=
  ∀ i, (slot tab i).status = CellStatus.OCCUPIED → (slot tab i).data.author = []

/-- While the books of a list are inserted, every capacity met (before and after
the opening growth step of each call) divides `m`, and every book has the empty
string as author. -/
def capsOK (m : Nat) (strHash : List Int → Nat) : HashTable → List Book → Bool
  | _, [] => true
  | t, b :: bs =>
    decide (t.sizeT ∣ m) && decide ((t.growIfNeeded strHash).sizeT ∣ m) &&
      decide (b.author = []) && capsOK m strHash (t.insert strHash b).1 bs

/-- Nine different books with empty title and author, chosen for the residue `a`
modulo 11 of the hash of the empty string: at capacity 11 their hash start
indices are 10, 10, 0, 2, 3, 4, 8, 6, 5, whatever the string hash. -/
def dropBooks (a : Nat) : List Book :=
  [bookOfYear (Int.ofNat (32 * ((a + 11 - 10) % 11))),
    bookOfYear (Int.ofNat (32 * ((a + 11 - 10) % 11 + 11))),
    bookOfYear (Int.ofNat (32 * ((a + 11 - 0) % 11))),
    bookOfYear (Int.ofNat (32 * ((a + 11 - 2) % 11))),
    bookOfYear (Int.ofNat (32 * ((a + 11 - 3) % 11))),
    bookOfYear (Int.ofNat (32 * ((a + 11 - 4) % 11))),
    bookOfYear (Int.ofNat (32 * ((a + 11 - 8) % 11))),
    bookOfYear (Int.ofNat (32 * ((a + 11 - 6) % 11))),
    bookOfYear (Int.ofNat (32 * ((a + 11 - 5) % 11)))]

/-- Method `print`: the lines written, in order, each as the pair of the index
and the book printed (`[i] title (year), автор: author`). -/
def HashTable.print (t : HashTable) : List (Nat × Book) :=
  ((List.range t.sizeT).filter (fun i => decide ((slot t.table i).status = CellStatus.OCCUPIED))).map
    (fun i => (i, (slot t.table i).data))

/-- The default table after inserting the books of years 0 to 4. -/
def tableFive : HashTable :=
  insertAll strHash0 (HashTable.new DEFAULT_SIZE)
    [bookOfYear 0, bookOfYear 1, bookOfYear 2, bookOfYear 3, bookOfYear 4]

/-- Two different books with empty title and author, chosen for the residue `a`
modulo 4 of the hash of the empty string: at capacity 4 their hash start
indices are 0 and 1, whatever the string hash. -/
def exhaustBooks (a : Nat) : List Book :=
  [bookOfYear (Int.ofNat a), bookOfYear (Int.ofNat (a ^^^ 1))]

/-- A third book, different from those of `exhaustBooks a`, whose hash start
index at capacity 4 is 0. -/
def exhaustBook (a : Nat) : Book := bookOfYear (Int.ofNat (a + 4))

/-- The object `book1` of `main`: `Book(1860, "война и мир", "Толстой")`, the
strings as the `char` values of their UTF-8 bytes. -/
def book1 : Book :=
  ⟨1860,
    [-48, -78, -48, -66, -48, -71, -48, -67, -48, -80, 32, -48, -72, 32, -48, -68, -48, -72,
      -47, -128],
    [-48, -94, -48, -66, -48, -69, -47, -127, -47, -126, -48, -66, -48, -71]⟩

/-- The object `book2` of `main`: `Book(1949, "1984", "George Orwell")`. -/
def book2 : Book :=
  ⟨1949, [49, 57, 56, 52], [71, 101, 111, 114, 103, 101, 32, 79, 114, 119, 101, 108, 108]⟩

/-- The object `book3` of `main`: `Book(1925, "The Great Gatsby", "F. Scott Fitzgerald")`. -/
def book3 : Book :=
  ⟨1925, [84, 104, 101, 32, 71, 114, 101, 97, 116, 32, 71, 97, 116, 115, 98, 121],
    [70, 46, 32, 83, 99, 111, 116, 116, 32, 70, 105, 116, 122, 103, 101, 114, 97, 108, 100]⟩

/-- Function `main`, first call: `HashTable ht; ht.insert(book1);`. -/
def mainInsert1 (strHash : List Int → Nat) : HashTable × Bool :=
  (HashTable.new DEFAULT_SIZE).insert strHash book1

/-- Function `main`, second call: `ht.insert(book2);`. -/
def mainInsert2 (strHash : List Int → Nat) : HashTable × Bool :=
  (mainInsert1 strHash).1.insert strHash book2

/-- Function `main`, third call: `ht.insert(book3);`. -/
def mainInsert3 (strHash : List Int → Nat) : HashTable × Bool :=
  (mainInsert2 strHash).1.insert strHash book3

/-- Function `main`: `Book* found = ht.search(book2);`. -/
def mainFound (strHash : List Int → Nat) : Option Nat :=
  (mainInsert3 strHash).1.search strHash book2

/-- Function `main`: `ht.remove(book3);`. -/
def mainRemove (strHash : List Int → Nat) : HashTable × Bool :=
  (mainInsert3 strHash).1.remove strHash book3

/-- The loop of the first `insert` of `main`, run from start index `h1`. -/
def demoT1 (h1 : Nat) : HashTable × Bool :=
  insertLoop (HashTable.new DEFAULT_SIZE) book1 h1 11 0

/-- The loop of the second `insert` of `main`, run from start index `h2`. -/
def demoT2 (h1 h2 : Nat) : HashTable × Bool :=
  insertLoop (demoT1 h1).1 book2 h2 11 0

/-- The loop of the third `insert` of `main`, run from start index `h3`. -/
def demoT3 (h1 h2 h3 : Nat) : HashTable × Bool :=
  insertLoop (demoT2 h1 h2).1 book3 h3 11 0

/-- The operation `a % b` on `size_t` with the divisor checked: no value when
`b = 0`. -/
def modChecked (a b : Nat) : Option Nat := if b = 0 then none else some (a % b)

/-- The read `table[i]` with the index checked: no value when `i` is outside
the vector. -/
def readChecked (table : List HashItem) (i : Nat) : Option HashItem := table.get? i

/-- The write `table[i] = x` with the index checked: no value when `i` is
outside the vector. -/
def writeChecked (table : List HashItem) (i : Nat) (x : HashItem) : Option (List HashItem) :=
  if i < table.length then some (table.set i x) else none

/-- Method `hashFunction` with every `% sizeT` checked. -/
def hashFunctionChecked (strHash : List Int → Nat) (sizeT : Nat) (book : Book) : Option Nat :=
  (book.title.foldlM (fun acc c => modChecked ((acc * 31 + toSizeT c) % SIZE_MOD) sizeT) 0).bind
    fun titleHash =>
  (modChecked (strHash book.author % SIZE_MOD) sizeT).bind fun authorHash =>
  modChecked (((toSizeT book.year + titleHash) % SIZE_MOD) ^^^ authorHash) sizeT

/-- Method `quadraticProbing` with `% sizeT` checked. -/
def quadraticProbingChecked (sizeT startIndex attempt : Nat) : Option Nat :=
  modChecked ((startIndex + (attempt * attempt) % SIZE_MOD) % SIZE_MOD) sizeT

/-- The loop of `rehash` for one book, with every `%` and every access to
`newTable` checked. -/
def rehashLoopChecked (strHash : List Int → Nat) (sizeT : Nat) (book : Book)
    (newTable : List HashItem) : Nat → Nat → Option (List HashItem)
  | 0, _ => some newTable
  | fuel + 1, attempt =>
    (hashFunctionChecked strHash sizeT book).bind fun hash =>
    (quadraticProbingChecked sizeT hash attempt).bind fun index =>
    (readChecked newTable index).bind fun cell =>
    if cell.status ≠ CellStatus.OCCUPIED then
      writeChecked newTable index ⟨book, CellStatus.OCCUPIED⟩
    else
      rehashLoopChecked strHash sizeT book newTable fuel (attempt + 1)

/-- Body of the `for` loop of `rehash`, with the access `table[i]` checked. -/
def rehashStepChecked (strHash : List Int → Nat) (t : HashTable) (newsizeT : Nat)
    (newTable : List HashItem) (i : Nat) : Option (List HashItem) :=
  (readChecked t.table i).bind fun cell =>
  if cell.status = CellStatus.OCCUPIED then
    rehashLoopChecked strHash t.sizeT cell.data newTable newsizeT 0
  else
    some newTable

/-- Method `rehash` with every `%` and every vector access checked. -/
def HashTable.rehashChecked (strHash : List Int → Nat) (t : HashTable) : Option HashTable :=
  ((List.range t.sizeT).foldlM (rehashStepChecked strHash t ((t.sizeT * 2) % SIZE_MOD))
    (List.replicate ((t.sizeT * 2) % SIZE_MOD) HashItem.empty)).bind
    fun newTable => some ⟨newTable, (t.sizeT * 2) % SIZE_MOD, t.size⟩

/-- The loop of `insert` with every `%` and every vector access checked. -/
def insertLoopChecked (t : HashTable) (book : Book) (hash : Nat) :
    Nat → Nat → Option (HashTable × Bool)
  | 0, _ => some (t, false)
  | fuel + 1, attempt =>
    (quadraticProbingChecked t.sizeT hash attempt).bind fun index =>
    (readChecked t.table index).bind fun cell =>
    if cell.status ≠ CellStatus.OCCUPIED then
      (writeChecked t.table index ⟨book, CellStatus.OCCUPIED⟩).bind fun table =>
      some (⟨table, t.sizeT, (t.size + 1) % SIZE_MOD⟩, true)
    else
      insertLoopChecked t book hash fuel (attempt + 1)

/-- Method `insert` with every `%` and every vector access checked. -/
def HashTable.insertChecked (strHash : List Int → Nat) (t : HashTable) (book : Book) :
    Option (HashTable × Bool) :=
  (if needsRehash t then t.rehashChecked strHash else some t).bind fun t1 =>
  (hashFunctionChecked strHash t1.sizeT book).bind fun hash =>
  insertLoopChecked t1 book hash t1.sizeT 0

/-- The loop of `search` with every `%` and every vector access checked. -/
def searchLoopChecked (t : HashTable) (book : Book) (hash : Nat) :
    Nat → Nat → Option (Option Nat)
  | 0, _ => some none
  | fuel + 1, attempt =>
    (quadraticProbingChecked t.sizeT hash attempt).bind fun index =>
    (readChecked t.table index).bind fun cell =>
    if cell.status = CellStatus.EMPTY then some none
    else if cell.status = CellStatus.OCCUPIED ∧ sameBook cell.data book = true then
      some (some index)
    else searchLoopChecked t book hash fuel (attempt + 1)

/-- Method `search` with every `%` and every vector access checked. -/
def HashTable.searchChecked (strHash : List Int → Nat) (t : HashTable) (book : Book) :
    Option (Option Nat) :=
  (hashFunctionChecked strHash t.sizeT book).bind fun hash =>
  searchLoopChecked t book hash t.sizeT 0

/-- The loop of `remove` with every `%` and every vector access checked. -/
def removeLoopChecked (t : HashTable) (book : Book) (hash : Nat) :
    Nat → Nat → Option (HashTable × Bool)
  | 0, _ => some (t, false)
  | fuel + 1, attempt =>
    (quadraticProbingChecked t.sizeT hash attempt).bind fun index =>
    (readChecked t.table index).bind fun cell =>
    if cell.status = CellStatus.EMPTY then some (t, false)
    else if cell.status = CellStatus.OCCUPIED ∧ sameBook cell.data book = true then
      (writeChecked t.table index ⟨cell.data, CellStatus.DELETED⟩).bind fun table =>
      some (⟨table, t.sizeT, (t.size + (SIZE_MOD - 1)) % SIZE_MOD⟩, true)
    else removeLoopChecked t book hash fuel (attempt + 1)

/-- Method `remove` with every `%` and every vector access checked. -/
def HashTable.removeChecked (strHash : List Int → Nat) (t : HashTable) (book : Book) :
    Option (HashTable × Bool) :=
  (hashFunctionChecked strHash t.sizeT book).bind fun hash =>
  removeLoopChecked t book hash t.sizeT 0

/-- The table `tableEight` after `remove` of the book of year 12: cell 1 is
`DELETED`. -/
def tableTomb : HashTable := (tableEight.remove strHash0 (bookOfYear 12)).1

/-- A value of class `Book` that the program can hold whatever the platform:
the year fits `int` (32 bits) and every character of the title and of the
author is an ASCII character (`0 .. 127`). -/
def Book.representable (b : Book) : Bool :=
  decide (-2147483648 ≤ b.year) && decide (b.year ≤ 2147483647) &&
  b.title.all (fun c => decide (0 ≤ c) && decide (c ≤ 127)) &&
  b.author.all (fun c => decide (0 ≤ c) && decide (c ≤ 127))

/-- The digits `1 .. 31` of `v` in bijective base 31, most significant first,
as characters; `fuel` bounds the number of digits. -/
def titleDigits : Nat → Nat → List Int
  | 0, _ => []
  | fuel + 1, v =>
    if v = 0 then [] else titleDigits fuel ((v - 1) / 31) ++ [Int.ofNat ((v - 1) % 31 + 1)]

/-- A title of at most 13 characters in the range `1 .. 31` whose polynomial hash in
`hashFunction` is `v`, at every capacity above `v`. -/
def titleOf (v : Nat) : List Int := titleDigits 13 v

/-- A book with empty author whose year plus title hash is `x`, at a capacity
`n` with `x < n + 2`: year 0 when `x < n`, year 2 otherwise. -/
def sumBook (n x : Nat) : Book :=
  if x < n then ⟨0, titleOf x, []⟩ else ⟨2, titleOf (x - 2), []⟩

/-- Books with empty author, one for each index `c < n` with `c mod 3 ≠ 2`,
chosen for the residue `a` of the hash of the empty string modulo `n`: the hash
start index of the book for `c` is `c` at capacity `n`, whatever the string
hash. -/
def stripeBooks (n a : Nat) : List Book :=
  ((List.range n).filter (fun c => decide (c % 3 ≠ 2))).map (fun c => sumBook n (c ^^^ a))

/-- A book different from those of `stripeBooks n a` whose hash start index at
capacity `n` is 0. -/
def stripeBook (n a : Nat) : Book := sumBook n (n ^^^ a)

/-- The table constructed with capacity `n` into which the books of
`stripeBooks` were inserted, one call of `insert` each. -/
def stripeTable (strHash : List Int → Nat) (n : Nat) : HashTable :=
  insertAll strHash (HashTable.new n) (stripeBooks n (strHash [] % SIZE_MOD % n))

/-- The books inserted into `overflowTable`: one for each cell of a table with
`2 ^ 33 - 2` cells whose index is 0 or 1 modulo 3. -/
def overflowBooks (strHash : List Int → Nat) : List Book :=
  stripeBooks 8589934590 (strHash [] % SIZE_MOD % 8589934590)

/-- The table constructed with `2 ^ 33 - 2` cells into which the books of
`overflowBooks` were inserted: the cells whose index is 0 or 1 modulo 3 are
occupied, the others are `EMPTY`. -/
def overflowTable (strHash : List Int → Nat) : HashTable := stripeTable strHash 8589934590

/-- A book that is not in `overflowTable` and whose hash start index at capacity
`2 ^ 33 - 2` is 0. -/
def overflowBook (strHash : List Int → Nat) : Book :=
  stripeBook 8589934590 (strHash [] % SIZE_MOD % 8589934590)

/-! The `double` arithmetic of `needsRehash`. -/

theorem shiftStep_spec (q : Nat) {s : Nat} {p : Nat × Nat}
    (h1 : p.1 = q / 2 ^ p.2) (h2 : p.1 < 2 ^ (52 + s) * 2 ^ s) (h3 : 1 ≤ p.2 → 2 ^ 52 ≤ p.1) :
    (shiftStep p s).1 = q / 2 ^ (shiftStep p s).2 ∧ (shiftStep p s).1 < 2 ^ (52 + s) ∧
    (1 ≤ (shiftStep p s).2 → 2 ^ 52 ≤ (shiftStep p s).1) := by
  unfold shiftStep
  split_ifs with h
  · refine ⟨?_, ?_, fun _ => ?_⟩
    · show p.1 / 2 ^ s = q / 2 ^ (p.2 + s)
      rw [h1, Nat.div_div_eq_div_mul, ← Nat.pow_add]
    · show p.1 / 2 ^ s < 2 ^ (52 + s)
      apply Nat.div_lt_of_lt_mul
      rw [Nat.mul_comm]
      exact h2
    · show 2 ^ 52 ≤ p.1 / 2 ^ s
      rw [Nat.le_div_iff_mul_le (Nat.two_pow_pos s), ← Nat.pow_add]
      exact h
  · exact ⟨h1, Nat.lt_of_not_le h, h3⟩

theorem excessBits_of_lt {q : Nat} (h : q < 2 ^ 53) : excessBits q = 0 := by
  have hs : ∀ s, 1 ≤ s → shiftStep (q, 0) s = (q, 0) := by
    intro s hs
    have h2 : 2 ^ 53 ≤ 2 ^ (52 + s) := Nat.pow_le_pow_right (by norm_num) (by omega)
    unfold shiftStep
    rw [if_neg]
    show ¬ 2 ^ (52 + s) ≤ q
    omega
  simp only [excessBits, List.foldl_cons, List.foldl_nil, hs 128 (by norm_num),
    hs 64 (by norm_num), hs 32 (by norm_num), hs 16 (by norm_num), hs 8 (by norm_num),
    hs 4 (by norm_num), hs 2 (by norm_num), hs 1 (by norm_num)]

/-- The exponent found by `excessBits` leaves fewer than 54 bits, and exactly 53
when it is not zero. -/
theorem excessBits_spec {q : Nat} (hq : q < 2 ^ 200) :
    q / 2 ^ excessBits q < 2 ^ 53 ∧ (1 ≤ excessBits q → 2 ^ 52 ≤ q / 2 ^ excessBits q) := by
  have s0 : ((q, 0) : Nat × Nat).1 = q / 2 ^ ((q, 0) : Nat × Nat).2 := by simp
  have hq2 : ((q, 0) : Nat × Nat).1 < 2 ^ (52 + 128) * 2 ^ 128 :=
    Nat.lt_of_lt_of_le hq (by norm_num)
  obtain ⟨a1, b1, c1⟩ := @shiftStep_spec q 128 (q, 0) s0 hq2 (fun h => by simp at h)
  obtain ⟨a2, b2, c2⟩ := @shiftStep_spec q 64 _ a1 (Nat.lt_of_lt_of_le b1 (by norm_num)) c1
  obtain ⟨a3, b3, c3⟩ := @shiftStep_spec q 32 _ a2 (Nat.lt_of_lt_of_le b2 (by norm_num)) c2
  obtain ⟨a4, b4, c4⟩ := @shiftStep_spec q 16 _ a3 (Nat.lt_of_lt_of_le b3 (by norm_num)) c3
  obtain ⟨a5, b5, c5⟩ := @shiftStep_spec q 8 _ a4 (Nat.lt_of_lt_of_le b4 (by norm_num)) c4
  obtain ⟨a6, b6, c6⟩ := @shiftStep_spec q 4 _ a5 (Nat.lt_of_lt_of_le b5 (by norm_num)) c5
  obtain ⟨a7, b7, c7⟩ := @shiftStep_spec q 2 _ a6 (Nat.lt_of_lt_of_le b6 (by norm_num)) c6
  obtain ⟨a8, b8, c8⟩ := @shiftStep_spec q 1 _ a7 (Nat.lt_of_lt_of_le b7 (by norm_num)) c7
  have he : excessBits q = (shiftStep (shiftStep (shiftStep (shiftStep (shiftStep (shiftStep
      (shiftStep (shiftStep (q, 0) 128) 64) 32) 16) 8) 4) 2) 1).2 := by
    simp only [excessBits, List.foldl_cons, List.foldl_nil]
  rw [he, ← a8]
  exact ⟨b8, c8⟩

/-- The parts of `roundDouble`: with `P = 2 ^ e` and `m` the truncated
quotient, `m * P * den ≤ num < (m + 1) * P * den`, `m < 2 ^ 53`, `2 ^ 52 ≤ m`
unless `P = 1`, and the result is `m * P` or `(m + 1) * P` according to the
part cut off. -/
theorem roundDouble_spec {num den : Nat} (hden : 1 ≤ den) (hq : num / den < 2 ^ 200) :
    ∃ e m, m * 2 ^ e * den ≤ num ∧ num < (m + 1) * 2 ^ e * den ∧ m < 2 ^ 53 ∧
      (1 ≤ e → 2 ^ 52 ≤ m) ∧
      roundDouble num den =
        if 2 * (num - m * 2 ^ e * den) < 2 ^ e * den ∨
            (2 * (num - m * 2 ^ e * den) = 2 ^ e * den ∧ m % 2 = 0) then m * 2 ^ e
        else (m + 1) * 2 ^ e := by
  refine ⟨excessBits (num / den), num / den / 2 ^ excessBits (num / den),
    ?_, ?_, (excessBits_spec hq).1, (excessBits_spec hq).2, rfl⟩
  · calc num / den / 2 ^ excessBits (num / den) *
          2 ^ excessBits (num / den) * den
        ≤ num / den * den := Nat.mul_le_mul_right _ (Nat.div_mul_le_self _ _)
      _ ≤ num := Nat.div_mul_le_self _ _
  · have hP : 0 < 2 ^ excessBits (num / den) := Nat.two_pow_pos _
    have h1 : num / den < (num / den / 2 ^ excessBits (num / den) + 1) *
        2 ^ excessBits (num / den) := by
      rw [Nat.mul_comm]
      exact Nat.lt_mul_div_succ _ hP
    have h2 : num < (num / den + 1) * den := by
      rw [Nat.mul_comm]
      exact Nat.lt_mul_div_succ _ (by omega)
    calc num < (num / den + 1) * den := h2
      _ ≤ (num / den / 2 ^ excessBits (num / den) + 1) *
          2 ^ excessBits (num / den) * den :=
        Nat.mul_le_mul_right _ h1

/-- The comparison with the `double` `0.7`: the rounded quotient reaches
`0x1.6666666666666p-1` exactly when the exact quotient reaches the midpoint
`(2 * 6305039478318694 - 1) * 2 ^ (-54)` between it and the `double` below. -/
theorem roundDouble_ge_seven_tenths {num den : Nat} (hden : 1 ≤ den)
    (hq : num / den < 2 ^ 200) :
    DOUBLE_SEVEN_TENTHS ≤ roundDouble num den ↔ 12610078956637387 * 2 ^ 74 * den ≤ num := by
  obtain ⟨e, m, h1, h2, h3, h4, hr⟩ := roundDouble_spec hden hq
  rw [hr]
  unfold DOUBLE_SEVEN_TENTHS
  rcases Nat.lt_trichotomy e 75 with he | he | he
  · have hP : 2 ^ e ≤ 2 ^ 74 := Nat.pow_le_pow_right (by norm_num) (by omega)
    have hY : (m + 1) * 2 ^ e ≤ 2 ^ 53 * 2 ^ 74 := Nat.mul_le_mul (by omega) hP
    have hYD : (m + 1) * 2 ^ e * den ≤ 2 ^ 53 * 2 ^ 74 * den := Nat.mul_le_mul_right _ hY
    have hX : m * 2 ^ e ≤ (m + 1) * 2 ^ e := Nat.mul_le_mul_right _ (by omega)
    generalize (m + 1) * 2 ^ e = Y at *
    generalize m * 2 ^ e = X at *
    generalize Y * den = YD at *
    norm_num at hY hYD ⊢
    constructor
    · intro h
      exfalso
      split_ifs at h <;> omega
    · intro h
      exfalso
      omega
  · subst he
    have e1 : m * 2 ^ 75 * den = 2 ^ 75 * (m * den) := by ring
    have e2 : (m + 1) * 2 ^ 75 * den = 2 ^ 75 * (m * den) + 2 ^ 75 * den := by ring
    rw [e1] at h1 ⊢
    rw [e2] at h2
    rcases Nat.lt_trichotomy m 6305039478318693 with hm | hm | hm
    · have hmd : m * den ≤ 6305039478318692 * den := Nat.mul_le_mul_right _ (by omega)
      generalize m * den = MD at *
      norm_num at h1 h2 ⊢
      constructor
      · intro h
        exfalso
        split_ifs at h <;> omega
      · intro h
        exfalso
        omega
    · subst hm
      norm_num at h1 h2 ⊢
      constructor
      · intro h
        split_ifs at h with hc
        · omega
        · omega
      · intro h
        split_ifs with hc
        · omega
        · omega
    · have hmd : 6305039478318694 * den ≤ m * den := Nat.mul_le_mul_right _ (by omega)
      generalize m * den = MD at *
      norm_num at h1 h2 ⊢
      constructor
      · intro _
        omega
      · intro _
        split_ifs <;> omega
  · have hm := h4 (by omega)
    have hP : 2 ^ 76 ≤ 2 ^ e := Nat.pow_le_pow_right (by norm_num) (by omega)
    have hX : 2 ^ 52 * 2 ^ 76 ≤ m * 2 ^ e := Nat.mul_le_mul hm hP
    have hXD : 2 ^ 52 * 2 ^ 76 * den ≤ m * 2 ^ e * den := Nat.mul_le_mul_right _ hX
    have hY : m * 2 ^ e ≤ (m + 1) * 2 ^ e := Nat.mul_le_mul_right _ (by omega)
    generalize (m + 1) * 2 ^ e = Y at *
    generalize m * 2 ^ e = X at *
    generalize X * den = XD at *
    norm_num at hX hXD ⊢
    constructor
    · intro _
      omega
    · intro _
      split_ifs <;> omega

/-- Below `2 ^ 53` the conversion to `double` is exact. -/
theorem toDouble_of_lt {n : Nat} (h : n < 2 ^ 53) : toDouble n = n := by
  have he : excessBits n = 0 := excessBits_of_lt h
  unfold toDouble roundDouble
  simp only [Nat.div_one, he, Nat.pow_zero, Nat.mul_one, Nat.sub_self]
  simp

/-- The conversion to `double` changes a value by at most one part in `2 ^ 52`. -/
theorem toDouble_bounds {n : Nat} (hn : n < 2 ^ 200) :
    2 ^ 52 * n ≤ (2 ^ 52 + 1) * toDouble n ∧ 2 ^ 52 * toDouble n ≤ (2 ^ 52 + 1) * n := by
  obtain ⟨e, m, h1, h2, h3, h4, hr⟩ := @roundDouble_spec n 1 (le_refl 1) (by rw [Nat.div_one]; exact hn)
  unfold toDouble
  rw [hr]
  rw [Nat.mul_one] at h1 h2
  rcases Nat.eq_zero_or_pos e with he | he
  · subst he
    rw [Nat.pow_zero, Nat.mul_one] at h1 h2
    have hnm : n = m := by omega
    subst hnm
    norm_num
    omega
  · have hm := h4 he
    have hX : 2 ^ 52 * 2 ^ e ≤ m * 2 ^ e := Nat.mul_le_mul_right _ hm
    have hY : (m + 1) * 2 ^ e = m * 2 ^ e + 2 ^ e := by ring
    rw [hY] at h2 ⊢
    generalize m * 2 ^ e = X at *
    generalize 2 ^ e = P at *
    norm_num at hX ⊢
    split_ifs <;> constructor <;> omega

theorem roundDouble_zero (den : Nat) : roundDouble 0 den = 0 := by
  have he : excessBits 0 = 0 := excessBits_of_lt (by norm_num)
  unfold roundDouble
  simp only [Nat.zero_div, he, Nat.pow_zero, Nat.mul_one, Nat.zero_mul, Nat.sub_zero,
    Nat.mul_zero, Nat.one_mul, Nat.zero_mod, Nat.zero_add]
  split_ifs with h
  · rfl
  · exfalso
    apply h
    rcases Nat.eq_zero_or_pos den with hd | hd
    · exact Or.inr ⟨hd.symm, trivial⟩
    · exact Or.inl hd

theorem toDouble_lt_of_lt {n : Nat} (h : n < 2 ^ 64) : toDouble n < 2 ^ 65 := by
  have h2 := (toDouble_bounds (Nat.lt_of_lt_of_le h
    (Nat.pow_le_pow_right (by norm_num) (by norm_num)))).2
  norm_num at h h2 ⊢
  omega

theorem toDouble_pos {n : Nat} (h1 : 1 ≤ n) (h : n < 2 ^ 64) : 1 ≤ toDouble n := by
  have h2 := (toDouble_bounds (Nat.lt_of_lt_of_le h
    (Nat.pow_le_pow_right (by norm_num) (by norm_num)))).1
  norm_num at h2
  omega

/-- What the comparison of `needsRehash` computes, on the converted members. -/
theorem needsRehash_iff {t : HashTable} (h : 1 ≤ t.sizeT) (hc : t.sizeT < 2 ^ 64)
    (hs : t.size < 2 ^ 64) :
    needsRehash t = true ↔
      12610078956637387 * toDouble t.sizeT ≤ toDouble t.size * 2 ^ 54 := by
  have hb := toDouble_pos h hc
  have ha := toDouble_lt_of_lt hs
  have hq : toDouble t.size * 2 ^ 128 / toDouble t.sizeT < 2 ^ 200 := by
    apply Nat.lt_of_le_of_lt (Nat.div_le_self _ _)
    norm_num at ha ⊢
    omega
  unfold needsRehash
  rw [if_neg (by omega), decide_eq_true_eq, roundDouble_ge_seven_tenths hb hq]
  norm_num
  constructor <;> intro h <;> omega

/-- When `needsRehash` is false, `size` is below the capacity. -/
theorem needsRehash_false_lt {t : HashTable} (h : 1 ≤ t.sizeT) (hc : t.sizeT < 2 ^ 64)
    (hs : t.size < 2 ^ 64) (hn : needsRehash t = false) : t.size < t.sizeT := by
  have hiff := needsRehash_iff h hc hs
  rw [hn] at hiff
  have hnot : ¬ 12610078956637387 * toDouble t.sizeT ≤ toDouble t.size * 2 ^ 54 :=
    fun hc => by simpa using hiff.2 hc
  have h1 := (toDouble_bounds (Nat.lt_of_lt_of_le hs
    (Nat.pow_le_pow_right (by norm_num) (by norm_num)))).1
  have h2 := (toDouble_bounds (Nat.lt_of_lt_of_le hc
    (Nat.pow_le_pow_right (by norm_num) (by norm_num)))).2
  norm_num at hnot h1 h2
  omega

/-- Below `2 ^ 54 / 18` cells (about `10 ^ 15`) the `double` comparison of
`needsRehash` is the exact comparison of `size / sizeT` with `7 / 10`. -/
theorem needsRehash_iff_of_small {t : HashTable} (h : 1 ≤ t.sizeT) (hc : 18 * t.sizeT < 2 ^ 54)
    (hs : t.size < 2 ^ 64) :
    needsRehash t = true ↔ 7 * t.sizeT ≤ 10 * t.size := by
  have hc53 : t.sizeT < 2 ^ 53 := by norm_num at hc ⊢; omega
  rw [needsRehash_iff h (by norm_num at hc ⊢; omega) hs, toDouble_of_lt hc53]
  rcases Nat.lt_or_ge t.size (2 ^ 53) with h53 | h53
  · rw [toDouble_of_lt h53]
    norm_num at hc ⊢
    constructor <;> intro h <;> omega
  · have h1 := (toDouble_bounds (Nat.lt_of_lt_of_le hs
      (Nat.pow_le_pow_right (by norm_num) (by norm_num)))).1
    norm_num at hc h53 h1 ⊢
    constructor <;> intro h <;> omega

theorem needsRehash_false_of_small {t : HashTable} (h : 1 ≤ t.sizeT) (hc : 18 * t.sizeT < 2 ^ 54)
    (hl : 10 * t.size < 7 * t.sizeT) : needsRehash t = false := by
  cases hn : needsRehash t with
  | false => rfl
  | true =>
    have := (needsRehash_iff_of_small h hc (by norm_num at hc ⊢; omega)).1 hn
    omega

/-! General lemmas on the cells, the loops and `rehash`. -/

theorem quadraticProbing_lt {sizeT : Nat} (h : 1 ≤ sizeT) (s k : Nat) :
    quadraticProbing sizeT s k < sizeT := by
  unfold quadraticProbing
  exact Nat.mod_lt _ (by omega)

theorem slot_set_self {tab : List HashItem} {i : Nat} (h : i < tab.length) (x : HashItem) :
    slot (tab.set i x) i = x := by
  simp [slot, List.getD, h]

theorem slot_set_ne {tab : List HashItem} {i j : Nat} (h : i ≠ j) (x : HashItem) :
    slot (tab.set i x) j = slot tab j := by
  simp [slot, List.getD, List.getElem?_set_ne h]

theorem sameBook_iff (a b : Book) : sameBook a b = true ↔ a = b := by
  cases a; cases b
  simp [sameBook]
  tauto

theorem slot_replicate (n i : Nat) : slot (List.replicate n HashItem.empty) i = HashItem.empty := by
  unfold slot
  by_cases h : i < n
  · simp [List.getD, List.getElem?_replicate, h]
  · simp [List.getD, List.getElem?_replicate, h]

/-- A successful `searchLoop` stops at an attempt whose cell is occupied by the
book, after attempts that are neither empty nor a match. -/
theorem searchLoop_some {t : HashTable} {b : Book} {h : Nat} :
    ∀ (fuel a : Nat) {i : Nat}, searchLoop t b h fuel a = some i →
      ∃ k, a ≤ k ∧ k < a + fuel ∧ quadraticProbing t.sizeT h k = i ∧
        (slot t.table i).status = CellStatus.OCCUPIED ∧ (slot t.table i).data = b ∧
        ∀ j, a ≤ j → j < k →
          (slot t.table (quadraticProbing t.sizeT h j)).status ≠ CellStatus.EMPTY ∧
          ¬ ((slot t.table (quadraticProbing t.sizeT h j)).status = CellStatus.OCCUPIED ∧
              (slot t.table (quadraticProbing t.sizeT h j)).data = b) := by
  intro fuel
  induction fuel with
  | zero => intro a i H; simp [searchLoop] at H
  | succ n ih =>
    intro a i H
    rw [searchLoop] at H
    split_ifs at H with h1 h2
    · cases H
      exact ⟨a, le_refl _, by omega, rfl, h2.1, (sameBook_iff _ _).1 h2.2,
        fun j hj1 hj2 => by omega⟩
    · obtain ⟨k, hk1, hk2, hk3, hk4, hk5, hk6⟩ := ih (a + 1) H
      refine ⟨k, by omega, by omega, hk3, hk4, hk5, fun j hj1 hj2 => ?_⟩
      by_cases hja : j = a
      · subst hja
        exact ⟨h1, fun hc => h2 ⟨hc.1, (sameBook_iff _ _).2 hc.2⟩⟩
      · exact hk6 j (by omega) hj2

/-- If some attempt within the budget reaches a cell occupied by the book and no
earlier attempt reaches an empty cell, `searchLoop` finds a cell occupied by the
book. -/
theorem searchLoop_found {t : HashTable} {b : Book} {h : Nat} :
    ∀ (fuel a k : Nat), a ≤ k → k < a + fuel →
      (slot t.table (quadraticProbing t.sizeT h k)).status = CellStatus.OCCUPIED →
      (slot t.table (quadraticProbing t.sizeT h k)).data = b →
      (∀ j, a ≤ j → j < k →
        (slot t.table (quadraticProbing t.sizeT h j)).status ≠ CellStatus.EMPTY) →
      ∃ i, searchLoop t b h fuel a = some i ∧
        (slot t.table i).status = CellStatus.OCCUPIED ∧ (slot t.table i).data = b := by
  intro fuel
  induction fuel with
  | zero => intro a k h1 h2; omega
  | succ n ih =>
    intro a k hk1 hk2 hocc hdata hpre
    rw [searchLoop]
    by_cases hka : k = a
    · subst hka
      have hne : (slot t.table (quadraticProbing t.sizeT h k)).status ≠ CellStatus.EMPTY := by
        rw [hocc]; decide
      rw [if_neg hne, if_pos ⟨hocc, (sameBook_iff _ _).2 hdata⟩]
      exact ⟨_, rfl, hocc, hdata⟩
    · have hne := hpre a (le_refl _) (by omega)
      rw [if_neg hne]
      split_ifs with h2
      · exact ⟨_, rfl, h2.1, (sameBook_iff _ _).1 h2.2⟩
      · exact ih (a + 1) k (by omega) (by omega) hocc hdata
          (fun j hj1 hj2 => hpre j (by omega) hj2)

/-- When no cell reached by the probe sequence is occupied by the book, `searchLoop` finds nothing. -/
theorem searchLoop_none {t : HashTable} {b : Book} {h : Nat}
    (hno : ∀ i, ¬ ((slot t.table i).status = CellStatus.OCCUPIED ∧ (slot t.table i).data = b)) :
    ∀ (fuel a : Nat), searchLoop t b h fuel a = none := by
  intro fuel a
  cases hs : searchLoop t b h fuel a with
  | none => rfl
  | some i =>
    obtain ⟨k, -, -, -, h4, h5, -⟩ := searchLoop_some fuel a hs
    exact absurd ⟨h4, h5⟩ (hno i)

/-- The loop of `remove` follows the loop of `search` and marks the cell found. -/
theorem removeLoop_eq (t : HashTable) (b : Book) (h : Nat) :
    ∀ (fuel a : Nat), removeLoop t b h fuel a =
      match searchLoop t b h fuel a with
      | none => (t, false)
      | some i => (⟨t.table.set i ⟨(slot t.table i).data, CellStatus.DELETED⟩, t.sizeT,
          (t.size + (SIZE_MOD - 1)) % SIZE_MOD⟩, true) := by
  intro fuel
  induction fuel with
  | zero => intro a; simp [removeLoop, searchLoop]
  | succ n ih =>
    intro a
    rw [removeLoop, searchLoop]
    split_ifs with h1 h2
    · rfl
    · rfl
    · exact ih (a + 1)

/-- A successful `insertLoop` writes the book into the first probed cell that is not occupied. -/
theorem insertLoop_true {t : HashTable} {b : Book} {h : Nat} :
    ∀ (fuel a : Nat) {r : HashTable}, insertLoop t b h fuel a = (r, true) →
      ∃ k, a ≤ k ∧ k < a + fuel ∧
        (slot t.table (quadraticProbing t.sizeT h k)).status ≠ CellStatus.OCCUPIED ∧
        (∀ j, a ≤ j → j < k →
          (slot t.table (quadraticProbing t.sizeT h j)).status = CellStatus.OCCUPIED) ∧
        r = ⟨t.table.set (quadraticProbing t.sizeT h k) ⟨b, CellStatus.OCCUPIED⟩, t.sizeT,
          (t.size + 1) % SIZE_MOD⟩ := by
  intro fuel
  induction fuel with
  | zero => intro a r H; simp [insertLoop] at H
  | succ n ih =>
    intro a r H
    rw [insertLoop] at H
    split_ifs at H with h1
    · simp only [Prod.mk.injEq, and_true] at H
      exact ⟨a, le_refl _, by omega, h1, fun j hj1 hj2 => by omega, H.symm⟩
    · obtain ⟨k, hk1, hk2, hk3, hk4, hk5⟩ := ih (a + 1) H
      refine ⟨k, by omega, by omega, hk3, fun j hj1 hj2 => ?_, hk5⟩
      by_cases hja : j = a
      · subst hja; exact not_not.mp h1
      · exact hk4 j (by omega) hj2

/-- A failed `insertLoop` leaves the table as it was; every probed cell is occupied. -/
theorem insertLoop_false {t : HashTable} {b : Book} {h : Nat} :
    ∀ (fuel a : Nat) {r : HashTable}, insertLoop t b h fuel a = (r, false) →
      r = t ∧ ∀ j, a ≤ j → j < a + fuel →
        (slot t.table (quadraticProbing t.sizeT h j)).status = CellStatus.OCCUPIED := by
  intro fuel
  induction fuel with
  | zero =>
    intro a r H
    simp only [insertLoop, Prod.mk.injEq, and_true] at H
    exact ⟨H.symm, fun j hj1 hj2 => by omega⟩
  | succ n ih =>
    intro a r H
    rw [insertLoop] at H
    split_ifs at H with h1
    · simp at H
    · obtain ⟨hr, hall⟩ := ih (a + 1) H
      refine ⟨hr, fun j hj1 hj2 => ?_⟩
      by_cases hja : j = a
      · subst hja; exact not_not.mp h1
      · exact hall j (by omega) (by omega)

theorem rehashLoop_length (strHash : List Int → Nat) (sizeT : Nat) (book : Book)
    (newTable : List HashItem) :
    ∀ (fuel a : Nat), (rehashLoop strHash sizeT book newTable fuel a).length = newTable.length := by
  intro fuel
  induction fuel with
  | zero => intro a; rfl
  | succ n ih =>
    intro a
    rw [rehashLoop]
    split_ifs with h1
    · exact List.length_set _ _ _
    · exact ih (a + 1)

theorem rehashStep_length (strHash : List Int → Nat) (t : HashTable) (newsizeT : Nat)
    (newTable : List HashItem) (i : Nat) :
    (rehashStep strHash t newsizeT newTable i).length = newTable.length := by
  unfold rehashStep
  split_ifs
  · exact rehashLoop_length _ _ _ _ _ _
  · rfl

theorem foldl_rehashStep_length (strHash : List Int → Nat) (t : HashTable) (newsizeT : Nat) :
    ∀ (l : List Nat) (newTable : List HashItem),
      (l.foldl (rehashStep strHash t newsizeT) newTable).length = newTable.length := by
  intro l
  induction l with
  | nil => intro nt; rfl
  | cons x xs ih =>
    intro nt
    rw [List.foldl_cons, ih, rehashStep_length]

/-- After `rehash` the vector has as many cells as the new capacity. -/
theorem rehash_length (strHash : List Int → Nat) (t : HashTable) :
    (t.rehash strHash).table.length = (t.rehash strHash).sizeT := by
  simp [HashTable.rehash, foldl_rehashStep_length]

/-- The table that `insert` probes: grown when `needsRehash` holds. -/
theorem insert_eq (strHash : List Int → Nat) (t : HashTable) (r : Book) :
    t.insert strHash r =
      insertLoop (t.growIfNeeded strHash) r
        (hashFunction strHash (t.growIfNeeded strHash).sizeT r)
        (t.growIfNeeded strHash).sizeT 0 := rfl

theorem grown_length (strHash : List Int → Nat) (t : HashTable)
    (hlen : t.table.length = t.sizeT) :
    (t.growIfNeeded strHash).table.length =
      (t.growIfNeeded strHash).sizeT := by
  unfold HashTable.growIfNeeded
  split_ifs
  · exact rehash_length strHash t
  · exact hlen

/-- Searching a book right after it was written by `insertLoop` finds it. -/
theorem search_after_insertLoop (strHash : List Int → Nat) (t1 : HashTable) (r : Book)
    (hlen : t1.table.length = t1.sizeT) {t2 : HashTable}
    (hins : insertLoop t1 r (hashFunction strHash t1.sizeT r) t1.sizeT 0 = (t2, true)) :
    ∃ i, t2.search strHash r = some i ∧ slot t2.table i = ⟨r, CellStatus.OCCUPIED⟩ := by
  obtain ⟨k, -, hk2, hk3, hk4, hk5⟩ := insertLoop_true _ _ hins
  have hcap : 1 ≤ t1.sizeT := by omega
  have hidx : quadraticProbing t1.sizeT (hashFunction strHash t1.sizeT r) k < t1.table.length := by
    rw [hlen]; exact quadraticProbing_lt hcap _ _
  subst hk5
  have hfound := searchLoop_found
    (t := ⟨t1.table.set (quadraticProbing t1.sizeT (hashFunction strHash t1.sizeT r) k)
      ⟨r, CellStatus.OCCUPIED⟩, t1.sizeT, (t1.size + 1) % SIZE_MOD⟩)
    (b := r) (h := hashFunction strHash t1.sizeT r) t1.sizeT 0 k (Nat.zero_le _) hk2
    (by simp only [slot_set_self hidx]) (by simp only [slot_set_self hidx])
    (by
      intro j _ hj2
      by_cases hjk : quadraticProbing t1.sizeT (hashFunction strHash t1.sizeT r) k =
          quadraticProbing t1.sizeT (hashFunction strHash t1.sizeT r) j
      · simp only [← hjk, slot_set_self hidx]; decide
      · simp only [slot_set_ne hjk]
        rw [hk4 j (Nat.zero_le _) hj2]; decide)
  obtain ⟨i, hi1, hi2, hi3⟩ := hfound
  refine ⟨i, hi1, ?_⟩
  cases hc : slot (t1.table.set (quadraticProbing t1.sizeT (hashFunction strHash t1.sizeT r) k)
      ⟨r, CellStatus.OCCUPIED⟩) i with
  | mk d s =>
    simp only [hc] at hi2 hi3
    subst hi2 hi3
    rfl

theorem slot_out_of_range {tab : List HashItem} {i : Nat} (h : tab.length ≤ i) :
    slot tab i = HashItem.empty := by
  simp [slot, List.getD, List.getElem?_eq_none h]

/-- A cell that is not `EMPTY` lies inside the vector. -/
theorem lt_length_of_status {tab : List HashItem} {i : Nat}
    (h : (slot tab i).status ≠ CellStatus.EMPTY) : i < tab.length := by
  by_contra hc
  rw [slot_out_of_range (Nat.le_of_not_lt hc)] at h
  exact h rfl

/-- Method `search` never returns a cell that is not occupied by the book. -/
theorem search_some {strHash : List Int → Nat} {t : HashTable} {r : Book} {i : Nat}
    (h : t.search strHash r = some i) :
    (slot t.table i).status = CellStatus.OCCUPIED ∧ (slot t.table i).data = r := by
  obtain ⟨k, -, -, -, h4, h5, -⟩ := searchLoop_some _ _ h
  exact ⟨h4, h5⟩

/-- Method `search` finds nothing when no occupied cell holds the book. -/
theorem search_none_of_absent {strHash : List Int → Nat} {t : HashTable} {r : Book}
    (hno : ∀ i, ¬ ((slot t.table i).status = CellStatus.OCCUPIED ∧ (slot t.table i).data = r)) :
    t.search strHash r = none :=
  searchLoop_none hno _ _

/-- Method `remove` in terms of `search`. -/
theorem remove_eq (strHash : List Int → Nat) (t : HashTable) (r : Book) :
    t.remove strHash r =
      match t.search strHash r with
      | none => (t, false)
      | some i => (⟨t.table.set i ⟨(slot t.table i).data, CellStatus.DELETED⟩, t.sizeT,
          (t.size + (SIZE_MOD - 1)) % SIZE_MOD⟩, true) :=
  removeLoop_eq t r _ _ _

theorem remove_of_search_none {strHash : List Int → Nat} {t : HashTable} {r : Book}
    (h : t.search strHash r = none) : t.remove strHash r = (t, false) := by
  rw [remove_eq, h]

theorem remove_of_search_some {strHash : List Int → Nat} {t : HashTable} {r : Book} {i : Nat}
    (h : t.search strHash r = some i) :
    t.remove strHash r = (⟨t.table.set i ⟨r, CellStatus.DELETED⟩, t.sizeT,
      (t.size + (SIZE_MOD - 1)) % SIZE_MOD⟩, true) := by
  rw [remove_eq, h]
  simp only [(search_some h).2]

/-- After a cell occupied by the book is marked `DELETED`, the cells occupied by
the book are the ones there were before, except that cell. -/
theorem absent_after_delete {tab : List HashItem} {r : Book} {i : Nat}
    (huniq : ∀ j, (slot tab j).status = CellStatus.OCCUPIED ∧ (slot tab j).data = r → j = i)
    (j : Nat) :
    ¬ ((slot (tab.set i ⟨r, CellStatus.DELETED⟩) j).status = CellStatus.OCCUPIED ∧
        (slot (tab.set i ⟨r, CellStatus.DELETED⟩) j).data = r) := by
  intro hj
  by_cases hij : i = j
  · subst hij
    by_cases hlen : i < tab.length
    · rw [slot_set_self hlen] at hj
      exact CellStatus.noConfusion hj.1
    · rw [List.set_eq_of_length_le (Nat.le_of_not_lt hlen),
        slot_out_of_range (Nat.le_of_not_lt hlen)] at hj
      exact CellStatus.noConfusion hj.1
  · rw [slot_set_ne hij] at hj
    exact hij (huniq j hj).symm

theorem needsRehash_new {n : Nat} (h : 1 ≤ n) (tab : List HashItem) :
    needsRehash ⟨tab, n, 0⟩ = false := by
  have h0 : toDouble 0 = 0 := toDouble_of_lt (by norm_num)
  unfold needsRehash
  show (if n = 0 then decide (0 < 0)
    else decide (DOUBLE_SEVEN_TENTHS ≤ roundDouble (toDouble 0 * 2 ^ 128) (toDouble n))) = false
  rw [if_neg (by omega), h0, Nat.zero_mul, roundDouble_zero]
  decide

theorem growIfNeeded_of_not (strHash : List Int → Nat) {t : HashTable}
    (h : needsRehash t = false) : t.growIfNeeded strHash = t := by
  simp [HashTable.growIfNeeded, h]

theorem size_succ_zero : (0 + 1) % SIZE_MOD = 1 := by
  unfold SIZE_MOD; omega

theorem size_pred_one : (1 + (SIZE_MOD - 1)) % SIZE_MOD = 0 := by
  unfold SIZE_MOD; omega

/-- The first iteration of `insertLoop` writes the book when the probed cell is not occupied. -/
theorem insertLoop_first {t : HashTable} {b : Book} {h fuel a : Nat}
    (hfree : (slot t.table (quadraticProbing t.sizeT h a)).status ≠ CellStatus.OCCUPIED) :
    insertLoop t b h (fuel + 1) a =
      (⟨t.table.set (quadraticProbing t.sizeT h a) ⟨b, CellStatus.OCCUPIED⟩, t.sizeT,
        (t.size + 1) % SIZE_MOD⟩, true) := by
  rw [insertLoop]
  exact if_pos hfree

/-- The first iteration of `searchLoop` returns the probed cell when it is occupied by the book. -/
theorem searchLoop_first {t : HashTable} {b : Book} {h fuel a : Nat}
    (hcell : slot t.table (quadraticProbing t.sizeT h a) = ⟨b, CellStatus.OCCUPIED⟩) :
    searchLoop t b h (fuel + 1) a = some (quadraticProbing t.sizeT h a) := by
  rw [searchLoop]
  simp [hcell, sameBook_iff]

theorem slot_set_cases (tab : List HashItem) (i j : Nat) (x : HashItem) :
    slot (tab.set i x) j = x ∨ slot (tab.set i x) j = slot tab j := by
  by_cases hij : i = j
  · subst hij
    by_cases hlen : i < tab.length
    · exact Or.inl (slot_set_self hlen x)
    · rw [List.set_eq_of_length_le (Nat.le_of_not_lt hlen)]
      exact Or.inr rfl
  · exact Or.inr (slot_set_ne hij x)

theorem rehashLoop_fromOld (strHash : List Int → Nat) (sizeT : Nat) (tab : List HashItem)
    (book : Book)
    (hbook : ∃ i, (slot tab i).status = CellStatus.OCCUPIED ∧ (slot tab i).data = book) :
    ∀ (fuel a : Nat) (newTable : List HashItem), FromOld tab newTable →
      FromOld tab (rehashLoop strHash sizeT book newTable fuel a) := by
  intro fuel
  induction fuel with
  | zero => intro a nt h; exact h
  | succ n ih =>
    intro a nt h
    rw [rehashLoop]
    split_ifs with h1
    · intro j hj
      rcases slot_set_cases nt (quadraticProbing sizeT (hashFunction strHash sizeT book) a) j
        ⟨book, CellStatus.OCCUPIED⟩ with hc | hc
      · rw [hc]; exact hbook
      · rw [hc] at hj ⊢; exact h j hj
    · exact ih (a + 1) nt h

theorem rehashStep_fromOld (strHash : List Int → Nat) (t : HashTable) (newsizeT : Nat)
    (newTable : List HashItem) (i : Nat) (h : FromOld t.table newTable) :
    FromOld t.table (rehashStep strHash t newsizeT newTable i) := by
  unfold rehashStep
  split_ifs with h1
  · exact rehashLoop_fromOld strHash t.sizeT t.table _ ⟨i, h1, rfl⟩ _ _ _ h
  · exact h

theorem foldl_rehashStep_fromOld (strHash : List Int → Nat) (t : HashTable) (newsizeT : Nat) :
    ∀ (l : List Nat) (newTable : List HashItem), FromOld t.table newTable →
      FromOld t.table (l.foldl (rehashStep strHash t newsizeT) newTable) := by
  intro l
  induction l with
  | nil => intro nt h; exact h
  | cons x xs ih =>
    intro nt h
    rw [List.foldl_cons]
    exact ih _ (rehashStep_fromOld strHash t newsizeT nt x h)

/-- Every book in an occupied cell after `rehash` was in an occupied cell before. -/
theorem rehash_fromOld (strHash : List Int → Nat) (t : HashTable) :
    FromOld t.table (t.rehash strHash).table := by
  unfold HashTable.rehash
  apply foldl_rehashStep_fromOld
  intro j hj
  rw [slot_replicate] at hj
  exact CellStatus.noConfusion hj

theorem reachable_insertAll (strHash : List Int → Nat) :
    ∀ (books : List Book) (t : HashTable), Reachable strHash t →
      fitsAll strHash t books = true → Reachable strHash (insertAll strHash t books) := by
  intro books
  induction books with
  | nil => intro t ht _; exact ht
  | cons b bs ih =>
    intro t ht hfit
    rw [fitsAll, Bool.and_eq_true, decide_eq_true_eq] at hfit
    exact ih _ (Reachable.insert t b ht hfit.1) hfit.2

theorem slot_cons_succ (x : HashItem) (xs : List HashItem) (i : Nat) :
    slot (x :: xs) (i + 1) = slot xs i := by
  simp [slot, List.getD]

theorem slot_eq_getElem {tab : List HashItem} {i : Nat} (h : i < tab.length) :
    slot tab i = tab[i] := by
  simp [slot, List.getD, h]

/-- Counting the indices whose cell satisfies `p` counts the cells that satisfy `p`. -/
theorem countP_range_slot (p : HashItem → Bool) :
    ∀ (tab : List HashItem),
      (List.range tab.length).countP (fun i => p (slot tab i)) = tab.countP p := by
  intro tab
  induction tab with
  | nil => rfl
  | cons x xs ih =>
    rw [List.length_cons, List.range_succ_eq_map, List.countP_cons, List.countP_cons,
      List.countP_map]
    have : ((fun i => p (slot (x :: xs) i)) ∘ Nat.succ) = (fun i => p (slot xs i)) := by
      funext i
      simp [Function.comp, slot_cons_succ]
    rw [this, ih]
    simp [slot, List.getD]

/-- Writing an occupied cell over a cell that is not occupied adds one occupied cell. -/
theorem countP_set_occupied {tab : List HashItem} {i : Nat} (b : Book)
    (hfree : (slot tab i).status ≠ CellStatus.OCCUPIED) :
    (tab.set i ⟨b, CellStatus.OCCUPIED⟩).countP isOccupied
      ≤ tab.countP isOccupied + 1 ∧
    (i < tab.length →
      (tab.set i ⟨b, CellStatus.OCCUPIED⟩).countP isOccupied
        = tab.countP isOccupied + 1) := by
  by_cases hlen : i < tab.length
  · have h := List.countP_set isOccupied tab i
      ⟨b, CellStatus.OCCUPIED⟩ hlen
    rw [slot_eq_getElem hlen] at hfree
    simp [isOccupied, hfree] at h
    exact ⟨by omega, fun _ => h⟩
  · rw [List.set_eq_of_length_le (Nat.le_of_not_lt hlen)]
    exact ⟨by omega, fun h => absurd h hlen⟩

/-- Marking an occupied cell `DELETED` removes one occupied cell. -/
theorem countP_set_deleted {tab : List HashItem} {i : Nat} (b : Book)
    (hocc : (slot tab i).status = CellStatus.OCCUPIED) :
    (tab.set i ⟨b, CellStatus.DELETED⟩).countP isOccupied + 1
      = tab.countP isOccupied := by
  have hlen : i < tab.length := lt_length_of_status (by rw [hocc]; decide)
  have h := List.countP_set isOccupied tab i
    ⟨b, CellStatus.DELETED⟩ hlen
  have hle := List.boole_getElem_le_countP isOccupied tab i hlen
  rw [slot_eq_getElem hlen] at hocc
  have hp : isOccupied tab[i] = true := by
    simp [isOccupied, hocc]
  have hq : ¬ (isOccupied
      ⟨b, CellStatus.DELETED⟩ = true) := by simp [isOccupied]
  rw [if_pos hp] at hle
  rw [if_pos hp, if_neg hq] at h
  omega

theorem rehashLoop_count (strHash : List Int → Nat) (sizeT : Nat) (book : Book) :
    ∀ (fuel a : Nat) (newTable : List HashItem),
      (rehashLoop strHash sizeT book newTable fuel a).countP isOccupied
        ≤ newTable.countP isOccupied + 1 := by
  intro fuel
  induction fuel with
  | zero => intro a nt; exact Nat.le_succ _
  | succ n ih =>
    intro a nt
    rw [rehashLoop]
    split_ifs with h1
    · exact (countP_set_occupied book h1).1
    · exact ih (a + 1) nt

theorem rehashStep_count (strHash : List Int → Nat) (t : HashTable) (newsizeT : Nat)
    (newTable : List HashItem) (i : Nat) :
    (rehashStep strHash t newsizeT newTable i).countP isOccupied
      ≤ newTable.countP isOccupied + (if isOccupied (slot t.table i) = true then 1 else 0) := by
  unfold rehashStep
  split_ifs with h1 h2 h2
  · exact rehashLoop_count _ _ _ _ _ _
  · exact absurd (by simp [isOccupied, h1]) h2
  · exact Nat.le_succ _
  · exact Nat.le_refl _

theorem foldl_rehashStep_count (strHash : List Int → Nat) (t : HashTable) (newsizeT : Nat) :
    ∀ (l : List Nat) (newTable : List HashItem),
      (l.foldl (rehashStep strHash t newsizeT) newTable).countP isOccupied
        ≤ newTable.countP isOccupied + l.countP (fun i => isOccupied (slot t.table i)) := by
  intro l
  induction l with
  | nil => intro nt; simp
  | cons x xs ih =>
    intro nt
    rw [List.foldl_cons, List.countP_cons]
    have h1 := ih (rehashStep strHash t newsizeT nt x)
    have h2 := rehashStep_count strHash t newsizeT nt x
    omega

/-- Method `rehash` does not add occupied cells. -/
theorem rehash_count (strHash : List Int → Nat) (t : HashTable)
    (hlen : t.table.length = t.sizeT) :
    occupiedCount (t.rehash strHash) ≤ occupiedCount t := by
  unfold occupiedCount HashTable.rehash
  have h := foldl_rehashStep_count strHash t ((t.sizeT * 2) % SIZE_MOD) (List.range t.sizeT)
    (List.replicate ((t.sizeT * 2) % SIZE_MOD) HashItem.empty)
  rw [← hlen, countP_range_slot isOccupied t.table] at h
  have h0 : (List.replicate ((t.table.length * 2) % SIZE_MOD) HashItem.empty).countP isOccupied = 0 := by
    rw [List.countP_eq_zero]
    intro c hc
    rw [List.eq_of_mem_replicate hc]
    simp [isOccupied, HashItem.empty]
  rw [h0] at h
  simp only [← hlen]
  omega

theorem insertLoop_sizeT (t : HashTable) (b : Book) (h : Nat) :
    ∀ (fuel a : Nat), (insertLoop t b h fuel a).1.sizeT = t.sizeT := by
  intro fuel
  induction fuel with
  | zero => intro a; rfl
  | succ n ih =>
    intro a
    rw [insertLoop]
    split_ifs
    · rfl
    · exact ih (a + 1)

theorem rehash_sizeT (strHash : List Int → Nat) (t : HashTable) (h : t.sizeT < SLOT_LIMIT) :
    (t.rehash strHash).sizeT = 2 * t.sizeT := by
  show (t.sizeT * 2) % SIZE_MOD = 2 * t.sizeT
  unfold SLOT_LIMIT at h
  unfold SIZE_MOD
  omega

theorem inv_new {n : Nat} (h1 : 1 ≤ n) (h2 : n < SLOT_LIMIT) : TableInv (HashTable.new n) := by
  refine ⟨by simp [HashTable.new], h1, h2, ?_, by simp [HashTable.new]⟩
  have h0 : (List.replicate n HashItem.empty).countP isOccupied = 0 := by
    rw [List.countP_eq_zero]
    intro c hc
    rw [List.eq_of_mem_replicate hc]
    simp [isOccupied, HashItem.empty]
  simp [occupiedCount, HashTable.new, h0]

/-- The table that `insert` probes, for a table satisfying the invariant: its
`size` is below its capacity. -/
theorem inv_grown (strHash : List Int → Nat) {t : HashTable} (h : TableInv t) :
    (t.growIfNeeded strHash).table.length = (t.growIfNeeded strHash).sizeT ∧
    1 ≤ (t.growIfNeeded strHash).sizeT ∧
    (t.growIfNeeded strHash).sizeT < 2 * SLOT_LIMIT ∧
    occupiedCount (t.growIfNeeded strHash) ≤ (t.growIfNeeded strHash).size ∧
    (t.growIfNeeded strHash).size < (t.growIfNeeded strHash).sizeT := by
  obtain ⟨h1, h2, h3, h4, h5⟩ := h
  unfold HashTable.growIfNeeded
  by_cases hn : needsRehash t = true
  · rw [if_pos hn]
    have hs := rehash_sizeT strHash t h3
    have hc := rehash_count strHash t h1
    have hsize : (t.rehash strHash).size = t.size := rfl
    rw [hs, hsize]
    exact ⟨(rehash_length strHash t).trans hs, by omega, by omega, by omega, by omega⟩
  · rw [if_neg hn]
    have hlt := needsRehash_false_lt h2 (by unfold SLOT_LIMIT at h3; omega)
      (by unfold SLOT_LIMIT at h3; omega) (Bool.eq_false_iff.2 hn)
    exact ⟨h1, h2, by omega, h4, hlt⟩

theorem size_succ_of_grown {s c : Nat} (h1 : s < c) (h2 : c < 2 * SLOT_LIMIT) :
    (s + 1) % SIZE_MOD = s + 1 := by
  apply Nat.mod_eq_of_lt
  unfold SLOT_LIMIT at h2
  unfold SIZE_MOD
  omega

theorem inv_insert (strHash : List Int → Nat) {t : HashTable} (r : Book) (h : TableInv t)
    (hfit : (t.insert strHash r).1.sizeT < SLOT_LIMIT) : TableInv (t.insert strHash r).1 := by
  obtain ⟨g1, g2, g3, g4, g5⟩ := inv_grown strHash h
  rw [insert_eq] at hfit ⊢
  rw [insertLoop_sizeT] at hfit
  cases hres : insertLoop (t.growIfNeeded strHash) r
      (hashFunction strHash (t.growIfNeeded strHash).sizeT r)
      (t.growIfNeeded strHash).sizeT 0 with
  | mk t2 ok =>
    cases ok with
    | false =>
      obtain ⟨ht2, -⟩ := insertLoop_false _ _ hres
      subst ht2
      show TableInv (t.growIfNeeded strHash)
      exact ⟨g1, g2, hfit, g4, by omega⟩
    | true =>
      obtain ⟨k, -, hk2, hk3, -, hk5⟩ := insertLoop_true _ _ hres
      subst hk5
      have hidx := quadraticProbing_lt g2
        (hashFunction strHash (t.growIfNeeded strHash).sizeT r) k
      have hcnt := (countP_set_occupied r hk3).2 (by rw [g1]; exact hidx)
      have hmod := size_succ_of_grown g5 g3
      unfold occupiedCount at g4
      unfold TableInv occupiedCount
      simp only [List.length_set, hmod, hcnt]
      exact ⟨g1, g2, hfit, by omega, by omega⟩

theorem inv_remove (strHash : List Int → Nat) {t : HashTable} (r : Book) (h : TableInv t) :
    TableInv (t.remove strHash r).1 := by
  obtain ⟨h1, h2, h3, h4, h5⟩ := h
  cases hs : t.search strHash r with
  | none => rw [remove_of_search_none hs]; exact ⟨h1, h2, h3, h4, h5⟩
  | some i =>
    rw [remove_of_search_some hs]
    have hi := search_some hs
    have hcnt := countP_set_deleted r hi.1
    unfold occupiedCount at h4
    have hmod : (t.size + (SIZE_MOD - 1)) % SIZE_MOD = t.size - 1 := by
      unfold SLOT_LIMIT at h3
      unfold SIZE_MOD
      omega
    unfold TableInv occupiedCount
    simp only [List.length_set, hmod]
    exact ⟨h1, h2, h3, by omega, by omega⟩

/-- Every reachable table satisfies the invariant. -/
theorem reachable_inv {strHash : List Int → Nat} {t : HashTable} (h : Reachable strHash t) :
    TableInv t := by
  induction h with
  | new n h1 h2 => exact inv_new h1 h2
  | insert t r _ hfit ih => exact inv_insert strHash r ih hfit
  | remove t r _ ih => exact inv_remove strHash r ih

/-- A property of the cells that fails on `HashItem.empty` holds nowhere when it
holds at no index of the vector. -/
theorem absent_of_bounded {tab : List HashItem} {r : Book}
    (h : ∀ i, i < tab.length →
      ¬ ((slot tab i).status = CellStatus.OCCUPIED ∧ (slot tab i).data = r)) :
    ∀ i, ¬ ((slot tab i).status = CellStatus.OCCUPIED ∧ (slot tab i).data = r) := by
  intro i hi
  exact h i (lt_length_of_status (by rw [hi.1]; decide)) hi

theorem unique_of_bounded {tab : List HashItem} {r : Book}
    (h : ∀ i, i < tab.length → ∀ j, j < tab.length →
      (slot tab i).status = CellStatus.OCCUPIED ∧ (slot tab i).data = r →
      (slot tab j).status = CellStatus.OCCUPIED ∧ (slot tab j).data = r → i = j) :
    ∀ i j, (slot tab i).status = CellStatus.OCCUPIED ∧ (slot tab i).data = r →
      (slot tab j).status = CellStatus.OCCUPIED ∧ (slot tab j).data = r → i = j := by
  intro i j hi hj
  exact h i (lt_length_of_status (by rw [hi.1]; decide)) j
    (lt_length_of_status (by rw [hj.1]; decide)) hi hj

theorem hashFunction_lt (strHash : List Int → Nat) {sizeT : Nat} (h : 1 ≤ sizeT) (book : Book) :
    hashFunction strHash sizeT book < sizeT := by
  unfold hashFunction
  exact Nat.mod_lt _ (by omega)

/-- Below `2 ^ 32` cells the `size_t` computation of `quadraticProbing` does not
wrap and agrees with the formula of the specification. -/
theorem quadraticProbing_eq_specProbe {sizeT start k : Nat} (hcap : sizeT ≤ 2 ^ 32)
    (hs : start < sizeT) (hk : k < sizeT) :
    quadraticProbing sizeT start k = specProbe sizeT start k := by
  have hk1 : k ≤ 4294967295 := by omega
  have hkk : k * k ≤ 4294967295 * 4294967295 := Nat.mul_le_mul hk1 hk1
  unfold quadraticProbing specProbe SIZE_MOD
  rw [Nat.mod_eq_of_lt (a := k * k) (by omega), Nat.mod_eq_of_lt (a := start + k * k) (by omega)]

/-- The loop of `search` is the reference walk as long as the probe indices agree. -/
theorem searchLoop_eq_searchWalk (t : HashTable) (r : Book) (h : Nat) :
    ∀ (fuel a : Nat),
      (∀ k, a ≤ k → k < a + fuel → quadraticProbing t.sizeT h k = specProbe t.sizeT h k) →
      searchLoop t r h fuel a = searchWalk t r h (List.range' a fuel) := by
  intro fuel
  induction fuel with
  | zero => intro a _; rfl
  | succ n ih =>
    intro a hp
    rw [List.range'_succ, searchLoop, searchWalk, hp a (Nat.le_refl _) (by omega),
      ih (a + 1) (fun k hk1 hk2 => hp k (by omega) (by omega))]
    cases hst : (slot t.table (specProbe t.sizeT h a)).status with
    | EMPTY => simp
    | OCCUPIED =>
      simp only [sameBook, Bool.and_eq_true, decide_eq_true_eq]
      by_cases hm : (slot t.table (specProbe t.sizeT h a)).data.year = r.year ∧
          (slot t.table (specProbe t.sizeT h a)).data.title = r.title ∧
          (slot t.table (specProbe t.sizeT h a)).data.author = r.author
      · simp [hm.1, hm.2.1, hm.2.2]
      · rw [if_neg hm]
        simp only [reduceCtorEq, if_false, true_and]
        rw [if_neg (fun hc => hm ⟨hc.2, hc.1.1, hc.1.2⟩)]
    | DELETED => simp

theorem slot_replicate_lt {n i : Nat} (x : HashItem) (h : i < n) :
    slot (List.replicate n x) i = x := by
  simp [slot, List.getD, List.getElem?_replicate, h]

theorem book_eq_of_fields {a b : Book} (h1 : a.year = b.year) (h2 : a.title = b.title)
    (h3 : a.author = b.author) : a = b := by
  cases a
  cases b
  simp only [Book.mk.injEq]
  exact ⟨h1, h2, h3⟩

/-- The reference walk finds nothing when every cell it visits is occupied by
another book. -/
theorem searchWalk_none (t : HashTable) (r : Book) (start : Nat) :
    ∀ (l : List Nat),
      (∀ k, k ∈ l → (slot t.table (specProbe t.sizeT start k)).status = CellStatus.OCCUPIED ∧
        (slot t.table (specProbe t.sizeT start k)).data ≠ r) →
      searchWalk t r start l = none := by
  intro l
  induction l with
  | nil => intro _; rfl
  | cons k ks ih =>
    intro h
    have hk := h k (List.mem_cons_self _ _)
    rw [searchWalk, hk.1]
    simp only
    rw [if_neg (fun hc => hk.2 (book_eq_of_fields hc.1 hc.2.1 hc.2.2))]
    exact ih (fun j hj => h j (List.mem_cons_of_mem _ hj))

theorem sq_mod_three_ne_two (k : Nat) : (k * k) % 3 ≠ 2 := by
  rw [Nat.mul_mod]
  have h : k % 3 < 3 := Nat.mod_lt _ (by decide)
  interval_cases k % 3 <;> decide

theorem rehashLoop_upper (strHash : List Int → Nat) {sizeT : Nat} (hcap : 1 ≤ sizeT) (book : Book)
    {i : Nat} (hi : sizeT ≤ i) :
    ∀ (fuel a : Nat) (newTable : List HashItem),
      slot (rehashLoop strHash sizeT book newTable fuel a) i = slot newTable i := by
  intro fuel
  induction fuel with
  | zero => intro a nt; rfl
  | succ n ih =>
    intro a nt
    rw [rehashLoop]
    split_ifs with h1
    · have hlt := quadraticProbing_lt hcap (hashFunction strHash sizeT book) a
      exact slot_set_ne (by omega) _
    · exact ih (a + 1) nt

theorem foldl_rehashStep_upper (strHash : List Int → Nat) (t : HashTable) (hcap : 1 ≤ t.sizeT)
    (newsizeT : Nat) {i : Nat} (hi : t.sizeT ≤ i) :
    ∀ (l : List Nat) (newTable : List HashItem),
      slot (l.foldl (rehashStep strHash t newsizeT) newTable) i = slot newTable i := by
  intro l
  induction l with
  | nil => intro nt; rfl
  | cons x xs ih =>
    intro nt
    rw [List.foldl_cons, ih]
    unfold rehashStep
    split_ifs
    · exact rehashLoop_upper strHash hcap _ hi _ _ _
    · rfl

/-- After `rehash`, every cell whose index is at least the old capacity is
still the default-constructed empty item: the loop of `rehash` computes its
indices with the old `sizeT`. -/
theorem rehash_upper_cells_empty (strHash : List Int → Nat) (t : HashTable) (hcap : 1 ≤ t.sizeT)
    {i : Nat} (hi : t.sizeT ≤ i) : slot (t.rehash strHash).table i = HashItem.empty := by
  unfold HashTable.rehash
  show slot (List.foldl _ _ _) i = _
  rw [foldl_rehashStep_upper strHash t hcap _ hi, slot_replicate]

/-- For every string hash: a book whose start index under the doubled capacity
is at least the old capacity is not found after `rehash`, whether or not the
table held it. -/
theorem search_none_after_rehash (strHash : List Int → Nat) (t : HashTable) (b : Book)
    (hcap : 1 ≤ t.sizeT) (hfit : t.sizeT < SLOT_LIMIT)
    (hb : t.sizeT ≤ hashFunction strHash (2 * t.sizeT) b) :
    (t.rehash strHash).search strHash b = none := by
  have hs := rehash_sizeT strHash t hfit
  have hlt : hashFunction strHash (2 * t.sizeT) b < 2 * t.sizeT :=
    hashFunction_lt strHash (by omega) b
  have hq : quadraticProbing (2 * t.sizeT) (hashFunction strHash (2 * t.sizeT) b) 0
      = hashFunction strHash (2 * t.sizeT) b := by
    unfold quadraticProbing SIZE_MOD
    unfold SLOT_LIMIT at hfit
    rw [Nat.mul_zero, Nat.zero_mod, Nat.add_zero,
      Nat.mod_eq_of_lt (a := hashFunction strHash (2 * t.sizeT) b) (b := 2 ^ 64) (by omega),
      Nat.mod_eq_of_lt hlt]
  unfold HashTable.search
  rw [hs]
  obtain ⟨m, hm⟩ : ∃ m, 2 * t.sizeT = m + 1 := ⟨2 * t.sizeT - 1, by omega⟩
  rw [hm, searchLoop, ← hm, hs, hq, rehash_upper_cells_empty strHash t hcap hb]
  simp [HashItem.empty]

theorem quadraticProbing_zero {sizeT start : Nat} (hs : start < sizeT) (hcap : sizeT < SLOT_LIMIT) :
    quadraticProbing sizeT start 0 = start := by
  unfold quadraticProbing SIZE_MOD
  unfold SLOT_LIMIT at hcap
  rw [Nat.mul_zero, Nat.zero_mod, Nat.add_zero, Nat.mod_eq_of_lt (a := start) (b := 2 ^ 64) (by omega),
    Nat.mod_eq_of_lt hs]

/-- When no growth is due and the cell at the hash start index is not occupied,
`insert` stores the book in that cell. -/
theorem insert_of_free_start (strHash : List Int → Nat) (t : HashTable) (b : Book)
    (hwf : t.WF) (hcap : t.sizeT < SLOT_LIMIT) (hn : needsRehash t = false)
    (hfree : (slot t.table (hashFunction strHash t.sizeT b)).status ≠ CellStatus.OCCUPIED) :
    t.insert strHash b =
      (⟨t.table.set (hashFunction strHash t.sizeT b) ⟨b, CellStatus.OCCUPIED⟩, t.sizeT,
        (t.size + 1) % SIZE_MOD⟩, true) := by
  have hq := quadraticProbing_zero (hashFunction_lt strHash hwf.2 b) hcap
  rw [insert_eq, growIfNeeded_of_not strHash hn]
  obtain ⟨m, hm⟩ : ∃ m, t.sizeT = m + 1 := ⟨t.sizeT - 1, by have := hwf.2; omega⟩
  have hfree2 : (slot t.table (quadraticProbing t.sizeT (hashFunction strHash t.sizeT b) 0)).status
      ≠ CellStatus.OCCUPIED := by rw [hq]; exact hfree
  have h := @insertLoop_first t b (hashFunction strHash t.sizeT b) m 0 hfree2
  rw [hq] at h
  rw [← h, hm]

/-- Inserting books whose hash start indices are pairwise different and point to
empty cells, while `needsRehash` stays false: every call stores its book at its
start index and leaves the other cells as they were. -/
theorem insertAll_distinct_of (strHash : List Int → Nat) :
    ∀ (books : List Book) (t : HashTable), t.WF → t.sizeT < SLOT_LIMIT →
      t.size + books.length < SIZE_MOD →
      (∀ k, k < books.length → ∀ tab, needsRehash ⟨tab, t.sizeT, t.size + k⟩ = false) →
      (books.map (hashFunction strHash t.sizeT)).Nodup →
      (∀ b, b ∈ books →
        (slot t.table (hashFunction strHash t.sizeT b)).status ≠ CellStatus.OCCUPIED) →
      (insertAll strHash t books).WF ∧
      (insertAll strHash t books).sizeT = t.sizeT ∧
      (insertAll strHash t books).size = t.size + books.length ∧
      fitsAll strHash t books = true ∧
      (∀ b, b ∈ books → slot (insertAll strHash t books).table (hashFunction strHash t.sizeT b)
        = ⟨b, CellStatus.OCCUPIED⟩) ∧
      (∀ i, (∀ b, b ∈ books → hashFunction strHash t.sizeT b ≠ i) →
        slot (insertAll strHash t books).table i = slot t.table i) := by
  intro books
  induction books with
  | nil =>
    intro t hwf _ _ _ _ _
    exact ⟨hwf, rfl, rfl, rfl, fun b hb => absurd hb (List.not_mem_nil b), fun i _ => rfl⟩
  | cons b bs ih =>
    intro t hwf hcap hsize hload hnd hfree
    rw [List.length_cons] at hsize hload
    have hn : needsRehash t = false := hload 0 (by omega) t.table
    have hins := insert_of_free_start strHash t b hwf hcap hn (hfree b (List.mem_cons_self _ _))
    have hmod : (t.size + 1) % SIZE_MOD = t.size + 1 := by
      apply Nat.mod_eq_of_lt
      omega
    rw [hmod] at hins
    rw [List.map_cons, List.nodup_cons] at hnd
    have hidx : hashFunction strHash t.sizeT b < t.table.length := by
      rw [hwf.1]; exact hashFunction_lt strHash hwf.2 b
    have hne : ∀ c, c ∈ bs → hashFunction strHash t.sizeT b ≠ hashFunction strHash t.sizeT c :=
      fun c hc heq => hnd.1 (heq ▸ List.mem_map_of_mem _ hc)
    obtain ⟨i1, i2, i3, i4, i5, i6⟩ := ih
      ⟨t.table.set (hashFunction strHash t.sizeT b) ⟨b, CellStatus.OCCUPIED⟩, t.sizeT, t.size + 1⟩
      ⟨by rw [List.length_set]; exact hwf.1, hwf.2⟩ hcap
      (by show t.size + 1 + bs.length < SIZE_MOD; omega)
      (fun k hk tab => by
        show needsRehash ⟨tab, t.sizeT, t.size + 1 + k⟩ = false
        have := hload (k + 1) (by omega) tab
        rwa [show t.size + (k + 1) = t.size + 1 + k by omega] at this) hnd.2
      (fun c hc => by
        show (slot (t.table.set _ _) _).status ≠ _
        rw [slot_set_ne (hne c hc)]
        exact hfree c (List.mem_cons_of_mem _ hc))
    have hstep : insertAll strHash t (b :: bs) = insertAll strHash
        ⟨t.table.set (hashFunction strHash t.sizeT b) ⟨b, CellStatus.OCCUPIED⟩, t.sizeT,
          t.size + 1⟩ bs := by
      rw [insertAll, hins]
    have hfit : fitsAll strHash t (b :: bs) = true := by
      rw [fitsAll, hins, Bool.and_eq_true, decide_eq_true_eq]
      exact ⟨hcap, i4⟩
    rw [hstep]
    refine ⟨i1, i2, ?_, hfit, ?_, ?_⟩
    · rw [i3, List.length_cons]
      show t.size + 1 + bs.length = t.size + (bs.length + 1)
      omega
    · intro c hc
      rcases List.mem_cons.1 hc with rfl | hc
      · rw [i6 _ (fun d hd => (hne d hd).symm)]
        exact slot_set_self hidx _
      · exact i5 c hc
    · intro i hi
      rw [i6 i (fun c hc => hi c (List.mem_cons_of_mem _ hc))]
      exact slot_set_ne (hi b (List.mem_cons_self _ _)) _

/-- Inserting books whose hash start indices are pairwise different and point to
empty cells into a table of fewer than `2 ^ 54 / 18` cells, while the load
stays below seven tenths: every call stores its book at its start index and
leaves the other cells as they were. -/
theorem insertAll_distinct (strHash : List Int → Nat) (books : List Book) (t : HashTable)
    (hwf : t.WF) (hcap : t.sizeT < SLOT_LIMIT) (hsmall : 18 * t.sizeT < 2 ^ 54)
    (hsize : 10 * (t.size + books.length) < 7 * t.sizeT + 10)
    (hnd : (books.map (hashFunction strHash t.sizeT)).Nodup)
    (hfree : ∀ b, b ∈ books →
      (slot t.table (hashFunction strHash t.sizeT b)).status ≠ CellStatus.OCCUPIED) :
    (insertAll strHash t books).WF ∧
    (insertAll strHash t books).sizeT = t.sizeT ∧
    (insertAll strHash t books).size = t.size + books.length ∧
    fitsAll strHash t books = true ∧
    (∀ b, b ∈ books → slot (insertAll strHash t books).table (hashFunction strHash t.sizeT b)
      = ⟨b, CellStatus.OCCUPIED⟩) ∧
    (∀ i, (∀ b, b ∈ books → hashFunction strHash t.sizeT b ≠ i) →
      slot (insertAll strHash t books).table i = slot t.table i) :=
  insertAll_distinct_of strHash books t hwf hcap
    (by unfold SIZE_MOD; norm_num at hsmall ⊢; omega)
    (fun k hk tab => needsRehash_false_of_small hwf.2 hsmall
      (by show 10 * (t.size + k) < 7 * t.sizeT; omega))
    hnd hfree

theorem hash_eleven_nodup (strHash : List Int → Nat) :
    (booksThirtyTwo.map (hashFunction strHash 11)).Nodup := by
  have ha := Nat.mod_lt (strHash [] % SIZE_MOD) (by decide : 0 < 11)
  simp only [booksThirtyTwo, List.map, hashFunction, bookOfYear, List.foldl]
  generalize strHash [] % SIZE_MOD % 11 = a at ha ⊢
  interval_cases a <;> decide

theorem hash_twenty_two_upper (strHash : List Int → Nat) :
    ∃ b, b ∈ booksThirtyTwo ∧ 11 ≤ hashFunction strHash 22 b := by
  have ha := Nat.mod_lt (strHash [] % SIZE_MOD) (by decide : 0 < 22)
  have key : 11 ≤ hashFunction strHash 22 (bookOfYear 0) ∨
      11 ≤ hashFunction strHash 22 (bookOfYear 32) ∨
      11 ≤ hashFunction strHash 22 (bookOfYear 64) := by
    simp only [hashFunction, bookOfYear, List.foldl]
    generalize strHash [] % SIZE_MOD % 22 = a at ha ⊢
    interval_cases a <;> decide
  rcases key with h | h | h
  · exact ⟨_, by simp [booksThirtyTwo], h⟩
  · exact ⟨_, by simp [booksThirtyTwo], h⟩
  · exact ⟨_, by simp [booksThirtyTwo], h⟩

theorem hashAgree_const (strHash : List Int → Nat) {m c : Nat} (hpos : 0 < m)
    (hm : m < SIZE_MOD) (hc : c ∣ m) :
    HashAgree strHash (constHash (strHash [] % SIZE_MOD % m)) c := by
  intro b hb
  unfold hashFunction constHash
  rw [hb, Nat.mod_eq_of_lt (a := strHash [] % SIZE_MOD % m) (b := SIZE_MOD), Nat.mod_mod_of_dvd _ hc]
  exact Nat.lt_trans (Nat.mod_lt _ hpos) hm

theorem rehashLoop_congr {s1 s2 : List Int → Nat} {sizeT : Nat} {book : Book}
    (h : hashFunction s1 sizeT book = hashFunction s2 sizeT book) (newTable : List HashItem) :
    ∀ (fuel a : Nat), rehashLoop s1 sizeT book newTable fuel a
      = rehashLoop s2 sizeT book newTable fuel a := by
  intro fuel
  induction fuel with
  | zero => intro a; rfl
  | succ n ih =>
    intro a
    rw [rehashLoop, rehashLoop, h, ih (a + 1)]

theorem rehash_congr {s1 s2 : List Int → Nat} {t : HashTable} (hp : Plain t.table)
    (ha : HashAgree s1 s2 t.sizeT) : t.rehash s1 = t.rehash s2 := by
  unfold HashTable.rehash
  have hstep : rehashStep s1 t ((t.sizeT * 2) % SIZE_MOD) = rehashStep s2 t ((t.sizeT * 2) % SIZE_MOD) := by
    funext nt i
    unfold rehashStep
    split_ifs with h1
    · exact rehashLoop_congr (ha _ (hp i h1)) nt _ _
    · rfl
  simp only [hstep]

theorem plain_rehash (strHash : List Int → Nat) {t : HashTable} (hp : Plain t.table) :
    Plain (t.rehash strHash).table := by
  intro i hi
  obtain ⟨j, hj1, hj2⟩ := rehash_fromOld strHash t i hi
  rw [← hj2]
  exact hp j hj1

theorem growIfNeeded_congr {s1 s2 : List Int → Nat} {t : HashTable} (hp : Plain t.table)
    (ha : HashAgree s1 s2 t.sizeT) : t.growIfNeeded s1 = t.growIfNeeded s2 := by
  unfold HashTable.growIfNeeded
  split_ifs
  · exact rehash_congr hp ha
  · rfl

theorem insert_congr {s1 s2 : List Int → Nat} {t : HashTable} {b : Book} (hp : Plain t.table)
    (hb : b.author = []) (ha1 : HashAgree s1 s2 t.sizeT)
    (ha2 : HashAgree s1 s2 (t.growIfNeeded s2).sizeT) : t.insert s1 b = t.insert s2 b := by
  rw [insert_eq, insert_eq, growIfNeeded_congr hp ha1, ha2 b hb]

theorem plain_insertLoop {t : HashTable} {b : Book} (hp : Plain t.table) (hb : b.author = [])
    (h : Nat) : ∀ (fuel a : Nat), Plain (insertLoop t b h fuel a).1.table := by
  intro fuel
  induction fuel with
  | zero => intro a; exact hp
  | succ n ih =>
    intro a
    rw [insertLoop]
    split_ifs with h1
    · intro i hi
      rcases slot_set_cases t.table (quadraticProbing t.sizeT h a) i ⟨b, CellStatus.OCCUPIED⟩
        with hc | hc
      · show (slot (t.table.set _ _) i).data.author = []
        rw [hc]; exact hb
      · show (slot (t.table.set _ _) i).data.author = []
        rw [hc]
        refine hp i ?_
        have hi2 : (slot (t.table.set (quadraticProbing t.sizeT h a)
            ⟨b, CellStatus.OCCUPIED⟩) i).status = CellStatus.OCCUPIED := hi
        rw [hc] at hi2
        exact hi2
    · exact ih (a + 1)

theorem plain_insert (strHash : List Int → Nat) {t : HashTable} {b : Book} (hp : Plain t.table)
    (hb : b.author = []) : Plain (t.insert strHash b).1.table := by
  rw [insert_eq]
  apply plain_insertLoop _ hb
  unfold HashTable.growIfNeeded
  split_ifs
  · exact plain_rehash strHash hp
  · exact hp

/-- Inserting a list of books with empty author gives the same tables under two
string hashes that agree at every capacity met. -/
theorem insertAll_congr {s1 s2 : List Int → Nat} {m : Nat}
    (ha : ∀ c, c ∣ m → HashAgree s1 s2 c) :
    ∀ (books : List Book) (t : HashTable), Plain t.table → capsOK m s2 t books = true →
      insertAll s1 t books = insertAll s2 t books ∧ fitsAll s1 t books = fitsAll s2 t books := by
  intro books
  induction books with
  | nil => intro t _ _; exact ⟨rfl, rfl⟩
  | cons b bs ih =>
    intro t hp hc
    rw [capsOK] at hc
    simp only [Bool.and_eq_true, decide_eq_true_eq] at hc
    obtain ⟨⟨⟨hc1, hc2⟩, hc3⟩, hc4⟩ := hc
    have hins := insert_congr hp hc3 (ha _ hc1) (ha _ hc2)
    obtain ⟨i1, i2⟩ := ih (t.insert s2 b).1 (plain_insert s2 hp hc3) hc4
    rw [insertAll, insertAll, fitsAll, fitsAll, hins, i1, i2]
    exact ⟨rfl, rfl⟩

theorem plain_new (n : Nat) : Plain (HashTable.new n).table := by
  intro i hi
  have hi2 : (slot (List.replicate n HashItem.empty) i).status = CellStatus.OCCUPIED := hi
  rw [slot_replicate] at hi2
  exact CellStatus.noConfusion hi2

/-- For each of the 22 residues of the hash of the empty string, inserting the
books of `dropBooks` into the default table with the constant string hash leaves
`size = 9` and eight occupied cells. -/
theorem dropBooks_run :
    ∀ a, a < 22 →
      capsOK 22 (constHash a) (HashTable.new DEFAULT_SIZE) (dropBooks (a % 11)) = true ∧
      fitsAll (constHash a) (HashTable.new DEFAULT_SIZE) (dropBooks (a % 11)) = true ∧
      (insertAll (constHash a) (HashTable.new DEFAULT_SIZE) (dropBooks (a % 11))).sizeT = 22 ∧
      (insertAll (constHash a) (HashTable.new DEFAULT_SIZE) (dropBooks (a % 11))).size = 9 ∧
      occupiedCount (insertAll (constHash a) (HashTable.new DEFAULT_SIZE) (dropBooks (a % 11)))
        = 8 ∧
      (dropBooks (a % 11)).Nodup := by
  decide

/-! Further lemmas: the loops, prime capacities, checked accesses, the scenario of `main`. -/

theorem rehashLoop_status (strHash : List Int → Nat) (sizeT : Nat) (book : Book) :
    ∀ (fuel a : Nat) (newTable : List HashItem),
      (∀ i, (slot newTable i).status ≠ CellStatus.DELETED) →
      ∀ i, (slot (rehashLoop strHash sizeT book newTable fuel a) i).status
        ≠ CellStatus.DELETED := by
  intro fuel
  induction fuel with
  | zero => intro a nt h; exact h
  | succ n ih =>
    intro a nt h
    rw [rehashLoop]
    split_ifs with h1
    · intro i
      rcases slot_set_cases nt (quadraticProbing sizeT (hashFunction strHash sizeT book) a) i
        ⟨book, CellStatus.OCCUPIED⟩ with hc | hc
      · rw [hc]; exact fun hd => CellStatus.noConfusion hd
      · rw [hc]; exact h i
    · exact ih (a + 1) nt h

theorem foldl_rehashStep_status (strHash : List Int → Nat) (t : HashTable) (newsizeT : Nat) :
    ∀ (l : List Nat) (newTable : List HashItem),
      (∀ i, (slot newTable i).status ≠ CellStatus.DELETED) →
      ∀ i, (slot (l.foldl (rehashStep strHash t newsizeT) newTable) i).status
        ≠ CellStatus.DELETED := by
  intro l
  induction l with
  | nil => intro nt h; exact h
  | cons x xs ih =>
    intro nt h
    rw [List.foldl_cons]
    apply ih
    unfold rehashStep
    split_ifs
    · exact rehashLoop_status strHash _ _ _ _ _ h
    · exact h

/-- After `rehash` no cell is `DELETED`. -/
theorem rehash_no_deleted (strHash : List Int → Nat) (t : HashTable) (i : Nat) :
    (slot (t.rehash strHash).table i).status ≠ CellStatus.DELETED := by
  unfold HashTable.rehash
  apply foldl_rehashStep_status
  intro j
  rw [slot_replicate]
  exact fun hd => CellStatus.noConfusion hd

/-- When attempt `k` reaches a cell occupied by the book and every earlier
attempt reaches a cell that is neither empty nor a match, `searchLoop` returns
the cell of attempt `k`. -/
theorem searchLoop_eq_some {t : HashTable} {b : Book} {h : Nat} :
    ∀ (fuel a k : Nat), a ≤ k → k < a + fuel →
      (slot t.table (quadraticProbing t.sizeT h k)).status = CellStatus.OCCUPIED →
      (slot t.table (quadraticProbing t.sizeT h k)).data = b →
      (∀ j, a ≤ j → j < k →
        (slot t.table (quadraticProbing t.sizeT h j)).status ≠ CellStatus.EMPTY ∧
        ¬ ((slot t.table (quadraticProbing t.sizeT h j)).status = CellStatus.OCCUPIED ∧
            (slot t.table (quadraticProbing t.sizeT h j)).data = b)) →
      searchLoop t b h fuel a = some (quadraticProbing t.sizeT h k) := by
  intro fuel
  induction fuel with
  | zero => intro a k h1 h2; omega
  | succ n ih =>
    intro a k hk1 hk2 hocc hdata hpre
    rw [searchLoop]
    by_cases hka : k = a
    · subst hka
      have hne : (slot t.table (quadraticProbing t.sizeT h k)).status ≠ CellStatus.EMPTY := by
        rw [hocc]; decide
      rw [if_neg hne, if_pos ⟨hocc, (sameBook_iff _ _).2 hdata⟩]
    · have hp := hpre a (le_refl _) (by omega)
      rw [if_neg hp.1, if_neg (fun hc => hp.2 ⟨hc.1, (sameBook_iff _ _).1 hc.2⟩)]
      exact ih (a + 1) k (by omega) (by omega) hocc hdata
        (fun j hj1 hj2 => hpre j (by omega) hj2)

/-- Two tables of the same capacity whose cells look the same to a search for
`b` (same cells empty, same cells occupied by `b`) give the same `searchLoop`. -/
theorem searchLoop_congr {t1 t2 : HashTable} {b : Book} {h : Nat} (hs : t1.sizeT = t2.sizeT)
    (hview : ∀ i,
      ((slot t1.table i).status = CellStatus.EMPTY ↔ (slot t2.table i).status = CellStatus.EMPTY) ∧
      (((slot t1.table i).status = CellStatus.OCCUPIED ∧ (slot t1.table i).data = b) ↔
        ((slot t2.table i).status = CellStatus.OCCUPIED ∧ (slot t2.table i).data = b))) :
    ∀ (fuel a : Nat), searchLoop t1 b h fuel a = searchLoop t2 b h fuel a := by
  intro fuel
  induction fuel with
  | zero => intro a; rfl
  | succ n ih =>
    intro a
    rw [searchLoop, searchLoop, ← hs, ih (a + 1)]
    have hv := hview (quadraticProbing t1.sizeT h a)
    by_cases he : (slot t1.table (quadraticProbing t1.sizeT h a)).status = CellStatus.EMPTY
    · rw [if_pos he, if_pos (hv.1.1 he)]
    · rw [if_neg he, if_neg (fun hc => he (hv.1.2 hc))]
      by_cases hm : (slot t1.table (quadraticProbing t1.sizeT h a)).status = CellStatus.OCCUPIED ∧
          (slot t1.table (quadraticProbing t1.sizeT h a)).data = b
      · have hm2 := hv.2.1 hm
        rw [if_pos ⟨hm.1, (sameBook_iff _ _).2 hm.2⟩, if_pos ⟨hm2.1, (sameBook_iff _ _).2 hm2.2⟩]
      · rw [if_neg (fun hc => hm ⟨hc.1, (sameBook_iff _ _).1 hc.2⟩),
          if_neg (fun hc => hm (hv.2.2 ⟨hc.1, (sameBook_iff _ _).1 hc.2⟩))]

/-- When some attempt within the budget reaches a cell that is not occupied,
`insertLoop` returns `true`. -/
theorem insertLoop_success {t : HashTable} {b : Book} {h : Nat} :
    ∀ (fuel a k : Nat), a ≤ k → k < a + fuel →
      (slot t.table (quadraticProbing t.sizeT h k)).status ≠ CellStatus.OCCUPIED →
      (insertLoop t b h fuel a).2 = true := by
  intro fuel
  induction fuel with
  | zero => intro a k h1 h2; omega
  | succ n ih =>
    intro a k hk1 hk2 hfree
    rw [insertLoop]
    split_ifs with h1
    · rfl
    · have hka : k ≠ a := by
        intro hc; subst hc; exact h1 hfree
      exact ih (a + 1) k (by omega) (by omega) hfree

/-- As long as `start + attempt * attempt` fits in `size_t`, `quadraticProbing`
is the formula of the specification. -/
theorem quadraticProbing_no_wrap {sizeT start k : Nat} (h : start + k * k < SIZE_MOD) :
    quadraticProbing sizeT start k = specProbe sizeT start k := by
  unfold quadraticProbing specProbe
  rw [Nat.mod_eq_of_lt (a := k * k) (by omega), Nat.mod_eq_of_lt (a := start + k * k) h]

/-- For a prime `p` the offsets `k * k`, `k ≤ (p - 1) / 2`, are pairwise different modulo `p`. -/
theorem specProbe_injective_prime {p : Nat} (hp : p.Prime) (start : Nat) {j k : Nat}
    (hjk : j < k) (hk : k ≤ (p - 1) / 2) : specProbe p start j ≠ specProbe p start k := by
  intro heq
  unfold specProbe at heq
  have h1 : j * j ≡ k * k [MOD p] := Nat.ModEq.add_left_cancel' start heq
  have hle : j * j ≤ k * k := Nat.mul_le_mul (le_of_lt hjk) (le_of_lt hjk)
  have h2 : p ∣ k * k - j * j := (Nat.modEq_iff_dvd' hle).1 h1
  have h3 : k * k - j * j = (k + j) * (k - j) := Nat.mul_self_sub_mul_self_eq k j
  rw [h3] at h2
  have hp1 : 1 ≤ p := hp.one_lt.le
  have hk2 : 2 * k ≤ p - 1 := by omega
  rcases (Nat.Prime.dvd_mul hp).1 h2 with h4 | h4
  · have := Nat.le_of_dvd (by omega) h4
    omega
  · have := Nat.le_of_dvd (by omega) h4
    omega

/-- When the attempts `0 .. m` reach pairwise different cells
and all of them are occupied, the vector has at least `m + 1` occupied cells. -/
theorem occupied_probe_bound (t : HashTable) (h m : Nat)
    (hinj : ∀ j k, j < k → k ≤ m →
      quadraticProbing t.sizeT h j ≠ quadraticProbing t.sizeT h k)
    (hall : ∀ k, k ≤ m →
      (slot t.table (quadraticProbing t.sizeT h k)).status = CellStatus.OCCUPIED) :
    m + 1 ≤ occupiedCount t := by
  have hnd : ((List.range (m + 1)).map (fun k => quadraticProbing t.sizeT h k)).Nodup := by
    refine List.Nodup.map_on ?_ (List.nodup_range _)
    intro a ha b hb hab
    rw [List.mem_range] at ha hb
    by_contra hne
    rcases Nat.lt_or_gt_of_ne hne with hlt | hlt
    · exact hinj a b hlt (by omega) hab
    · exact hinj b a hlt (by omega) hab.symm
  have hsub : ((List.range (m + 1)).map (fun k => quadraticProbing t.sizeT h k)) ⊆
      (List.range t.table.length).filter (fun i => isOccupied (slot t.table i)) := by
    intro i hi
    rw [List.mem_map] at hi
    obtain ⟨k, hk, rfl⟩ := hi
    rw [List.mem_range] at hk
    have hocc := hall k (by omega)
    rw [List.mem_filter, List.mem_range]
    refine ⟨lt_length_of_status (by rw [hocc]; decide), ?_⟩
    simp [isOccupied, hocc]
  have hlen2 := (List.Nodup.subperm hnd hsub).length_le
  rw [List.length_map, List.length_range, ← List.countP_eq_length_filter,
    countP_range_slot isOccupied t.table] at hlen2
  exact hlen2

theorem plain_insertAll (strHash : List Int → Nat) :
    ∀ (books : List Book) (t : HashTable), Plain t.table → (∀ b, b ∈ books → b.author = []) →
      Plain (insertAll strHash t books).table := by
  intro books
  induction books with
  | nil => intro t hp _; exact hp
  | cons b bs ih =>
    intro t hp hb
    exact ih _ (plain_insert strHash hp (hb b (List.mem_cons_self _ _)))
      (fun c hc => hb c (List.mem_cons_of_mem _ hc))

/-- For each of the 4 residues of the hash of the empty string: after the two
books of `exhaustBooks` were inserted into a table of capacity 4 with the
constant string hash, `insert` of `exhaustBook` fails without growth while
cells 2 and 3 are `EMPTY`. -/
theorem exhaust_run :
    ∀ a, a < 4 →
      capsOK 4 (constHash a) (HashTable.new 4) (exhaustBooks a) = true ∧
      fitsAll (constHash a) (HashTable.new 4) (exhaustBooks a) = true ∧
      (insertAll (constHash a) (HashTable.new 4) (exhaustBooks a)).sizeT = 4 ∧
      (insertAll (constHash a) (HashTable.new 4) (exhaustBooks a)).table.length = 4 ∧
      (insertAll (constHash a) (HashTable.new 4) (exhaustBooks a)).size = 2 ∧
      needsRehash (insertAll (constHash a) (HashTable.new 4) (exhaustBooks a)) = false ∧
      ((insertAll (constHash a) (HashTable.new 4) (exhaustBooks a)).insert (constHash a)
        (exhaustBook a)) = (insertAll (constHash a) (HashTable.new 4) (exhaustBooks a), false) ∧
      (slot (insertAll (constHash a) (HashTable.new 4) (exhaustBooks a)).table 2).status
        = CellStatus.EMPTY ∧
      (slot (insertAll (constHash a) (HashTable.new 4) (exhaustBooks a)).table 3).status
        = CellStatus.EMPTY ∧
      hashFunction (constHash a) 4 (exhaustBook a) = 0 ∧
      exhaustBook a ∉ exhaustBooks a := by
  decide

/-- When every attempt of the budget reaches an occupied cell, `insertLoop`
gives up and returns the table as it was. -/
theorem insertLoop_fail {t : HashTable} {b : Book} {h : Nat} :
    ∀ (fuel a : Nat),
      (∀ j, a ≤ j → j < a + fuel →
        (slot t.table (quadraticProbing t.sizeT h j)).status = CellStatus.OCCUPIED) →
      insertLoop t b h fuel a = (t, false) := by
  intro fuel
  induction fuel with
  | zero => intro a _; rfl
  | succ n ih =>
    intro a hall
    rw [insertLoop]
    have h0 := hall a (le_refl _) (by omega)
    rw [if_neg (fun hc => hc h0)]
    exact ih (a + 1) (fun j hj1 hj2 => hall j (by omega) (by omega))

theorem modChecked_eq {b : Nat} (h : 1 ≤ b) (a : Nat) : modChecked a b = some (a % b) := by
  unfold modChecked
  rw [if_neg (by omega)]

theorem readChecked_eq {tab : List HashItem} {i : Nat} (h : i < tab.length) :
    readChecked tab i = some (slot tab i) := by
  simp [readChecked, slot, List.getD, List.getElem?_eq_getElem h]

theorem writeChecked_eq {tab : List HashItem} {i : Nat} (h : i < tab.length) (x : HashItem) :
    writeChecked tab i x = some (tab.set i x) := by
  unfold writeChecked
  rw [if_pos h]

theorem foldlM_modChecked {sizeT : Nat} (h : 1 ≤ sizeT) :
    ∀ (l : List Int) (acc : Nat),
      l.foldlM (fun acc c => modChecked ((acc * 31 + toSizeT c) % SIZE_MOD) sizeT) acc =
        some (l.foldl (fun acc c => ((acc * 31 + toSizeT c) % SIZE_MOD) % sizeT) acc) := by
  intro l
  induction l with
  | nil => intro acc; rfl
  | cons c cs ih =>
    intro acc
    rw [List.foldlM_cons, modChecked_eq h, List.foldl_cons]
    exact ih _

/-- With `sizeT ≥ 1` no `%` of `hashFunction` divides by zero. -/
theorem hashFunctionChecked_eq (strHash : List Int → Nat) {sizeT : Nat} (h : 1 ≤ sizeT)
    (book : Book) :
    hashFunctionChecked strHash sizeT book = some (hashFunction strHash sizeT book) := by
  unfold hashFunctionChecked hashFunction
  rw [foldlM_modChecked h, Option.some_bind, modChecked_eq h, Option.some_bind, modChecked_eq h]

theorem quadraticProbingChecked_eq {sizeT : Nat} (h : 1 ≤ sizeT) (s k : Nat) :
    quadraticProbingChecked sizeT s k = some (quadraticProbing sizeT s k) := by
  unfold quadraticProbingChecked quadraticProbing
  rw [modChecked_eq h]

/-- On a vector of `sizeT ≥ 1` cells every access of the loop of `insert` is
inside the vector. -/
theorem insertLoopChecked_eq {t : HashTable} (hwf : t.WF) (b : Book) (h : Nat) :
    ∀ (fuel a : Nat), insertLoopChecked t b h fuel a = some (insertLoop t b h fuel a) := by
  intro fuel
  induction fuel with
  | zero => intro a; rfl
  | succ n ih =>
    intro a
    have hidx : quadraticProbing t.sizeT h a < t.table.length := by
      rw [hwf.1]; exact quadraticProbing_lt hwf.2 _ _
    rw [insertLoopChecked, insertLoop, quadraticProbingChecked_eq hwf.2, Option.some_bind,
      readChecked_eq hidx, Option.some_bind]
    rw [writeChecked_eq hidx, Option.some_bind, ih (a + 1)]
    split_ifs <;> rfl

/-- On a vector of `sizeT ≥ 1` cells every access of the loop of `search` is
inside the vector. -/
theorem searchLoopChecked_eq {t : HashTable} (hwf : t.WF) (b : Book) (h : Nat) :
    ∀ (fuel a : Nat), searchLoopChecked t b h fuel a = some (searchLoop t b h fuel a) := by
  intro fuel
  induction fuel with
  | zero => intro a; rfl
  | succ n ih =>
    intro a
    have hidx : quadraticProbing t.sizeT h a < t.table.length := by
      rw [hwf.1]; exact quadraticProbing_lt hwf.2 _ _
    rw [searchLoopChecked, searchLoop, quadraticProbingChecked_eq hwf.2, Option.some_bind,
      readChecked_eq hidx, Option.some_bind, ih (a + 1)]
    split_ifs <;> rfl

/-- On a vector of `sizeT ≥ 1` cells every access of the loop of `remove` is
inside the vector. -/
theorem removeLoopChecked_eq {t : HashTable} (hwf : t.WF) (b : Book) (h : Nat) :
    ∀ (fuel a : Nat), removeLoopChecked t b h fuel a = some (removeLoop t b h fuel a) := by
  intro fuel
  induction fuel with
  | zero => intro a; rfl
  | succ n ih =>
    intro a
    have hidx : quadraticProbing t.sizeT h a < t.table.length := by
      rw [hwf.1]; exact quadraticProbing_lt hwf.2 _ _
    rw [removeLoopChecked, removeLoop, quadraticProbingChecked_eq hwf.2, Option.some_bind,
      readChecked_eq hidx, Option.some_bind, ih (a + 1), writeChecked_eq hidx, Option.some_bind]
    split_ifs <;> rfl

/-- While `rehash` moves one book, every access to `newTable` is inside it as
soon as `newTable` has at least `sizeT` cells. -/
theorem rehashLoopChecked_eq (strHash : List Int → Nat) {sizeT : Nat} (hcap : 1 ≤ sizeT)
    (book : Book) {newTable : List HashItem} (hlen : sizeT ≤ newTable.length) :
    ∀ (fuel a : Nat), rehashLoopChecked strHash sizeT book newTable fuel a =
      some (rehashLoop strHash sizeT book newTable fuel a) := by
  intro fuel
  induction fuel with
  | zero => intro a; rfl
  | succ n ih =>
    intro a
    have hidx : quadraticProbing sizeT (hashFunction strHash sizeT book) a < newTable.length :=
      Nat.lt_of_lt_of_le (quadraticProbing_lt hcap _ _) hlen
    rw [rehashLoopChecked, rehashLoop, hashFunctionChecked_eq strHash hcap, Option.some_bind,
      quadraticProbingChecked_eq hcap, Option.some_bind, readChecked_eq hidx, Option.some_bind,
      ih (a + 1), writeChecked_eq hidx]
    split_ifs <;> rfl

theorem rehashStepChecked_eq (strHash : List Int → Nat) {t : HashTable} (hwf : t.WF)
    (newsizeT : Nat) {newTable : List HashItem} (hlen : t.sizeT ≤ newTable.length) {i : Nat}
    (hi : i < t.sizeT) :
    rehashStepChecked strHash t newsizeT newTable i =
      some (rehashStep strHash t newsizeT newTable i) := by
  unfold rehashStepChecked rehashStep
  rw [readChecked_eq (by rw [hwf.1]; exact hi), Option.some_bind,
    rehashLoopChecked_eq strHash hwf.2 _ hlen]
  split_ifs <;> rfl

theorem foldlM_rehashStepChecked (strHash : List Int → Nat) {t : HashTable} (hwf : t.WF)
    (newsizeT : Nat) :
    ∀ (l : List Nat) (newTable : List HashItem), (∀ i, i ∈ l → i < t.sizeT) →
      t.sizeT ≤ newTable.length →
      l.foldlM (rehashStepChecked strHash t newsizeT) newTable =
        some (l.foldl (rehashStep strHash t newsizeT) newTable) := by
  intro l
  induction l with
  | nil => intro nt _ _; rfl
  | cons x xs ih =>
    intro nt hl hlen
    rw [List.foldlM_cons, rehashStepChecked_eq strHash hwf newsizeT hlen
      (hl x (List.mem_cons_self _ _)), List.foldl_cons]
    exact ih _ (fun i hi => hl i (List.mem_cons_of_mem _ hi))
      (by rw [rehashStep_length]; exact hlen)

/-- On a table of `sizeT` cells, `1 ≤ sizeT < 2 ^ 63`, every access of `rehash`
is inside the vector it indexes and no `%` divides by zero. -/
theorem rehashChecked_eq (strHash : List Int → Nat) {t : HashTable} (hwf : t.WF)
    (hfit : t.sizeT < SLOT_LIMIT) :
    t.rehashChecked strHash = some (t.rehash strHash) := by
  unfold HashTable.rehashChecked HashTable.rehash
  rw [foldlM_rehashStepChecked strHash hwf _ _ _
    (fun i hi => List.mem_range.1 hi)
    (by
      rw [List.length_replicate]
      unfold SLOT_LIMIT at hfit
      unfold SIZE_MOD
      omega), Option.some_bind]

/-! Tables filled through `insert` with books of chosen start indices. -/

theorem toSizeT_ofNat {v : Nat} (h : v < SIZE_MOD) : toSizeT (Int.ofNat v) = v := by
  unfold toSizeT
  have h2 : (Int.ofNat v) % (SIZE_MOD : Int) = Int.ofNat (v % SIZE_MOD) := rfl
  rw [h2, Nat.mod_eq_of_lt h]
  rfl

/-- The polynomial hash of the title `titleDigits fuel v`, at a capacity `n`
above `v`, is `v`. -/
theorem titleHash_titleDigits {n : Nat} :
    ∀ (fuel v : Nat), v < 31 ^ fuel → v < n → v < SIZE_MOD →
      (titleDigits fuel v).foldl (fun acc c => ((acc * 31 + toSizeT c) % SIZE_MOD) % n) 0
        = v := by
  intro fuel
  induction fuel with
  | zero =>
    intro v h1 _ _
    have hv : v = 0 := by
      rw [Nat.pow_zero] at h1
      omega
    subst hv
    rfl
  | succ f ih =>
    intro v h1 h2 h3
    rw [titleDigits]
    by_cases hv : v = 0
    · rw [if_pos hv, hv]
      rfl
    · rw [Nat.pow_succ] at h1
      have hq1 : (v - 1) / 31 < 31 ^ f := by
        generalize 31 ^ f = P at h1 ⊢
        omega
      have hq2 : (v - 1) / 31 < n := by omega
      have hq3 : (v - 1) / 31 < SIZE_MOD := by omega
      have hd : (v - 1) % 31 + 1 < SIZE_MOD := by
        unfold SIZE_MOD
        norm_num
        omega
      have hsum : (v - 1) / 31 * 31 + ((v - 1) % 31 + 1) = v := by omega
      rw [if_neg hv, List.foldl_append, ih _ hq1 hq2 hq3]
      simp only [List.foldl_cons, List.foldl_nil]
      rw [toSizeT_ofNat hd, hsum, Nat.mod_eq_of_lt h3, Nat.mod_eq_of_lt h2]

/-- The characters of `titleDigits fuel v` are in the range `1 .. 31`. -/
theorem titleDigits_range :
    ∀ (fuel v : Nat) (c : Int), c ∈ titleDigits fuel v → 1 ≤ c ∧ c ≤ 31 := by
  intro fuel
  induction fuel with
  | zero =>
    intro v c hc
    rw [titleDigits] at hc
    exact absurd hc (List.not_mem_nil c)
  | succ f ih =>
    intro v c hc
    rw [titleDigits] at hc
    by_cases hv : v = 0
    · rw [if_pos hv] at hc
      exact absurd hc (List.not_mem_nil c)
    · rw [if_neg hv, List.mem_append, List.mem_singleton] at hc
      rcases hc with hc | hc
      · exact ih _ c hc
      · have hlt : (v - 1) % 31 < 31 := Nat.mod_lt _ (by decide)
        rw [hc, Int.ofNat_eq_coe]
        omega

/-- Every book `sumBook n x` is a value of class `Book`: its year is 0 or 2, its
title has characters in the range `1 .. 31`, its author is empty. -/
theorem sumBook_representable (n x : Nat) : (sumBook n x).representable = true := by
  have ht : ∀ v, (titleOf v).all (fun c => decide (0 ≤ c) && decide (c ≤ 127)) = true := by
    intro v
    rw [List.all_eq_true]
    intro c hc
    have hr := titleDigits_range 13 v c hc
    rw [Bool.and_eq_true, decide_eq_true_eq, decide_eq_true_eq]
    omega
  unfold sumBook
  by_cases h : x < n
  · rw [if_pos h]
    unfold Book.representable
    rw [ht]
    rfl
  · rw [if_neg h]
    unfold Book.representable
    rw [ht]
    rfl

/-- The hash start index of `sumBook n x` at capacity `n`, for `x < n + 2`, is
`(x xor a) mod n`, where `a` is the hash of the empty string modulo `n`. -/
theorem hashFunction_sumBook (strHash : List Int → Nat) {n x : Nat} (h2 : 2 ≤ n)
    (hx : x < n + 2) (hx2 : x < SIZE_MOD) :
    hashFunction strHash n (sumBook n x) = (x ^^^ (strHash [] % SIZE_MOD % n)) % n := by
  have h31 : SIZE_MOD ≤ 31 ^ 13 := by unfold SIZE_MOD; norm_num
  unfold sumBook
  by_cases h : x < n
  · rw [if_pos h]
    unfold hashFunction
    dsimp only
    rw [show titleOf x = titleDigits 13 x from rfl,
      titleHash_titleDigits 13 x (Nat.lt_of_lt_of_le hx2 h31) h hx2,
      show toSizeT 0 = 0 from rfl, Nat.zero_add, Nat.mod_eq_of_lt hx2]
  · rw [if_neg h]
    unfold hashFunction
    dsimp only
    rw [show titleOf (x - 2) = titleDigits 13 (x - 2) from rfl,
      titleHash_titleDigits 13 (x - 2) (Nat.lt_of_lt_of_le (by omega) h31) (by omega) (by omega),
      show toSizeT 2 = 2 from rfl, show 2 + (x - 2) = x from by omega, Nat.mod_eq_of_lt hx2]

/-- The hash start index of `sumBook n (c xor a)` at capacity `n` is `c mod n`. -/
theorem hashFunction_sumBook_xor (strHash : List Int → Nat) {n c : Nat} (h2 : 2 ≤ n)
    (hn : n < SLOT_LIMIT) (hx : c ^^^ (strHash [] % SIZE_MOD % n) < n + 2) :
    hashFunction strHash n (sumBook n (c ^^^ (strHash [] % SIZE_MOD % n))) = c % n := by
  have hx2 : c ^^^ (strHash [] % SIZE_MOD % n) < SIZE_MOD := by
    apply Nat.lt_of_lt_of_le hx
    unfold SLOT_LIMIT at hn
    unfold SIZE_MOD
    omega
  rw [hashFunction_sumBook strHash h2 hx hx2, Nat.xor_assoc, Nat.xor_self, Nat.xor_zero]

theorem titleOf_injective {v w : Nat} (hv : v < SIZE_MOD) (hw : w < SIZE_MOD)
    (h : titleOf v = titleOf w) : v = w := by
  have h31 : SIZE_MOD ≤ 31 ^ 13 := by unfold SIZE_MOD; norm_num
  have e1 := @titleHash_titleDigits SIZE_MOD 13 v (Nat.lt_of_lt_of_le hv h31) hv hv
  have e2 := @titleHash_titleDigits SIZE_MOD 13 w (Nat.lt_of_lt_of_le hw h31) hw hw
  unfold titleOf at h
  rw [h, e2] at e1
  exact e1.symm

theorem sumBook_injective {n x y : Nat} (h2 : 2 ≤ n) (hx : x < SIZE_MOD) (hy : y < SIZE_MOD)
    (h : sumBook n x = sumBook n y) : x = y := by
  unfold sumBook at h
  by_cases h1 : x < n
  · by_cases h3 : y < n
    · rw [if_pos h1, if_pos h3, Book.mk.injEq] at h
      exact titleOf_injective hx hy h.2.1
    · rw [if_pos h1, if_neg h3, Book.mk.injEq] at h
      exact absurd h.1 (by decide)
  · by_cases h3 : y < n
    · rw [if_neg h1, if_pos h3, Book.mk.injEq] at h
      exact absurd h.1 (by decide)
    · rw [if_neg h1, if_neg h3, Book.mk.injEq] at h
      have := titleOf_injective (Nat.lt_of_le_of_lt (Nat.sub_le _ _) hx)
        (Nat.lt_of_le_of_lt (Nat.sub_le _ _) hy) h.2.1
      omega

theorem sumBook_xor_injective {n a c d : Nat} (h2 : 2 ≤ n) (hc : c ^^^ a < SIZE_MOD)
    (hd : d ^^^ a < SIZE_MOD) (h : sumBook n (c ^^^ a) = sumBook n (d ^^^ a)) : c = d := by
  have h3 := congrArg (fun x => x ^^^ a) (sumBook_injective h2 hc hd h)
  simp only [Nat.xor_assoc, Nat.xor_self, Nat.xor_zero] at h3
  exact h3

theorem stripe_length (m : Nat) :
    ((List.range (3 * m)).filter (fun c => decide (c % 3 ≠ 2))).length = 2 * m := by
  induction m with
  | zero => rfl
  | succ k ih =>
    have e : 3 * (k + 1) = 3 * k + 1 + 1 + 1 := by ring
    rw [e, List.range_succ, List.range_succ, List.range_succ, List.filter_append,
      List.filter_append, List.filter_append, List.length_append, List.length_append,
      List.length_append, ih]
    have h0 : (3 * k) % 3 ≠ 2 := by omega
    have h1 : (3 * k + 1) % 3 ≠ 2 := by omega
    have h2 : (3 * k + 1 + 1) % 3 = 2 := by omega
    have f0 : (List.filter (fun c => decide (c % 3 ≠ 2)) [3 * k]).length = 1 := by
      simp [List.filter, h0]
    have f1 : (List.filter (fun c => decide (c % 3 ≠ 2)) [3 * k + 1]).length = 1 := by
      simp [List.filter, h1]
    have f2 : (List.filter (fun c => decide (c % 3 ≠ 2)) [3 * k + 1 + 1]).length = 0 := by
      simp [List.filter, h2]
    rw [f0, f1, f2]
    omega

/-- The cells of the table `stripeTable strHash n`, for a capacity `n = 3 * m`
below `2 ^ 54 / 18` such that `c xor a < n + 2` for every `c ≤ n`: the table is
reachable, has `2 * m` books, no growth is due, every cell `c` with
`c mod 3 ≠ 2` is occupied by the book `sumBook n (c xor a)`, and every other
cell is `EMPTY`. -/
theorem stripeTable_spec (strHash : List Int → Nat) {n m : Nat} (hm : 1 ≤ m) (hn : n = 3 * m)
    (hsmall : 18 * n < 2 ^ 54)
    (hx : ∀ c, c ≤ n → c ^^^ (strHash [] % SIZE_MOD % n) < n + 2) :
    Reachable strHash (stripeTable strHash n) ∧
    (stripeTable strHash n).WF ∧
    (stripeTable strHash n).sizeT = n ∧
    (stripeTable strHash n).size = 2 * m ∧
    needsRehash (stripeTable strHash n) = false ∧
    (∀ c, c < n → c % 3 ≠ 2 → slot (stripeTable strHash n).table c
      = ⟨sumBook n (c ^^^ (strHash [] % SIZE_MOD % n)), CellStatus.OCCUPIED⟩) ∧
    (∀ i, i % 3 = 2 → slot (stripeTable strHash n).table i = HashItem.empty) := by
  have hn1 : 1 ≤ n := by omega
  have hn2 : 2 ≤ n := by omega
  have hlim : n < SLOT_LIMIT := by unfold SLOT_LIMIT; norm_num at hsmall ⊢; omega
  have hmod : n < SIZE_MOD := by unfold SIZE_MOD; norm_num at hsmall ⊢; omega
  have hhash : ∀ c, c < n → hashFunction strHash n
      (sumBook n (c ^^^ (strHash [] % SIZE_MOD % n))) = c := by
    intro c hc
    rw [hashFunction_sumBook_xor strHash hn2 hlim (hx c (Nat.le_of_lt hc)), Nat.mod_eq_of_lt hc]
  have hmap : (stripeBooks n (strHash [] % SIZE_MOD % n)).map (hashFunction strHash n)
      = (List.range n).filter (fun c => decide (c % 3 ≠ 2)) := by
    unfold stripeBooks
    rw [List.map_map]
    conv_rhs => rw [← List.map_id ((List.range n).filter (fun c => decide (c % 3 ≠ 2)))]
    apply List.map_congr_left
    intro c hc
    rw [List.mem_filter, List.mem_range] at hc
    exact hhash c hc.1
  have hlen : (stripeBooks n (strHash [] % SIZE_MOD % n)).length = 2 * m := by
    unfold stripeBooks
    rw [List.length_map, hn, stripe_length]
  obtain ⟨r1, r2, r3, r4, r5, r6⟩ := insertAll_distinct strHash
    (stripeBooks n (strHash [] % SIZE_MOD % n)) (HashTable.new n)
    ⟨by simp [HashTable.new], hn1⟩ hlim hsmall
    (by rw [hlen]; show 10 * (0 + 2 * m) < 7 * n + 10; omega)
    (by rw [show (HashTable.new n).sizeT = n from rfl, hmap]
        exact List.Nodup.filter _ (List.nodup_range n))
    (fun b _ => by
      show (slot (List.replicate _ _) _).status ≠ _
      rw [slot_replicate]; decide)
  have hsz : (stripeTable strHash n).sizeT = n := r2
  have hsize : (stripeTable strHash n).size = 2 * m := by
    show (insertAll strHash (HashTable.new n) _).size = _
    rw [r3, hlen]
    show 0 + 2 * m = 2 * m
    omega
  refine ⟨reachable_insertAll strHash _ _ (Reachable.new n hn1 hlim) r4, r1, hsz, hsize, ?_, ?_, ?_⟩
  · exact needsRehash_false_of_small (by rw [hsz]; exact hn1) (by rw [hsz]; exact hsmall)
      (by rw [hsz, hsize]; omega)
  · intro c hc hc3
    have hmem : sumBook n (c ^^^ (strHash [] % SIZE_MOD % n))
        ∈ stripeBooks n (strHash [] % SIZE_MOD % n) := by
      unfold stripeBooks
      rw [List.mem_map]
      exact ⟨c, by rw [List.mem_filter, List.mem_range]; exact ⟨hc, by simpa using hc3⟩, rfl⟩
    have := r5 _ hmem
    rw [show (HashTable.new n).sizeT = n from rfl, hhash c hc] at this
    exact this
  · intro i hi
    have := r6 i (fun b hb => by
      unfold stripeBooks at hb
      rw [List.mem_map] at hb
      obtain ⟨c, hc, rfl⟩ := hb
      rw [List.mem_filter, List.mem_range] at hc
      rw [show (HashTable.new n).sizeT = n from rfl, hhash c hc.1]
      intro hci
      subst hci
      have := hc.2
      simp at this
      exact this hi)
    rw [show slot (stripeTable strHash n).table i = slot (HashTable.new n).table i from this]
    exact slot_replicate n i

/-- Every book of `stripeBooks` and of `rampBooks` is a value of class `Book`. -/
theorem stripeBooks_representable (n a : Nat) :
    ∀ b, b ∈ stripeBooks n a → b.representable = true := by
  intro b hb
  unfold stripeBooks at hb
  rw [List.mem_map] at hb
  obtain ⟨c, -, rfl⟩ := hb
  exact sumBook_representable _ _

/-- At capacity `2 ^ 33 - 2` the values `c xor a`, for `c` up to the capacity and
`a` below it, are below `2 ^ 33`. -/
theorem overflow_xor (strHash : List Int → Nat) (c : Nat) (hc : c ≤ 8589934590) :
    c ^^^ (strHash [] % SIZE_MOD % 8589934590) < 8589934590 + 2 := by
  have ha : strHash [] % SIZE_MOD % 8589934590 < 8589934590 := Nat.mod_lt _ (by decide)
  have := @Nat.xor_lt_two_pow c (strHash [] % SIZE_MOD % 8589934590) 33
    (by norm_num; omega) (by norm_num; omega)
  norm_num at this ⊢
  exact this

/-- The table `overflowTable`: reachable, with `2 ^ 33 - 2` cells and
5726623060 books, no growth due, the cells with index 0 or 1 modulo 3 occupied
and the others `EMPTY`. -/
theorem overflowTable_spec (strHash : List Int → Nat) :
    Reachable strHash (stripeTable strHash 8589934590) ∧
    (stripeTable strHash 8589934590).WF ∧
    (stripeTable strHash 8589934590).sizeT = 8589934590 ∧
    (stripeTable strHash 8589934590).size = 5726623060 ∧
    needsRehash (stripeTable strHash 8589934590) = false ∧
    (∀ c, c < 8589934590 → c % 3 ≠ 2 → slot (stripeTable strHash 8589934590).table c
      = ⟨sumBook 8589934590 (c ^^^ (strHash [] % SIZE_MOD % 8589934590)),
          CellStatus.OCCUPIED⟩) ∧
    (∀ i, i % 3 = 2 → slot (stripeTable strHash 8589934590).table i = HashItem.empty) :=
  @stripeTable_spec strHash 8589934590 2863311530 (by decide) (by decide) (by decide)
    (overflow_xor strHash)

/-- When the attempts before `k` reach occupied cells and attempt `k`, within
the budget, reaches a cell that is not occupied, `insertLoop` stores the book in
the cell of attempt `k`. -/
theorem insertLoop_at {t : HashTable} {b : Book} {h : Nat} :
    ∀ (fuel a k : Nat), a ≤ k → k < a + fuel →
      (∀ j, a ≤ j → j < k →
        (slot t.table (quadraticProbing t.sizeT h j)).status = CellStatus.OCCUPIED) →
      (slot t.table (quadraticProbing t.sizeT h k)).status ≠ CellStatus.OCCUPIED →
      insertLoop t b h fuel a =
        (⟨t.table.set (quadraticProbing t.sizeT h k) ⟨b, CellStatus.OCCUPIED⟩, t.sizeT,
          (t.size + 1) % SIZE_MOD⟩, true) := by
  intro fuel
  induction fuel with
  | zero => intro a k h1 h2; omega
  | succ n ih =>
    intro a k hk1 hk2 hpre hfree
    rw [insertLoop]
    by_cases hka : k = a
    · subst hka
      rw [if_pos hfree]
    · have hocc := hpre a (le_refl _) (by omega)
      rw [if_neg (fun hc => hc hocc)]
      exact ih (a + 1) k (by omega) (by omega) (fun j hj1 hj2 => hpre j (by omega) hj2) hfree

/-- The hash start index of `overflowBook` at capacity `2 ^ 33 - 2` is 0. -/
theorem hashFunction_overflowBook (strHash : List Int → Nat) :
    hashFunction strHash 8589934590
      (stripeBook 8589934590 (strHash [] % SIZE_MOD % 8589934590)) = 0 := by
  unfold stripeBook
  rw [hashFunction_sumBook_xor strHash (by decide) (by decide)
    (overflow_xor strHash 8589934590 (le_refl _)), Nat.mod_self]

/-- The book `overflowBook` is none of the books of `overflowBooks`. -/
theorem overflowBook_ne (strHash : List Int → Nat) (c : Nat) (hc : c < 8589934590) :
    sumBook 8589934590 (c ^^^ (strHash [] % SIZE_MOD % 8589934590)) ≠
      stripeBook 8589934590 (strHash [] % SIZE_MOD % 8589934590) := by
  intro heq
  have h1 := overflow_xor strHash c (Nat.le_of_lt hc)
  have h2 := overflow_xor strHash 8589934590 (le_refl _)
  have := @sumBook_xor_injective 8589934590 (strHash [] % SIZE_MOD % 8589934590) c 8589934590
    (by decide) (Nat.lt_trans h1 (by decide)) (Nat.lt_trans h2 (by decide)) heq
  omega

/-- At capacity `2 ^ 33 - 2` and start index 0, the attempts below `2 ^ 32 + 2`
reach cells whose index is 0 or 1 modulo 3. -/
theorem probe_stripe (k : Nat) (hk : k < 4294967298) :
    quadraticProbing 8589934590 0 k % 3 ≠ 2 := by
  rcases Nat.lt_or_ge k 4294967296 with h | h
  · have hkk : k * k ≤ 4294967295 * 4294967295 := Nat.mul_le_mul (by omega) (by omega)
    rw [quadraticProbing_no_wrap (by unfold SIZE_MOD; omega)]
    unfold specProbe
    rw [Nat.zero_add, Nat.mod_mod_of_dvd _ (by decide)]
    exact sq_mod_three_ne_two k
  · have hk2 : k = 4294967296 ∨ k = 4294967297 := by omega
    rcases hk2 with rfl | rfl <;> decide

/-- At capacity `2 ^ 33 - 2` and start index 0, the cells `(0 + k * k) mod capacity`
have an index that is 0 or 1 modulo 3. -/
theorem specProbe_stripe (k : Nat) : specProbe 8589934590 0 k % 3 ≠ 2 := by
  unfold specProbe
  rw [Nat.zero_add, Nat.mod_mod_of_dvd _ (by decide)]
  exact sq_mod_three_ne_two k

/-- The call `insert(r)` on the table `stripeTable strHash (2 ^ 33 - 2)`, for
the book `r = stripeBook` with start index 0: no growth, the attempts
`0 .. 2 ^ 32 + 1` reach occupied cells, and the book is stored in cell 8,
reached at attempt `2 ^ 32 + 2`. -/
theorem stripe_insert (strHash : List Int → Nat) :
    (stripeTable strHash 8589934590).insert strHash
        (stripeBook 8589934590 (strHash [] % SIZE_MOD % 8589934590)) =
      (⟨(stripeTable strHash 8589934590).table.set 8
          ⟨stripeBook 8589934590 (strHash [] % SIZE_MOD % 8589934590), CellStatus.OCCUPIED⟩,
        8589934590, 5726623061⟩, true) := by
  obtain ⟨-, g2, g3, g4, g5, g6, g7⟩ := overflowTable_spec strHash
  have hh := hashFunction_overflowBook strHash
  have hq : quadraticProbing 8589934590 0 4294967298 = 8 := by decide
  rw [insert_eq, growIfNeeded_of_not strHash g5, g3, hh]
  have hat := @insertLoop_at (stripeTable strHash 8589934590)
    (stripeBook 8589934590 (strHash [] % SIZE_MOD % 8589934590)) 0 8589934590 0 4294967298
    (Nat.zero_le _) (by decide)
    (fun j _ hj => by
      rw [g3]
      have hlt : quadraticProbing 8589934590 0 j < 8589934590 :=
        quadraticProbing_lt (by decide) _ _
      rw [g6 _ hlt (probe_stripe j hj)])
    (by
      rw [g3, hq, g7 8 (by decide)]
      decide)
  rw [hat, g3, g4, hq]
  rfl

/-- The table left after `insert(r)` on `stripeTable strHash (2 ^ 33 - 2)`:
`search(r)` finds `r` in cell 8, which it reaches at attempt `2 ^ 32 + 2`,
while the reference walk over the cells `(hash + k * k) mod capacity` meets only
cells occupied by other books. -/
theorem stripe_search (strHash : List Int → Nat) :
    ((stripeTable strHash 8589934590).insert strHash
        (stripeBook 8589934590 (strHash [] % SIZE_MOD % 8589934590))).1.search strHash
        (stripeBook 8589934590 (strHash [] % SIZE_MOD % 8589934590)) = some 8 ∧
    searchSpec strHash ((stripeTable strHash 8589934590).insert strHash
        (stripeBook 8589934590 (strHash [] % SIZE_MOD % 8589934590))).1
        (stripeBook 8589934590 (strHash [] % SIZE_MOD % 8589934590)) = none := by
  obtain ⟨-, g2, g3, g4, g5, g6, g7⟩ := overflowTable_spec strHash
  have hh := hashFunction_overflowBook strHash
  have hq : quadraticProbing 8589934590 0 4294967298 = 8 := by decide
  have hX : 8 < (stripeTable strHash 8589934590).table.length := by
    rw [g2.1, g3]; decide
  have hne := overflowBook_ne strHash
  have hcell : ∀ c, c < 8589934590 → c % 3 ≠ 2 →
      slot ((stripeTable strHash 8589934590).table.set 8
        ⟨stripeBook 8589934590 (strHash [] % SIZE_MOD % 8589934590), CellStatus.OCCUPIED⟩) c
      = ⟨sumBook 8589934590 (c ^^^ (strHash [] % SIZE_MOD % 8589934590)),
          CellStatus.OCCUPIED⟩ := by
    intro c hc hc3
    rw [slot_set_ne (by intro h; subst h; exact hc3 (by decide)), g6 c hc hc3]
  rw [stripe_insert]
  constructor
  · show searchLoop _ _ (hashFunction strHash 8589934590 _) 8589934590 0 = _
    rw [hh]
    have hs := @searchLoop_eq_some
      ⟨(stripeTable strHash 8589934590).table.set 8
        ⟨stripeBook 8589934590 (strHash [] % SIZE_MOD % 8589934590), CellStatus.OCCUPIED⟩,
        8589934590, 5726623061⟩
      (stripeBook 8589934590 (strHash [] % SIZE_MOD % 8589934590)) 0
      8589934590 0 4294967298 (Nat.zero_le _) (by decide)
      (by dsimp only
          rw [hq, slot_set_self hX])
      (by dsimp only
          rw [hq, slot_set_self hX])
      (fun j _ hj => by
        dsimp only
        have hlt : quadraticProbing 8589934590 0 j < 8589934590 :=
          quadraticProbing_lt (by decide) _ _
        rw [hcell _ hlt (probe_stripe j hj)]
        exact ⟨fun h => CellStatus.noConfusion h, fun h => hne _ hlt h.2⟩)
    rw [hs]
    exact congrArg some hq
  · unfold searchSpec
    show searchWalk _ _ (hashFunction strHash 8589934590 _) (List.range 8589934590) = none
    rw [hh]
    apply searchWalk_none
    intro k _
    dsimp only
    have hlt : specProbe 8589934590 0 k < 8589934590 := Nat.mod_lt _ (by decide)
    rw [hcell _ hlt (specProbe_stripe k)]
    exact ⟨rfl, hne _ hlt⟩

/-- The contract of `search` on a table with `sizeT` cells, `sizeT ≥ 1`: when
`sizeT ≤ 2 ^ 32` (no `attempt * attempt` wraps), `search r` equals the reference
definition `searchSpec`; for every capacity, a cell returned by `search r` is
`OCCUPIED` and holds a book with the year, title and author of `r`, and
`search r` finds nothing when no occupied cell holds a book equal to `r`. -/
theorem search_contract (strHash : List Int → Nat) (t : HashTable) (r : Book) (hwf : t.WF) :
    (t.sizeT ≤ 2 ^ 32 → t.search strHash r = searchSpec strHash t r) ∧
    (∀ i, t.search strHash r = some i →
      i < t.sizeT ∧ (slot t.table i).status = CellStatus.OCCUPIED ∧
      (slot t.table i).data.year = r.year ∧ (slot t.table i).data.title = r.title ∧
      (slot t.table i).data.author = r.author) ∧
    ((∀ i, i < t.sizeT →
        ¬ ((slot t.table i).status = CellStatus.OCCUPIED ∧ (slot t.table i).data = r)) →
      t.search strHash r = none) := by
  refine ⟨fun hcap => ?_, fun i hi => ?_, fun hno => ?_⟩
  · unfold HashTable.search searchSpec
    rw [List.range_eq_range']
    exact searchLoop_eq_searchWalk t r _ _ _ (fun k _ hk =>
      quadraticProbing_eq_specProbe hcap (hashFunction_lt strHash hwf.2 r) (by omega))
  · have h := search_some hi
    have hlen : i < t.table.length := lt_length_of_status (by rw [h.1]; decide)
    exact ⟨by rw [← hwf.1]; exact hlen, h.1, by rw [h.2], by rw [h.2], by rw [h.2]⟩
  · apply search_none_of_absent
    rw [← hwf.1] at hno
    exact absent_of_bounded hno

/-- Frame of `remove` on a table with `sizeT` cells, `sizeT ≥ 1`: `remove r`
returns `true` exactly when `search r` finds a cell; then that cell, which was
`OCCUPIED`, becomes `DELETED` with its book kept, every other cell and the
capacity are unchanged, and `size` decreases by one in `size_t` arithmetic;
when `remove r` returns `false` the table is unchanged. -/
theorem remove_frame (strHash : List Int → Nat) (t : HashTable) (r : Book) (hwf : t.WF) :
    ((t.remove strHash r).2 = true ↔ ∃ i, t.search strHash r = some i) ∧
    (∀ i, t.search strHash r = some i →
      i < t.sizeT ∧
      (slot t.table i).status = CellStatus.OCCUPIED ∧
      slot (t.remove strHash r).1.table i = ⟨(slot t.table i).data, CellStatus.DELETED⟩ ∧
      (∀ j, j ≠ i → slot (t.remove strHash r).1.table j = slot t.table j) ∧
      (t.remove strHash r).1.table.length = t.table.length ∧
      (t.remove strHash r).1.sizeT = t.sizeT ∧
      ((t.remove strHash r).1.size + 1) % SIZE_MOD = t.size % SIZE_MOD ∧
      (1 ≤ t.size → t.size < SIZE_MOD → (t.remove strHash r).1.size + 1 = t.size)) ∧
    ((t.remove strHash r).2 = false → (t.remove strHash r).1 = t) := by
  refine ⟨?_, ?_, fun h => ?_⟩
  rotate_left 2
  · cases hs : t.search strHash r with
    | none => rw [remove_of_search_none hs]
    | some i => rw [remove_of_search_some hs] at h; exact absurd h (by simp)
  · cases hs : t.search strHash r with
    | none => rw [remove_of_search_none hs]; simp
    | some i => rw [remove_of_search_some hs]; simp
  · intro i hs
    have hi := search_some hs
    have hlen : i < t.table.length := lt_length_of_status (by rw [hi.1]; decide)
    rw [remove_of_search_some hs]
    refine ⟨by rw [← hwf.1]; exact hlen, hi.1, ?_, ?_, ?_, rfl, ?_, ?_⟩
    · rw [slot_set_self hlen, hi.2]
    · intro j hj
      exact slot_set_ne (Ne.symm hj) _
    · exact List.length_set _ _ _
    · show ((t.size + (SIZE_MOD - 1)) % SIZE_MOD + 1) % SIZE_MOD = t.size % SIZE_MOD
      unfold SIZE_MOD
      omega
    · intro h1 h2
      show (t.size + (SIZE_MOD - 1)) % SIZE_MOD + 1 = t.size
      unfold SIZE_MOD at h2 ⊢
      omega

/-- The postcondition of `insert` where no `attempt * attempt` wraps: let `T` be
the table after the optional growth step, with `sizeT` cells,
`1 ≤ sizeT ≤ 2 ^ 32`.  `insert r` returns `false` exactly when the cells
`(hash r + k * k) mod sizeT` of `T` are occupied for every attempt `k < sizeT`,
and then leaves `T` as it is.  When it returns `true`, `r` is stored in the cell
of the smallest attempt `k` whose cell is not occupied, that cell becomes
`OCCUPIED`, every other cell of `T` and the capacity are unchanged, and `size`
increases by one in `size_t` arithmetic. -/
theorem insert_postcondition (strHash : List Int → Nat) (t : HashTable) (r : Book)
    (hwf : t.WF)
    (hcap : 1 ≤ (t.growIfNeeded strHash).sizeT ∧ (t.growIfNeeded strHash).sizeT ≤ 2 ^ 32) :
    ((t.insert strHash r).2 = false ↔
      ∀ k, k < (t.growIfNeeded strHash).sizeT →
        (slot (t.growIfNeeded strHash).table
          (specProbe (t.growIfNeeded strHash).sizeT
            (hashFunction strHash (t.growIfNeeded strHash).sizeT r) k)).status
          = CellStatus.OCCUPIED) ∧
    ((t.insert strHash r).2 = false → (t.insert strHash r).1 = t.growIfNeeded strHash) ∧
    ((t.insert strHash r).2 = true →
      ∃ k, k < (t.growIfNeeded strHash).sizeT ∧
        ((slot (t.growIfNeeded strHash).table
            (specProbe (t.growIfNeeded strHash).sizeT
              (hashFunction strHash (t.growIfNeeded strHash).sizeT r) k)).status
            = CellStatus.EMPTY ∨
          (slot (t.growIfNeeded strHash).table
            (specProbe (t.growIfNeeded strHash).sizeT
              (hashFunction strHash (t.growIfNeeded strHash).sizeT r) k)).status
            = CellStatus.DELETED) ∧
        (∀ j, j < k →
          (slot (t.growIfNeeded strHash).table
            (specProbe (t.growIfNeeded strHash).sizeT
              (hashFunction strHash (t.growIfNeeded strHash).sizeT r) j)).status
            = CellStatus.OCCUPIED) ∧
        slot (t.insert strHash r).1.table
          (specProbe (t.growIfNeeded strHash).sizeT
            (hashFunction strHash (t.growIfNeeded strHash).sizeT r) k)
          = ⟨r, CellStatus.OCCUPIED⟩ ∧
        (∀ i, i ≠ specProbe (t.growIfNeeded strHash).sizeT
            (hashFunction strHash (t.growIfNeeded strHash).sizeT r) k →
          slot (t.insert strHash r).1.table i = slot (t.growIfNeeded strHash).table i) ∧
        (t.insert strHash r).1.table.length = (t.growIfNeeded strHash).table.length ∧
        (t.insert strHash r).1.sizeT = (t.growIfNeeded strHash).sizeT ∧
        (t.insert strHash r).1.size = ((t.growIfNeeded strHash).size + 1) % SIZE_MOD ∧
        ((t.growIfNeeded strHash).size + 1 < SIZE_MOD →
          (t.insert strHash r).1.size = (t.growIfNeeded strHash).size + 1)) := by
  have hlen := grown_length strHash t hwf.1
  rw [insert_eq]
  generalize t.growIfNeeded strHash = T at hcap hlen ⊢
  have hs : hashFunction strHash T.sizeT r < T.sizeT := hashFunction_lt strHash hcap.1 r
  generalize hashFunction strHash T.sizeT r = h at hs ⊢
  have hqp : ∀ k, k < T.sizeT → quadraticProbing T.sizeT h k = specProbe T.sizeT h k :=
    fun k hk => quadraticProbing_eq_specProbe hcap.2 hs hk
  cases hins : insertLoop T r h T.sizeT 0 with
  | mk t2 ok =>
    cases ok with
    | false =>
      obtain ⟨ht2, hall⟩ := insertLoop_false _ _ hins
      refine ⟨⟨fun _ k hk => ?_, fun _ => rfl⟩, fun _ => ht2, fun hc => ?_⟩
      · rw [← hqp k hk]
        exact hall k (Nat.zero_le _) (by omega)
      · simp at hc
    | true =>
      obtain ⟨k, -, hk, hfree, hpre, ht2⟩ := insertLoop_true _ _ hins
      have hk2 : k < T.sizeT := by omega
      have hidx : quadraticProbing T.sizeT h k < T.table.length := by
        rw [hlen]; exact quadraticProbing_lt hcap.1 _ _
      refine ⟨⟨fun hc => by simp at hc, fun hall => ?_⟩,
        fun hc => by simp at hc, fun _ => ⟨k, hk2, ?_, ?_, ?_, ?_, ?_, ?_, ?_, ?_⟩⟩
      · exact absurd (by rw [hqp k hk2]; exact hall k hk2) hfree
      · rw [← hqp k hk2]
        cases hst : (slot T.table (quadraticProbing T.sizeT h k)).status with
        | EMPTY => exact Or.inl rfl
        | OCCUPIED => exact absurd hst hfree
        | DELETED => exact Or.inr rfl
      · intro j hj
        rw [← hqp j (by omega)]
        exact hpre j (Nat.zero_le _) hj
      · rw [ht2, ← hqp k hk2]
        exact slot_set_self hidx _
      · intro i hi
        rw [ht2]
        rw [← hqp k hk2] at hi
        exact slot_set_ne (Ne.symm hi) _
      · rw [ht2]
        exact List.length_set _ _ _
      · rw [ht2]
      · rw [ht2]
      · intro hlt
        rw [ht2]
        exact Nat.mod_eq_of_lt hlt

/-- Index safety: in every table reachable from a constructed table (initial
capacity at least 1, vectors below `2 ^ 63` cells) by `insert` and `remove`:
`sizeT ≥ 1` and the vector has `sizeT` cells; for every book, start index and
attempt, `hashFunction` and `quadraticProbing` return an index below `sizeT`;
`quadraticProbing` equals `(start + k * k) mod sizeT` whenever `start + k * k`
fits in `size_t`, in particular for all `start, k < sizeT` when
`sizeT ≤ 2 ^ 32`; and `insert`, `search`, `remove` and `rehash`, run with every
`%` and every vector access checked, fail at no check and return what the
methods return. -/
theorem index_safety (strHash : List Int → Nat) (t : HashTable) (hreach : Reachable strHash t) :
    1 ≤ t.sizeT ∧ t.table.length = t.sizeT ∧
    (∀ r, hashFunction strHash t.sizeT r < t.sizeT) ∧
    (∀ s k, quadraticProbing t.sizeT s k < t.sizeT) ∧
    (∀ s k, s + k * k < SIZE_MOD → quadraticProbing t.sizeT s k = specProbe t.sizeT s k) ∧
    (t.sizeT ≤ 2 ^ 32 → ∀ s k, s < t.sizeT → k < t.sizeT →
      quadraticProbing t.sizeT s k = specProbe t.sizeT s k) ∧
    (∀ s k, specProbe t.sizeT s k < t.sizeT) ∧
    (∀ r, t.insertChecked strHash r = some (t.insert strHash r)) ∧
    (∀ r, t.searchChecked strHash r = some (t.search strHash r)) ∧
    (∀ r, t.removeChecked strHash r = some (t.remove strHash r)) ∧
    t.rehashChecked strHash = some (t.rehash strHash) := by
  obtain ⟨hlen, hcap, hfit, -, -⟩ := reachable_inv hreach
  have hwf : t.WF := ⟨hlen, hcap⟩
  refine ⟨hcap, hlen, fun r => hashFunction_lt strHash hcap r,
    fun s k => quadraticProbing_lt hcap s k, fun s k h => quadraticProbing_no_wrap h,
    fun h32 s k hs hk => quadraticProbing_eq_specProbe h32 hs hk,
    fun s k => Nat.mod_lt _ (by omega), fun r => ?_, fun r => ?_, fun r => ?_,
    rehashChecked_eq strHash hwf hfit⟩
  · unfold HashTable.insertChecked
    rw [insert_eq]
    unfold HashTable.growIfNeeded
    by_cases hn : needsRehash t = true
    · have hwf2 : (t.rehash strHash).WF :=
        ⟨rehash_length strHash t, by rw [rehash_sizeT strHash t hfit]; omega⟩
      rw [if_pos hn, if_pos hn, rehashChecked_eq strHash hwf hfit, Option.some_bind,
        hashFunctionChecked_eq strHash hwf2.2, Option.some_bind, insertLoopChecked_eq hwf2]
    · rw [if_neg hn, if_neg hn, Option.some_bind, hashFunctionChecked_eq strHash hcap,
        Option.some_bind, insertLoopChecked_eq hwf]
  · unfold HashTable.searchChecked HashTable.search
    rw [hashFunctionChecked_eq strHash hcap, Option.some_bind, searchLoopChecked_eq hwf]
  · unfold HashTable.removeChecked HashTable.remove
    rw [hashFunctionChecked_eq strHash hcap, Option.some_bind, removeLoopChecked_eq hwf]

/-- An occupied cell counts in `occupiedCount`. -/
theorem occupiedCount_pos {t : HashTable} {i : Nat}
    (h : (slot t.table i).status = CellStatus.OCCUPIED) : 1 ≤ occupiedCount t := by
  have hlt : i < t.table.length := lt_length_of_status (by rw [h]; decide)
  unfold occupiedCount
  apply List.countP_pos_iff.2
  refine ⟨slot t.table i, ?_, by simp [isOccupied, h]⟩
  rw [slot_eq_getElem hlt]
  exact List.getElem_mem _

set_option maxRecDepth 100000 in
set_option synthInstance.maxSize 2000 in
set_option synthInstance.maxHeartbeats 400000 in
set_option maxHeartbeats 4000000 in
/-- The three calls of `insert` of `main`, for each triple of hash start indices
below 11: the loops succeed, the capacity stays 11 and no growth is due before
the second and the third call. -/
theorem demo_run :
    ∀ h1, h1 < 11 → ∀ h2, h2 < 11 → ∀ h3, h3 < 11 →
      (demoT1 h1).2 = true ∧ (demoT1 h1).1.sizeT = 11 ∧ needsRehash (demoT1 h1).1 = false ∧
      (demoT2 h1 h2).2 = true ∧ (demoT2 h1 h2).1.sizeT = 11 ∧
      needsRehash (demoT2 h1 h2).1 = false ∧
      (demoT3 h1 h2 h3).2 = true ∧ (demoT3 h1 h2 h3).1.sizeT = 11 ∧
      (demoT3 h1 h2 h3).1.size = 3 := by
  decide

set_option maxRecDepth 100000 in
set_option synthInstance.maxSize 2000 in
set_option synthInstance.maxHeartbeats 400000 in
set_option maxHeartbeats 4000000 in
/-- The calls of `search` and `remove` of `main`, for each triple of hash start
indices below 11: the loop of `search` finds a cell holding `book2`, the loop of
`remove` succeeds, and `print` then lists `book1` and `book2` only. -/
theorem demo_run_rest :
    ∀ h1, h1 < 11 → ∀ h2, h2 < 11 → ∀ h3, h3 < 11 →
      (searchLoop (demoT3 h1 h2 h3).1 book2 h2 11 0).map (slot (demoT3 h1 h2 h3).1.table)
        = some ⟨book2, CellStatus.OCCUPIED⟩ ∧
      (removeLoop (demoT3 h1 h2 h3).1 book3 h3 11 0).2 = true ∧
      (removeLoop (demoT3 h1 h2 h3).1 book3 h3 11 0).1.sizeT = 11 ∧
      (removeLoop (demoT3 h1 h2 h3).1 book3 h3 11 0).1.size = 2 ∧
      (((removeLoop (demoT3 h1 h2 h3).1 book3 h3 11 0).1.print.map Prod.snd = [book1, book2]) ∨
        ((removeLoop (demoT3 h1 h2 h3).1 book3 h3 11 0).1.print.map Prod.snd = [book2, book1])) := by
  decide

theorem mainInsert1_eq (strHash : List Int → Nat) :
    mainInsert1 strHash = demoT1 (hashFunction strHash 11 book1) := by
  unfold mainInsert1
  rw [insert_eq, growIfNeeded_of_not strHash (by decide)]
  rfl

theorem mainInsert2_eq (strHash : List Int → Nat) :
    mainInsert2 strHash =
      demoT2 (hashFunction strHash 11 book1) (hashFunction strHash 11 book2) := by
  obtain ⟨-, r2, r3, -⟩ := demo_run _ (hashFunction_lt strHash (by decide) book1) 0 (by decide)
    0 (by decide)
  unfold mainInsert2
  rw [mainInsert1_eq, insert_eq, growIfNeeded_of_not strHash r3, r2]
  rfl

theorem mainInsert3_eq (strHash : List Int → Nat) :
    mainInsert3 strHash =
      demoT3 (hashFunction strHash 11 book1) (hashFunction strHash 11 book2)
        (hashFunction strHash 11 book3) := by
  obtain ⟨-, -, -, -, r5, r6, -⟩ := demo_run _ (hashFunction_lt strHash (by decide) book1)
    _ (hashFunction_lt strHash (by decide) book2) 0 (by decide)
  unfold mainInsert3
  rw [mainInsert2_eq, insert_eq, growIfNeeded_of_not strHash r6, r5]
  rfl

/-! C1: Round trip of `insert` and `search`. -/

/-- C1 (round trip): on a table with `sizeT` cells, `sizeT ≥ 1`, whenever
`insert r` returns `true` (after growing the table or not), `search r` on the
resulting table finds a cell, and that cell is occupied by a book with the
same year, title and author as `r`. -/
theorem insert_search_roundtrip (strHash : List Int → Nat) (t : HashTable) (r : Book)
    (hwf : t.WF) (hins : (t.insert strHash r).2 = true) :
    ∃ i, (t.insert strHash r).1.search strHash r = some i ∧
      (slot (t.insert strHash r).1.table i).status = CellStatus.OCCUPIED ∧
      (slot (t.insert strHash r).1.table i).data.year = r.year ∧
      (slot (t.insert strHash r).1.table i).data.title = r.title ∧
      (slot (t.insert strHash r).1.table i).data.author = r.author := by
  have hlen := grown_length strHash t hwf.1
  have hpair : t.insert strHash r = ((t.insert strHash r).1, true) := by
    rw [← hins]
  rw [insert_eq] at hpair
  obtain ⟨i, hi1, hi2⟩ := search_after_insertLoop strHash _ r hlen hpair
  rw [← insert_eq] at hi1 hi2
  exact ⟨i, hi1, by rw [hi2], by rw [hi2], by rw [hi2], by rw [hi2]⟩

theorem insert_search_roundtrip_witness :
    tableTwo.WF ∧ needsRehash tableTwo = true ∧
    (tableTwo.insert strHash0 (bookOfYear 6)).2 = true ∧
    ∃ i, (tableTwo.insert strHash0 (bookOfYear 6)).1.search strHash0 (bookOfYear 6) = some i ∧
      (slot (tableTwo.insert strHash0 (bookOfYear 6)).1.table i).status = CellStatus.OCCUPIED ∧
      (slot (tableTwo.insert strHash0 (bookOfYear 6)).1.table i).data.year = (bookOfYear 6).year ∧
      (slot (tableTwo.insert strHash0 (bookOfYear 6)).1.table i).data.title = (bookOfYear 6).title ∧
      (slot (tableTwo.insert strHash0 (bookOfYear 6)).1.table i).data.author
        = (bookOfYear 6).author :=
  ⟨by decide, by decide, by decide,
    insert_search_roundtrip strHash0 tableTwo (bookOfYear 6) (by decide) (by decide)⟩

/-! C2: Growth. -/

/-- C2 (growth): for every string hash, the default table into which the eight
books of `booksThirtyTwo` were inserted holds all eight in occupied cells and
is due for growth; `rehash` doubles its capacity from 11 to 22, and afterwards
`search` does not find at least one of the eight books.  With the string hash
`strHash0` and the books of years 11 to 18 (`tableEight`), `search` finds none
of the eight books after `rehash`. -/
theorem rehash_loses_books (strHash : List Int → Nat) :
    (Reachable strHash (insertAll strHash (HashTable.new DEFAULT_SIZE) booksThirtyTwo) ∧
      needsRehash (insertAll strHash (HashTable.new DEFAULT_SIZE) booksThirtyTwo) = true ∧
      (insertAll strHash (HashTable.new DEFAULT_SIZE) booksThirtyTwo).sizeT = 11 ∧
      ((insertAll strHash (HashTable.new DEFAULT_SIZE) booksThirtyTwo).rehash strHash).sizeT = 22 ∧
      (∀ b, b ∈ booksThirtyTwo → ∃ i,
        slot (insertAll strHash (HashTable.new DEFAULT_SIZE) booksThirtyTwo).table i
          = ⟨b, CellStatus.OCCUPIED⟩) ∧
      ∃ b, b ∈ booksThirtyTwo ∧
        ((insertAll strHash (HashTable.new DEFAULT_SIZE) booksThirtyTwo).rehash strHash).search
          strHash b = none) ∧
    (Reachable strHash0 tableEight ∧ needsRehash tableEight = true ∧
      tableEight.sizeT = 11 ∧ (tableEight.rehash strHash0).sizeT = 22 ∧
      ∀ n, n < 8 →
        slot tableEight.table n = ⟨bookOfYear (11 + (n : Int)), CellStatus.OCCUPIED⟩ ∧
        (tableEight.rehash strHash0).search strHash0 (bookOfYear (11 + (n : Int))) = none) := by
  have hnew : Reachable strHash (HashTable.new DEFAULT_SIZE) :=
    Reachable.new DEFAULT_SIZE (by decide) (by decide)
  have hlim : (HashTable.new DEFAULT_SIZE).sizeT < SLOT_LIMIT := by decide
  obtain ⟨h1, h2, h3, h4, h5, -⟩ := insertAll_distinct strHash booksThirtyTwo
    (HashTable.new DEFAULT_SIZE) (by decide) hlim (by decide) (by decide)
    (hash_eleven_nodup strHash)
    (fun b _ => by
      show (slot (List.replicate _ _) _).status ≠ _
      rw [slot_replicate]; decide)
  have hsz : (insertAll strHash (HashTable.new DEFAULT_SIZE) booksThirtyTwo).sizeT = 11 := h2
  have hsize : (insertAll strHash (HashTable.new DEFAULT_SIZE) booksThirtyTwo).size = 8 := h3
  have hfit : (insertAll strHash (HashTable.new DEFAULT_SIZE) booksThirtyTwo).sizeT < SLOT_LIMIT := by
    rw [hsz]; decide
  refine ⟨⟨reachable_insertAll strHash _ _ hnew h4, ?_, hsz, ?_, fun b hb => ⟨_, h5 b hb⟩, ?_⟩,
    reachable_insertAll strHash0 _ _ (Reachable.new DEFAULT_SIZE (by decide) (by decide))
      (by decide),
    by decide, by decide, by decide, by decide⟩
  · exact (needsRehash_iff_of_small (by rw [hsz]; decide) (by rw [hsz]; decide)
      (by rw [hsize]; decide)).2 (by rw [hsz, hsize]; decide)
  · rw [rehash_sizeT strHash _ hfit, hsz]
  · obtain ⟨b, hb1, hb2⟩ := hash_twenty_two_upper strHash
    refine ⟨b, hb1, search_none_after_rehash strHash _ b h1.2 hfit ?_⟩
    rw [hsz]
    exact hb2

/-! C3: Load factor after `insert`. -/

/-- C3 as stated fails: the default table holding the books of years 0 to 6 is
reachable, `insert` of the book of year 7 returns `true`, and afterwards
`size = 8`, `sizeT = 11`, so `10 * size < 7 * sizeT` is false. -/
theorem load_factor_counterexample :
    Reachable strHash0 tableSeven ∧
    (tableSeven.insert strHash0 (bookOfYear 7)).2 = true ∧
    (tableSeven.insert strHash0 (bookOfYear 7)).1.size = 8 ∧
    (tableSeven.insert strHash0 (bookOfYear 7)).1.sizeT = 11 ∧
    ¬ (10 * (tableSeven.insert strHash0 (bookOfYear 7)).1.size
        < 7 * (tableSeven.insert strHash0 (bookOfYear 7)).1.sizeT) :=
  ⟨reachable_insertAll strHash0 _ _ (Reachable.new DEFAULT_SIZE (by decide) (by decide))
      (by decide),
    by decide, by decide, by decide, by decide⟩

/-- C3, amended (load factor): in every table reachable from a constructed
table by `insert` and `remove`, when `insert r` returns `true` the load factor
just before `r` was stored was below the threshold of `needsRehash`:
afterwards `1 ≤ size ≤ sizeT`; when the call did not grow the table, the test of
`needsRehash`, in `double` arithmetic, is false for `size - 1` and `sizeT`;
and `10 * (size - 1) < 7 * sizeT` whenever the call grew the table or `sizeT`
is below `2 ^ 54 / 18`. -/
theorem load_factor_after_insert (strHash : List Int → Nat) (t : HashTable) (r : Book)
    (hreach : Reachable strHash t) (hins : (t.insert strHash r).2 = true) :
    1 ≤ (t.insert strHash r).1.size ∧
    (t.insert strHash r).1.size ≤ (t.insert strHash r).1.sizeT ∧
    (needsRehash t = false →
      needsRehash ⟨(t.insert strHash r).1.table, (t.insert strHash r).1.sizeT,
        (t.insert strHash r).1.size - 1⟩ = false) ∧
    (needsRehash t = true →
      10 * ((t.insert strHash r).1.size - 1) < 7 * (t.insert strHash r).1.sizeT) ∧
    (18 * (t.insert strHash r).1.sizeT < 2 ^ 54 →
      10 * ((t.insert strHash r).1.size - 1) < 7 * (t.insert strHash r).1.sizeT) := by
  obtain ⟨t1, t2, t3, t4, t5⟩ := reachable_inv hreach
  obtain ⟨g1, g2, g3, g4, g5⟩ := inv_grown strHash (reachable_inv hreach)
  have hpair : t.insert strHash r = ((t.insert strHash r).1, true) := by
    rw [← hins]
  rw [insert_eq] at hpair
  obtain ⟨k, -, -, -, -, hk5⟩ := insertLoop_true _ _ hpair
  rw [← insert_eq] at hk5
  rw [hk5]
  have hmod := size_succ_of_grown g5 g3
  show 1 ≤ ((t.growIfNeeded strHash).size + 1) % SIZE_MOD ∧
    ((t.growIfNeeded strHash).size + 1) % SIZE_MOD ≤ (t.growIfNeeded strHash).sizeT ∧
    (needsRehash t = false →
      needsRehash ⟨_, (t.growIfNeeded strHash).sizeT,
        ((t.growIfNeeded strHash).size + 1) % SIZE_MOD - 1⟩ = false) ∧
    (needsRehash t = true →
      10 * (((t.growIfNeeded strHash).size + 1) % SIZE_MOD - 1) <
        7 * (t.growIfNeeded strHash).sizeT) ∧
    (18 * (t.growIfNeeded strHash).sizeT < 2 ^ 54 →
      10 * (((t.growIfNeeded strHash).size + 1) % SIZE_MOD - 1) <
        7 * (t.growIfNeeded strHash).sizeT)
  rw [hmod, Nat.add_sub_cancel]
  have hgrow : needsRehash t = true →
      10 * (t.growIfNeeded strHash).size < 7 * (t.growIfNeeded strHash).sizeT := by
    intro hn
    have hg : t.growIfNeeded strHash = t.rehash strHash := by
      simp [HashTable.growIfNeeded, hn]
    rw [hg, rehash_sizeT strHash t t3]
    show 10 * t.size < 7 * (2 * t.sizeT)
    omega
  refine ⟨by omega, by omega, fun hn => ?_, hgrow, fun hsmall => ?_⟩
  · rw [growIfNeeded_of_not strHash hn]
    exact hn
  · cases hn : needsRehash t with
    | true => exact hgrow hn
    | false =>
      rw [growIfNeeded_of_not strHash hn] at hsmall ⊢
      have hiff := needsRehash_iff_of_small t2 hsmall
        (by unfold SLOT_LIMIT at t3; norm_num; omega)
      rw [hn] at hiff
      have hnot : ¬ 7 * t.sizeT ≤ 10 * t.size := fun hc => by simpa using hiff.2 hc
      omega

/-- C3, amended, at concrete inputs: the default table holding the books of
years 0 to 6 and the book of year 7. -/
theorem load_factor_after_insert_witness :
    Reachable strHash0 tableSeven ∧
    (tableSeven.insert strHash0 (bookOfYear 7)).2 = true ∧
    needsRehash tableSeven = false ∧
    1 ≤ (tableSeven.insert strHash0 (bookOfYear 7)).1.size ∧
    10 * ((tableSeven.insert strHash0 (bookOfYear 7)).1.size - 1)
      < 7 * (tableSeven.insert strHash0 (bookOfYear 7)).1.sizeT :=
  ⟨reachable_insertAll strHash0 _ _ (Reachable.new DEFAULT_SIZE (by decide) (by decide))
      (by decide),
    by decide, by decide,
    (load_factor_after_insert strHash0 tableSeven (bookOfYear 7)
      (reachable_insertAll strHash0 _ _ (Reachable.new DEFAULT_SIZE (by decide) (by decide))
        (by decide))
      (by decide)).1,
    (load_factor_after_insert strHash0 tableSeven (bookOfYear 7)
      (reachable_insertAll strHash0 _ _ (Reachable.new DEFAULT_SIZE (by decide) (by decide))
        (by decide))
      (by decide)).2.2.2.2 (by decide)⟩

/-! C4: Deletion finality. -/

/-- C4 (deletion finality): on a table with `sizeT` cells, `sizeT ≥ 1`, in which
no occupied cell holds a book equal to `r`, if `insert r` returns `true` then
the following `remove r` returns `true` and a subsequent `search r` finds
nothing. -/
theorem insert_remove_search (strHash : List Int → Nat) (t : HashTable) (r : Book)
    (hwf : t.WF)
    (hno : ∀ i, ¬ ((slot t.table i).status = CellStatus.OCCUPIED ∧ (slot t.table i).data = r))
    (hins : (t.insert strHash r).2 = true) :
    ((t.insert strHash r).1.remove strHash r).2 = true ∧
    ((t.insert strHash r).1.remove strHash r).1.search strHash r = none := by
  have hlen := grown_length strHash t hwf.1
  have hno1 : ∀ i, ¬ ((slot (t.growIfNeeded strHash).table i).status
      = CellStatus.OCCUPIED ∧
      (slot (t.growIfNeeded strHash).table i).data = r) := by
    unfold HashTable.growIfNeeded
    split_ifs
    · intro i hi
      obtain ⟨j, hj1, hj2⟩ := rehash_fromOld strHash t i hi.1
      exact hno j ⟨hj1, hj2.trans hi.2⟩
    · exact hno
  have hpair : t.insert strHash r = ((t.insert strHash r).1, true) := by
    rw [← hins]
  rw [insert_eq] at hpair
  obtain ⟨i, hi1, hi2⟩ := search_after_insertLoop strHash _ r hlen hpair
  obtain ⟨k, -, -, -, -, hk5⟩ := insertLoop_true _ _ hpair
  rw [← insert_eq] at hi1 hi2 hk5
  rw [remove_of_search_some hi1]
  refine ⟨rfl, search_none_of_absent (absent_after_delete (fun j hj => ?_))⟩
  by_contra hji
  have hidx : slot (t.insert strHash r).1.table j =
      slot (t.growIfNeeded strHash).table j ∨
      j = quadraticProbing (t.growIfNeeded strHash).sizeT
        (hashFunction strHash (t.growIfNeeded strHash).sizeT r) k := by
    rw [hk5]
    by_cases hjk : quadraticProbing (t.growIfNeeded strHash).sizeT
        (hashFunction strHash (t.growIfNeeded strHash).sizeT r) k = j
    · exact Or.inr hjk.symm
    · exact Or.inl (slot_set_ne hjk _)
  have hidx2 : slot (t.insert strHash r).1.table i =
      slot (t.growIfNeeded strHash).table i ∨
      i = quadraticProbing (t.growIfNeeded strHash).sizeT
        (hashFunction strHash (t.growIfNeeded strHash).sizeT r) k := by
    rw [hk5]
    by_cases hik : quadraticProbing (t.growIfNeeded strHash).sizeT
        (hashFunction strHash (t.growIfNeeded strHash).sizeT r) k = i
    · exact Or.inr hik.symm
    · exact Or.inl (slot_set_ne hik _)
  rcases hidx with hj1 | hj1
  · rw [hj1] at hj; exact hno1 j hj
  · rcases hidx2 with hi3 | hi3
    · rw [hi3] at hi2
      exact hno1 i ⟨by rw [hi2], by rw [hi2]⟩
    · exact hji (hj1.trans hi3.symm)

theorem insert_remove_search_witness :
    tableTwo.WF ∧ (tableTwo.insert strHash0 (bookOfYear 6)).2 = true ∧
    ((tableTwo.insert strHash0 (bookOfYear 6)).1.remove strHash0 (bookOfYear 6)).2 = true ∧
    ((tableTwo.insert strHash0 (bookOfYear 6)).1.remove strHash0 (bookOfYear 6)).1.search
      strHash0 (bookOfYear 6) = none :=
  ⟨by decide, by decide,
    insert_remove_search strHash0 tableTwo (bookOfYear 6) (by decide)
      (absent_of_bounded (by decide)) (by decide)⟩

/-! C5: Removing twice. -/

/-- C5 as stated fails: on the default table into which the same book was
inserted twice, two consecutive calls `remove` of that book both return `true`. -/
theorem remove_twice_counterexample :
    Reachable strHash0 tableDup ∧
    (tableDup.remove strHash0 (bookOfYear 1949)).2 = true ∧
    ((tableDup.remove strHash0 (bookOfYear 1949)).1.remove strHash0 (bookOfYear 1949)).2 = true :=
  ⟨reachable_insertAll strHash0 _ _ (Reachable.new DEFAULT_SIZE (by decide) (by decide))
      (by decide),
    by decide, by decide⟩

/-- C5, amended (idempotent removal): when at most one occupied cell holds a
book equal to `r`, the second of two consecutive calls `remove r` returns
`false`. -/
theorem remove_twice (strHash : List Int → Nat) (t : HashTable) (r : Book)
    (huniq : ∀ i j, (slot t.table i).status = CellStatus.OCCUPIED ∧ (slot t.table i).data = r →
      (slot t.table j).status = CellStatus.OCCUPIED ∧ (slot t.table j).data = r → i = j) :
    ((t.remove strHash r).1.remove strHash r).2 = false := by
  cases hs : t.search strHash r with
  | none =>
    rw [remove_of_search_none hs]
    show (t.remove strHash r).2 = false
    rw [remove_of_search_none hs]
  | some i =>
    rw [remove_of_search_some hs]
    have hi := search_some hs
    have hno := @absent_after_delete t.table r i (fun j hj => huniq j i hj hi)
    have hs2 : HashTable.search strHash
        ⟨t.table.set i ⟨r, CellStatus.DELETED⟩, t.sizeT, (t.size + (SIZE_MOD - 1)) % SIZE_MOD⟩ r
        = none := search_none_of_absent hno
    show (HashTable.remove strHash _ r).2 = false
    rw [remove_of_search_none hs2]

theorem remove_twice_witness :
    (tableSeven.remove strHash0 (bookOfYear 3)).2 = true ∧
    ((tableSeven.remove strHash0 (bookOfYear 3)).1.remove strHash0 (bookOfYear 3)).2 = false :=
  ⟨by decide, remove_twice strHash0 tableSeven (bookOfYear 3) (unique_of_bounded (by decide))⟩

/-! C6: Failed `insert`. -/

/-- C6 as stated fails: on `tableTwo` (capacity 2, both cells occupied) the call
`insert (bookOfYear 4)` returns `false` and leaves a table of capacity 4. -/
theorem insert_failure_counterexample :
    Reachable strHash0 tableTwo ∧ tableTwo.WF ∧ tableTwo.sizeT = 2 ∧
    (tableTwo.insert strHash0 (bookOfYear 4)).2 = false ∧
    (tableTwo.insert strHash0 (bookOfYear 4)).1.sizeT = 4 ∧
    (tableTwo.insert strHash0 (bookOfYear 4)).1 ≠ tableTwo :=
  ⟨reachable_insertAll strHash0 _ _ (Reachable.new 2 (by decide) (by decide)) (by decide),
    by decide, by decide, by decide, by decide, by decide⟩

/-- C6, amended (failed insert): when `insert r` returns `false`, the table
afterwards is the table left by the opening growth step: the table before the
call when no growth was due, the result of `rehash` otherwise. -/
theorem insert_failure (strHash : List Int → Nat) (t : HashTable) (r : Book)
    (hfail : (t.insert strHash r).2 = false) :
    (t.insert strHash r).1 = t.growIfNeeded strHash ∧
    (needsRehash t = false → (t.insert strHash r).1 = t) ∧
    (needsRehash t = true → (t.insert strHash r).1 = t.rehash strHash) := by
  have hpair : t.insert strHash r = ((t.insert strHash r).1, false) := by
    rw [← hfail]
  rw [insert_eq] at hpair
  obtain ⟨h1, -⟩ := insertLoop_false _ _ hpair
  rw [← insert_eq] at h1
  refine ⟨h1, fun hn => ?_, fun hn => ?_⟩
  · rw [h1, growIfNeeded_of_not strHash hn]
  · rw [h1]; simp [HashTable.growIfNeeded, hn]

theorem insert_failure_witness :
    needsRehash tableFour = false ∧
    (tableFour.insert strHash0 (bookOfYear 4)).2 = false ∧
    (tableFour.insert strHash0 (bookOfYear 4)).1 = tableFour :=
  ⟨by decide, by decide,
    (insert_failure strHash0 tableFour (bookOfYear 4) (by decide)).2.1 (by decide)⟩

/-! C7: `size` and the occupied cells. -/

/-- C7 (count): for every string hash there are nine different books (those of
`dropBooks`, chosen for the hash of the empty string) whose insertion into the
default table gives a reachable table of capacity 22 with `size = 9` and only
eight occupied cells.  With the string hash `strHash0`, the table `tableNine`
(books of years 11, 5, 6, 2, 4, 0, 1, 10, 3) is such a table, and `search` does
not find the book of year 1 in it. -/
theorem size_exceeds_occupied (strHash : List Int → Nat) :
    (Reachable strHash
        (insertAll strHash (HashTable.new DEFAULT_SIZE) (dropBooks (strHash [] % SIZE_MOD % 11))) ∧
      (dropBooks (strHash [] % SIZE_MOD % 11)).Nodup ∧
      (insertAll strHash (HashTable.new DEFAULT_SIZE)
        (dropBooks (strHash [] % SIZE_MOD % 11))).sizeT = 22 ∧
      (insertAll strHash (HashTable.new DEFAULT_SIZE)
        (dropBooks (strHash [] % SIZE_MOD % 11))).size = 9 ∧
      occupiedCount (insertAll strHash (HashTable.new DEFAULT_SIZE)
        (dropBooks (strHash [] % SIZE_MOD % 11))) = 8) ∧
    (Reachable strHash0 tableNine ∧ tableNine.sizeT = 22 ∧ tableNine.size = 9 ∧
      occupiedCount tableNine = 8 ∧ tableNine.search strHash0 (bookOfYear 1) = none) := by
  have ha : strHash [] % SIZE_MOD % 22 < 22 := Nat.mod_lt _ (by decide)
  have h11 : strHash [] % SIZE_MOD % 11 = strHash [] % SIZE_MOD % 22 % 11 :=
    (Nat.mod_mod_of_dvd _ (by decide)).symm
  obtain ⟨r1, r2, r3, r4, r5, r6⟩ := dropBooks_run _ ha
  obtain ⟨e1, e2⟩ := @insertAll_congr strHash _ 22
    (fun c hc => hashAgree_const strHash (by decide) (by decide) hc)
    (dropBooks (strHash [] % SIZE_MOD % 22 % 11)) (HashTable.new DEFAULT_SIZE)
    (plain_new _) r1
  rw [h11, e1]
  refine ⟨⟨?_, r6, r3, r4, r5⟩,
    reachable_insertAll strHash0 _ _ (Reachable.new DEFAULT_SIZE (by decide) (by decide))
      (by decide),
    by decide, by decide, by decide, by decide⟩
  rw [← e1]
  exact reachable_insertAll strHash _ _ (Reachable.new DEFAULT_SIZE (by decide) (by decide))
    (by rw [e2]; exact r2)

/-! C8: Reuse of a `DELETED` cell. -/

/-- C8 (tombstone transparency): in a freshly constructed table of capacity
`n ≥ 1`, for books `r1`, `r2` with the same hash start index, after
`insert r1`, `remove r1`, `insert r2` (all of which return `true`): the cell
that held `r1` was marked `DELETED` and now holds `r2` as `OCCUPIED`, `size` is
1, and `search r2` finds that cell. -/
theorem tombstone_reuse (strHash : List Int → Nat) (n : Nat) (r1 r2 : Book) (hn : 1 ≤ n)
    (hh : hashFunction strHash n r1 = hashFunction strHash n r2) :
    ((HashTable.new n).insert strHash r1).2 = true ∧
    slot ((HashTable.new n).insert strHash r1).1.table
      (quadraticProbing n (hashFunction strHash n r1) 0) = ⟨r1, CellStatus.OCCUPIED⟩ ∧
    (((HashTable.new n).insert strHash r1).1.remove strHash r1).2 = true ∧
    slot (((HashTable.new n).insert strHash r1).1.remove strHash r1).1.table
      (quadraticProbing n (hashFunction strHash n r1) 0) = ⟨r1, CellStatus.DELETED⟩ ∧
    ((((HashTable.new n).insert strHash r1).1.remove strHash r1).1.insert strHash r2).2 = true ∧
    slot ((((HashTable.new n).insert strHash r1).1.remove strHash r1).1.insert strHash r2).1.table
      (quadraticProbing n (hashFunction strHash n r1) 0) = ⟨r2, CellStatus.OCCUPIED⟩ ∧
    ((((HashTable.new n).insert strHash r1).1.remove strHash r1).1.insert strHash r2).1.size = 1 ∧
    ((((HashTable.new n).insert strHash r1).1.remove strHash r1).1.insert strHash r2).1.sizeT = n ∧
    ((((HashTable.new n).insert strHash r1).1.remove strHash r1).1.insert strHash r2).1.search
      strHash r2 = some (quadraticProbing n (hashFunction strHash n r1) 0) := by
  obtain ⟨m, rfl⟩ : ∃ m, n = m + 1 := ⟨n - 1, by omega⟩
  generalize hi : quadraticProbing (m + 1) (hashFunction strHash (m + 1) r1) 0 = i
  have hlt : i < m + 1 := by rw [← hi]; exact quadraticProbing_lt hn _ _
  have hi2 : quadraticProbing (m + 1) (hashFunction strHash (m + 1) r2) 0 = i := by
    rw [← hh]; exact hi
  generalize htab0 : List.replicate (m + 1) HashItem.empty = tab0
  have hlen0 : i < tab0.length := by rw [← htab0]; simpa using hlt
  have hfree0 : (slot tab0 i).status ≠ CellStatus.OCCUPIED := by
    rw [← htab0, slot_replicate]; decide
  -- first insert
  have e1 : (HashTable.new (m + 1)).insert strHash r1 =
      (⟨tab0.set i ⟨r1, CellStatus.OCCUPIED⟩, m + 1, 1⟩, true) := by
    rw [insert_eq]
    simp only [HashTable.new, htab0]
    rw [growIfNeeded_of_not strHash (needsRehash_new hn _)]
    rw [insertLoop_first (by simpa only [hi] using hfree0)]
    simp only [hi, size_succ_zero]
  rw [e1]
  simp only
  generalize htab1 : tab0.set i ⟨r1, CellStatus.OCCUPIED⟩ = tab1
  have hlen1 : i < tab1.length := by rw [← htab1]; simpa using hlen0
  have hs1 : slot tab1 i = ⟨r1, CellStatus.OCCUPIED⟩ := by
    rw [← htab1]; exact slot_set_self hlen0 _
  -- remove
  have hsearch1 : HashTable.search strHash ⟨tab1, m + 1, 1⟩ r1 = some i := by
    unfold HashTable.search
    rw [searchLoop_first (by simpa only [hi] using hs1)]
    simp only [hi]
  have e2 : HashTable.remove strHash ⟨tab1, m + 1, 1⟩ r1 =
      (⟨tab1.set i ⟨r1, CellStatus.DELETED⟩, m + 1, 0⟩, true) := by
    rw [remove_of_search_some hsearch1]
    simp only [size_pred_one]
  rw [e2]
  simp only
  generalize htab2 : tab1.set i ⟨r1, CellStatus.DELETED⟩ = tab2
  have hlen2 : i < tab2.length := by rw [← htab2]; simpa using hlen1
  have hs2 : slot tab2 i = ⟨r1, CellStatus.DELETED⟩ := by
    rw [← htab2]; exact slot_set_self hlen1 _
  -- second insert
  have e3 : HashTable.insert strHash ⟨tab2, m + 1, 0⟩ r2 =
      (⟨tab2.set i ⟨r2, CellStatus.OCCUPIED⟩, m + 1, 1⟩, true) := by
    rw [insert_eq, growIfNeeded_of_not strHash (needsRehash_new hn _)]
    rw [insertLoop_first (by simp only [hi2, hs2]; decide)]
    simp only [hi2, size_succ_zero]
  rw [e3]
  simp only
  have hs3 : slot (tab2.set i ⟨r2, CellStatus.OCCUPIED⟩) i = ⟨r2, CellStatus.OCCUPIED⟩ :=
    slot_set_self hlen2 _
  have hsearch3 : HashTable.search strHash ⟨tab2.set i ⟨r2, CellStatus.OCCUPIED⟩, m + 1, 1⟩ r2
      = some i := by
    unfold HashTable.search
    rw [searchLoop_first (by simpa only [hi2] using hs3)]
    simp only [hi2]
  exact ⟨trivial, hs1, trivial, hs2, trivial, hs3, trivial, trivial, hsearch3⟩

theorem tombstone_reuse_witness :
    hashFunction strHash0 11 (bookOfYear 0) = hashFunction strHash0 11 (bookOfYear 11) ∧
    ((((HashTable.new 11).insert strHash0 (bookOfYear 0)).1.remove strHash0
      (bookOfYear 0)).1.insert strHash0 (bookOfYear 11)).1.search strHash0 (bookOfYear 11)
      = some (quadraticProbing 11 (hashFunction strHash0 11 (bookOfYear 0)) 0) :=
  ⟨by decide,
    (tombstone_reuse strHash0 11 (bookOfYear 0) (bookOfYear 11) (by decide)
      (by decide)).2.2.2.2.2.2.2.2⟩

/-! C9: Contract of `search`. -/

/-- C9 (search contract) fails on the code above `2 ^ 32` cells, where
`attempt * attempt` wraps in `size_t`.  For every string hash: the table
`overflowTable` is constructed with `2 ^ 33 - 2` cells and filled by one
`insert` for each book of `overflowBooks` (years 0 or 2, titles of characters
`1 .. 31`, empty author), which occupies the cells whose index is 0 or 1
modulo 3.  After `insert(r)` for the book `r = overflowBook`, whose hash start
index is 0, the table is still reachable, `r` is in cell 8, and `search(r)`
returns cell 8, which its loop reaches at attempt `2 ^ 32 + 2`; the reference
definition, walking the cells `(hash(r) + k * k) mod capacity`, returns
not-found. -/
theorem search_probe_overflow (strHash : List Int → Nat) :
    overflowTable strHash
      = insertAll strHash (HashTable.new 8589934590) (overflowBooks strHash) ∧
    (∀ b, b ∈ overflowBooks strHash → b.representable = true) ∧
    (overflowBook strHash).representable = true ∧
    Reachable strHash (overflowTable strHash) ∧
    Reachable strHash ((overflowTable strHash).insert strHash (overflowBook strHash)).1 ∧
    ((overflowTable strHash).insert strHash (overflowBook strHash)).1.WF ∧
    ((overflowTable strHash).insert strHash (overflowBook strHash)).1.sizeT = 8589934590 ∧
    hashFunction strHash 8589934590 (overflowBook strHash) = 0 ∧
    quadraticProbing 8589934590 0 4294967298 = 8 ∧
    specProbe 8589934590 0 4294967298 = 4294967304 ∧
    slot ((overflowTable strHash).insert strHash (overflowBook strHash)).1.table 8
      = ⟨overflowBook strHash, CellStatus.OCCUPIED⟩ ∧
    ((overflowTable strHash).insert strHash (overflowBook strHash)).1.search strHash
      (overflowBook strHash) = some 8 ∧
    searchSpec strHash ((overflowTable strHash).insert strHash (overflowBook strHash)).1
      (overflowBook strHash) = none := by
  obtain ⟨g1, g2, g3, -, -, -, -⟩ := overflowTable_spec strHash
  have hins := stripe_insert strHash
  have hX : 8 < (stripeTable strHash 8589934590).table.length := by
    rw [g2.1, g3]; decide
  unfold overflowTable overflowBook overflowBooks
  refine ⟨rfl, stripeBooks_representable _ _, sumBook_representable _ _, g1,
    Reachable.insert _ _ g1 (by rw [hins]; dsimp only; decide), ?_, by rw [hins],
    hashFunction_overflowBook strHash, by decide, by decide, ?_,
    (stripe_search strHash).1, (stripe_search strHash).2⟩
  · rw [hins]
    exact ⟨by dsimp only; rw [List.length_set, g2.1, g3], by dsimp only; decide⟩
  · rw [hins]
    dsimp only
    exact slot_set_self hX _

/-! C10: Postcondition and frame of `remove`. -/

/-- C10 (postcondition and frame of `remove`): in every table reachable from a
constructed table by `insert` and `remove`, `remove r` returns `true` exactly
when `search r` finds a cell; then that cell, which was `OCCUPIED`, becomes
`DELETED` with its book kept, `size` decreases by exactly 1, and the capacity
and every other cell are unchanged; when `remove r` returns `false` the table
is unchanged. -/
theorem remove_postcondition (strHash : List Int → Nat) (t : HashTable) (r : Book)
    (hreach : Reachable strHash t) :
    ((t.remove strHash r).2 = true ↔ ∃ i, t.search strHash r = some i) ∧
    (∀ i, t.search strHash r = some i →
      i < t.sizeT ∧
      (slot t.table i).status = CellStatus.OCCUPIED ∧
      slot (t.remove strHash r).1.table i = ⟨(slot t.table i).data, CellStatus.DELETED⟩ ∧
      (∀ j, j ≠ i → slot (t.remove strHash r).1.table j = slot t.table j) ∧
      (t.remove strHash r).1.table.length = t.table.length ∧
      (t.remove strHash r).1.sizeT = t.sizeT ∧
      (t.remove strHash r).1.size + 1 = t.size) ∧
    ((t.remove strHash r).2 = false → (t.remove strHash r).1 = t) := by
  obtain ⟨t1, t2, t3, t4, t5⟩ := reachable_inv hreach
  obtain ⟨f1, f2, f3⟩ := remove_frame strHash t r ⟨t1, t2⟩
  refine ⟨f1, fun i hi => ?_, f3⟩
  obtain ⟨a1, a2, a3, a4, a5, a6, -, a8⟩ := f2 i hi
  have hpos := occupiedCount_pos a2
  refine ⟨a1, a2, a3, a4, a5, a6, a8 (by omega) ?_⟩
  unfold SLOT_LIMIT at t3
  unfold SIZE_MOD
  omega

/-- C10 at concrete inputs: the table of capacity 2 holding the books of years 0
and 1, from which the book of year 1 is removed. -/
theorem remove_postcondition_witness :
    Reachable strHash0 tableTwo ∧
    tableTwo.search strHash0 (bookOfYear 1) = some 1 ∧
    (tableTwo.remove strHash0 (bookOfYear 1)).2 = true ∧
    slot (tableTwo.remove strHash0 (bookOfYear 1)).1.table 1
      = ⟨(slot tableTwo.table 1).data, CellStatus.DELETED⟩ ∧
    (tableTwo.remove strHash0 (bookOfYear 1)).1.size + 1 = tableTwo.size :=
  ⟨reachable_insertAll strHash0 _ _ (Reachable.new 2 (by decide) (by decide)) (by decide),
    by decide, by decide,
    ((remove_postcondition strHash0 tableTwo (bookOfYear 1)
      (reachable_insertAll strHash0 _ _ (Reachable.new 2 (by decide) (by decide))
        (by decide))).2.1 1 (by decide)).2.2.1,
    ((remove_postcondition strHash0 tableTwo (bookOfYear 1)
      (reachable_insertAll strHash0 _ _ (Reachable.new 2 (by decide) (by decide))
        (by decide))).2.1 1 (by decide)).2.2.2.2.2.2⟩

/-! C11: Postcondition of `insert`. -/

/-- C11 (postcondition of `insert`) fails on the code above `2 ^ 32` cells,
where `attempt * attempt` wraps in `size_t`.  For every string hash: the table
`overflowTable` is constructed with `2 ^ 33 - 2` cells and filled by one
`insert` for each book of `overflowBooks` (years 0 or 2, titles of characters
`1 .. 31`, empty author), which occupies the cells whose index is 0 or 1
modulo 3; it is reachable and not due for growth.  For the book
`r = overflowBook`, whose hash start index is 0, every cell
`(hash(r) + k * k) mod capacity`, `k < capacity`, is occupied, yet `insert(r)`
returns `true` and stores `r` in cell 8, which is none of these cells and which
the loop reaches at attempt `2 ^ 32 + 2`. -/
theorem insert_probe_overflow (strHash : List Int → Nat) :
    overflowTable strHash
      = insertAll strHash (HashTable.new 8589934590) (overflowBooks strHash) ∧
    (∀ b, b ∈ overflowBooks strHash → b.representable = true) ∧
    (overflowBook strHash).representable = true ∧
    Reachable strHash (overflowTable strHash) ∧
    (overflowTable strHash).WF ∧
    (overflowTable strHash).sizeT = 8589934590 ∧
    (overflowTable strHash).size = 5726623060 ∧
    needsRehash (overflowTable strHash) = false ∧
    (overflowTable strHash).growIfNeeded strHash = overflowTable strHash ∧
    hashFunction strHash 8589934590 (overflowBook strHash) = 0 ∧
    (∀ k, k < 8589934590 →
      (slot (overflowTable strHash).table
        (specProbe 8589934590 (hashFunction strHash 8589934590 (overflowBook strHash)) k)).status
        = CellStatus.OCCUPIED) ∧
    ((overflowTable strHash).insert strHash (overflowBook strHash)).2 = true ∧
    slot ((overflowTable strHash).insert strHash (overflowBook strHash)).1.table 8
      = ⟨overflowBook strHash, CellStatus.OCCUPIED⟩ ∧
    (slot (overflowTable strHash).table 8).status = CellStatus.EMPTY ∧
    (∀ k, specProbe 8589934590 (hashFunction strHash 8589934590 (overflowBook strHash)) k
      ≠ 8) ∧
    quadraticProbing 8589934590 (hashFunction strHash 8589934590 (overflowBook strHash))
      4294967298 = 8 := by
  obtain ⟨g1, g2, g3, g4, g5, g6, g7⟩ := overflowTable_spec strHash
  have hins := stripe_insert strHash
  have hh := hashFunction_overflowBook strHash
  have hX : 8 < (stripeTable strHash 8589934590).table.length := by
    rw [g2.1, g3]; decide
  unfold overflowTable overflowBook overflowBooks
  rw [hh]
  refine ⟨rfl, stripeBooks_representable _ _, sumBook_representable _ _, g1, g2, g3, g4, g5,
    growIfNeeded_of_not strHash g5, rfl, fun k _ => ?_, by rw [hins], ?_, ?_, fun k hc => ?_,
    by decide⟩
  · have hlt : specProbe 8589934590 0 k < 8589934590 := Nat.mod_lt _ (by decide)
    rw [g6 _ hlt (specProbe_stripe k)]
  · rw [hins]
    dsimp only
    exact slot_set_self hX _
  · rw [g7 8 (by decide)]
    rfl
  · have := specProbe_stripe k
    rw [hc] at this
    exact this (by decide)

/-! C12: Index safety. -/

/-- C12 (index safety) fails on the code in its formula for the probe index,
above `2 ^ 32` cells, where `attempt * attempt` wraps in `size_t`.  For every
string hash: the table `overflowTable` is constructed with `2 ^ 33 - 2` cells
and filled by one `insert` for each book of `overflowBooks` (years 0 or 2,
titles of characters `1 .. 31`, empty author); it is reachable.  For the book
`r = overflowBook` the attempts `0 .. 2 ^ 32 + 1` of `insert(r)` reach occupied
cells, so the loop goes on to attempt `2 ^ 32 + 2`, below the capacity, where
`quadraticProbing` returns 8 while `(start + attempt * attempt) mod capacity` is
`2 ^ 32 + 8`.  The index returned is still below the capacity. -/
theorem probe_index_overflow (strHash : List Int → Nat) :
    overflowTable strHash
      = insertAll strHash (HashTable.new 8589934590) (overflowBooks strHash) ∧
    (∀ b, b ∈ overflowBooks strHash → b.representable = true) ∧
    (overflowBook strHash).representable = true ∧
    Reachable strHash (overflowTable strHash) ∧
    (overflowTable strHash).sizeT = 8589934590 ∧
    (overflowTable strHash).table.length = 8589934590 ∧
    needsRehash (overflowTable strHash) = false ∧
    (∀ j, j < 4294967298 →
      (slot (overflowTable strHash).table
        (quadraticProbing (overflowTable strHash).sizeT
          (hashFunction strHash (overflowTable strHash).sizeT (overflowBook strHash)) j)).status
        = CellStatus.OCCUPIED) ∧
    4294967298 < (overflowTable strHash).sizeT ∧
    quadraticProbing (overflowTable strHash).sizeT
      (hashFunction strHash (overflowTable strHash).sizeT (overflowBook strHash)) 4294967298
      = 8 ∧
    specProbe (overflowTable strHash).sizeT
      (hashFunction strHash (overflowTable strHash).sizeT (overflowBook strHash)) 4294967298
      = 4294967304 ∧
    8 < (overflowTable strHash).sizeT := by
  obtain ⟨g1, g2, g3, -, g5, g6, -⟩ := overflowTable_spec strHash
  have hh := hashFunction_overflowBook strHash
  unfold overflowTable overflowBook overflowBooks
  rw [g3, hh]
  refine ⟨rfl, stripeBooks_representable _ _, sumBook_representable _ _, g1, rfl,
    by rw [g2.1, g3], g5, fun j hj => ?_, by decide, by decide, by decide, by decide⟩
  have hlt : quadraticProbing 8589934590 0 j < 8589934590 :=
    quadraticProbing_lt (by decide) _ _
  rw [g6 _ hlt (probe_stripe j hj)]

/-! C13: The scenario of `main`. -/

/-- C13 (scenario of `main`): for every string hash, in the default table of
capacity 11 the three calls `insert(book1)`, `insert(book2)`, `insert(book3)`
return `true` and none of them grows the table (`needsRehash` is false on each
entry, the capacity stays 11, `size` is 3); `search(book2)` returns a cell, and
that cell is occupied by `book2`; `remove(book3)` returns `true`; `print` then
lists exactly `book1` and `book2`, in the order of their cells, and not
`book3`. -/
theorem main_scenario (strHash : List Int → Nat) :
    needsRehash (HashTable.new DEFAULT_SIZE) = false ∧
    (mainInsert1 strHash).2 = true ∧ (mainInsert1 strHash).1.sizeT = 11 ∧
    needsRehash (mainInsert1 strHash).1 = false ∧
    (mainInsert2 strHash).2 = true ∧ (mainInsert2 strHash).1.sizeT = 11 ∧
    needsRehash (mainInsert2 strHash).1 = false ∧
    (mainInsert3 strHash).2 = true ∧ (mainInsert3 strHash).1.sizeT = 11 ∧
    (mainInsert3 strHash).1.size = 3 ∧
    (mainFound strHash).map (slot (mainInsert3 strHash).1.table)
      = some ⟨book2, CellStatus.OCCUPIED⟩ ∧
    (mainRemove strHash).2 = true ∧
    (mainRemove strHash).1.sizeT = 11 ∧
    (mainRemove strHash).1.size = 2 ∧
    ((mainRemove strHash).1.print.map Prod.snd = [book1, book2] ∨
      (mainRemove strHash).1.print.map Prod.snd = [book2, book1]) ∧
    book3 ∉ (mainRemove strHash).1.print.map Prod.snd := by
  have l1 := hashFunction_lt strHash (by decide : 1 ≤ 11) book1
  have l2 := hashFunction_lt strHash (by decide : 1 ≤ 11) book2
  have l3 := hashFunction_lt strHash (by decide : 1 ≤ 11) book3
  obtain ⟨r1, r2, r3, r4, r5, r6, r7, r8, r9⟩ := demo_run _ l1 _ l2 _ l3
  obtain ⟨s1, s2, s3, s4, s5⟩ := demo_run_rest _ l1 _ l2 _ l3
  have hfound : mainFound strHash =
      searchLoop (mainInsert3 strHash).1 book2 (hashFunction strHash 11 book2) 11 0 := by
    unfold mainFound HashTable.search
    rw [mainInsert3_eq, r8]
  have hrem : mainRemove strHash =
      removeLoop (mainInsert3 strHash).1 book3 (hashFunction strHash 11 book3) 11 0 := by
    unfold mainRemove HashTable.remove
    rw [mainInsert3_eq, r8]
  rw [hfound, hrem, mainInsert3_eq, mainInsert2_eq, mainInsert1_eq]
  refine ⟨by decide, r1, r2, r3, r4, r5, r6, r7, r8, r9, s1, s2, s3, s4, s5, ?_⟩
  rcases s5 with h | h <;> rw [h] <;> decide

/-! C14: The listing of `print`. -/

/-- C14 (enumerate): for every table, the listing of `print` holds exactly the
pairs `(i, book of cell i)` for the indices `i < sizeT` whose cell is
`OCCUPIED`, in strictly ascending order of `i` (so each once); `EMPTY` and
`DELETED` cells contribute nothing. -/
theorem print_enumerates (t : HashTable) :
    (∀ i b, (i, b) ∈ t.print ↔
      i < t.sizeT ∧ (slot t.table i).status = CellStatus.OCCUPIED ∧ b = (slot t.table i).data) ∧
    (t.print.map Prod.fst).Pairwise (fun i j => i < j) ∧
    t.print.Nodup ∧
    (∀ i, i < t.sizeT → (slot t.table i).status ≠ CellStatus.OCCUPIED →
      i ∉ t.print.map Prod.fst) := by
  have hfst : t.print.map Prod.fst =
      (List.range t.sizeT).filter
        (fun i => decide ((slot t.table i).status = CellStatus.OCCUPIED)) := by
    unfold HashTable.print
    rw [List.map_map]
    exact List.map_id _
  have hsorted : (t.print.map Prod.fst).Pairwise (fun i j => i < j) := by
    rw [hfst]
    exact List.Pairwise.sublist (List.filter_sublist _) (List.pairwise_lt_range _)
  refine ⟨?_, hsorted, ?_, ?_⟩
  · intro i b
    unfold HashTable.print
    simp only [List.mem_map, List.mem_filter, List.mem_range, decide_eq_true_eq, Prod.mk.injEq]
    constructor
    · rintro ⟨j, ⟨hj1, hj2⟩, rfl, rfl⟩
      exact ⟨hj1, hj2, rfl⟩
    · rintro ⟨h1, h2, rfl⟩
      exact ⟨i, ⟨h1, h2⟩, rfl, rfl⟩
  · exact List.Nodup.of_map Prod.fst (hsorted.imp (fun h => Nat.ne_of_lt h))
  · intro i _ hi
    rw [hfst]
    simp [hi]

/-! C15: The capacity used by `rehash`. -/

/-- C15 (growth rehashes against the new capacity) fails on the code: `rehash`
probes with the old capacity.  For every string hash and every table with
`sizeT ≥ 1`, every cell of the new vector from index `sizeT` on is `EMPTY`
after `rehash`.  In the default table holding the eight books of
`booksThirtyTwo`, which is due for growth, some stored book `b` has a start
index `hashFunction 22 b ≥ 11` at the doubled capacity; the cell
`(hashFunction 22 b + 0 * 0) mod 22`, free during the whole of `rehash`, is
`EMPTY` afterwards, so `b` was not placed there.  With the string hash
`strHash0` and the books of years 11 to 18 (`tableEight`), the book of year
`11 + n` has start index `11 + n` at capacity 22 and is placed in cell `n`. -/
theorem rehash_uses_old_capacity (strHash : List Int → Nat) :
    (∀ t : HashTable, 1 ≤ t.sizeT → ∀ i, t.sizeT ≤ i →
      slot (t.rehash strHash).table i = HashItem.empty) ∧
    (needsRehash (insertAll strHash (HashTable.new DEFAULT_SIZE) booksThirtyTwo) = true ∧
      (insertAll strHash (HashTable.new DEFAULT_SIZE) booksThirtyTwo).sizeT = 11 ∧
      ((insertAll strHash (HashTable.new DEFAULT_SIZE) booksThirtyTwo).rehash strHash).sizeT = 22 ∧
      ∃ b i,
        slot (insertAll strHash (HashTable.new DEFAULT_SIZE) booksThirtyTwo).table i
          = ⟨b, CellStatus.OCCUPIED⟩ ∧
        11 ≤ hashFunction strHash 22 b ∧
        slot ((insertAll strHash (HashTable.new DEFAULT_SIZE) booksThirtyTwo).rehash strHash).table
          (specProbe 22 (hashFunction strHash 22 b) 0) = HashItem.empty) ∧
    (needsRehash tableEight = true ∧ tableEight.sizeT = 11 ∧
      (tableEight.rehash strHash0).sizeT = 22 ∧
      ∀ n, n < 8 →
        slot tableEight.table n = ⟨bookOfYear (11 + (n : Int)), CellStatus.OCCUPIED⟩ ∧
        hashFunction strHash0 22 (bookOfYear (11 + (n : Int))) = 11 + n ∧
        slot (tableEight.rehash strHash0).table n
          = ⟨bookOfYear (11 + (n : Int)), CellStatus.OCCUPIED⟩ ∧
        slot (tableEight.rehash strHash0).table (specProbe 22 (11 + n) 0) = HashItem.empty) := by
  have hlim : (HashTable.new DEFAULT_SIZE).sizeT < SLOT_LIMIT := by decide
  obtain ⟨h1, h2, h3, -, h5, -⟩ := insertAll_distinct strHash booksThirtyTwo
    (HashTable.new DEFAULT_SIZE) (by decide) hlim (by decide) (by decide)
    (hash_eleven_nodup strHash)
    (fun b _ => by
      show (slot (List.replicate _ _) _).status ≠ _
      rw [slot_replicate]; decide)
  have hsz : (insertAll strHash (HashTable.new DEFAULT_SIZE) booksThirtyTwo).sizeT = 11 := h2
  have hsize : (insertAll strHash (HashTable.new DEFAULT_SIZE) booksThirtyTwo).size = 8 := h3
  have hfit : (insertAll strHash (HashTable.new DEFAULT_SIZE) booksThirtyTwo).sizeT < SLOT_LIMIT := by
    rw [hsz]; decide
  refine ⟨fun t ht i hi => rehash_upper_cells_empty strHash t ht hi,
    ⟨?_, hsz, ?_, ?_⟩, by decide, by decide, by decide, by decide⟩
  · exact (needsRehash_iff_of_small (by rw [hsz]; decide) (by rw [hsz]; decide)
      (by rw [hsize]; decide)).2 (by rw [hsz, hsize]; decide)
  · rw [rehash_sizeT strHash _ hfit, hsz]
  · obtain ⟨b, hb1, hb2⟩ := hash_twenty_two_upper strHash
    have hlt : hashFunction strHash 22 b < 22 := hashFunction_lt strHash (by decide) b
    refine ⟨b, _, h5 b hb1, hb2, ?_⟩
    have hsp : specProbe 22 (hashFunction strHash 22 b) 0 = hashFunction strHash 22 b := by
      unfold specProbe
      rw [Nat.zero_mul, Nat.add_zero, Nat.mod_eq_of_lt hlt]
    rw [hsp]
    exact rehash_upper_cells_empty strHash _ (by rw [hsz]; decide) (by rw [hsz]; exact hb2)

/-! C16: When `insert` grows the table. -/

/-- C17 (growth discards tombstones and invents nothing): on a table with
`sizeT` cells, `1 ≤ sizeT < 2 ^ 63`, after `rehash` the vector has exactly
`2 * sizeT` cells, no cell is `DELETED`, every cell is `EMPTY` or `OCCUPIED`,
and every book in an `OCCUPIED` cell of the new vector is the book of an
`OCCUPIED` cell of the old vector. -/
theorem rehash_cells (strHash : List Int → Nat) (t : HashTable)
    (hwf : t.WF) (hfit : t.sizeT < SLOT_LIMIT) :
    (t.rehash strHash).table.length = 2 * t.sizeT ∧
    (t.rehash strHash).sizeT = 2 * t.sizeT ∧
    (∀ i, (slot (t.rehash strHash).table i).status ≠ CellStatus.DELETED) ∧
    (∀ i, (slot (t.rehash strHash).table i).status = CellStatus.EMPTY ∨
      (slot (t.rehash strHash).table i).status = CellStatus.OCCUPIED) ∧
    (∀ i, (slot (t.rehash strHash).table i).status = CellStatus.OCCUPIED →
      ∃ j, j < t.sizeT ∧ (slot t.table j).status = CellStatus.OCCUPIED ∧
        (slot t.table j).data = (slot (t.rehash strHash).table i).data) := by
  have hs := rehash_sizeT strHash t hfit
  refine ⟨(rehash_length strHash t).trans hs, hs, rehash_no_deleted strHash t, fun i => ?_,
    fun i hi => ?_⟩
  · have hd := rehash_no_deleted strHash t i
    cases hst : (slot (t.rehash strHash).table i).status with
    | EMPTY => exact Or.inl rfl
    | OCCUPIED => exact Or.inr rfl
    | DELETED => exact absurd hst hd
  · obtain ⟨j, hj1, hj2⟩ := rehash_fromOld strHash t i hi
    have hlt : j < t.table.length := lt_length_of_status (by rw [hj1]; decide)
    exact ⟨j, by rw [← hwf.1]; exact hlt, hj1, hj2⟩

/-- C17 at concrete inputs: the table `tableTomb`, whose cell 1 is `DELETED`. -/
theorem rehash_cells_witness :
    tableTomb.WF ∧ tableTomb.sizeT < SLOT_LIMIT ∧
    (slot tableTomb.table 1).status = CellStatus.DELETED ∧
    (tableTomb.rehash strHash0).table.length = 2 * tableTomb.sizeT ∧
    (∀ i, (slot (tableTomb.rehash strHash0).table i).status ≠ CellStatus.DELETED) :=
  ⟨by decide, by decide, by decide,
    (rehash_cells strHash0 tableTomb (by decide) (by decide)).1,
    (rehash_cells strHash0 tableTomb (by decide) (by decide)).2.2.1⟩

/-! C18: Exhaustion of the probe sequence while cells are free. -/

/-- C18 (spurious exhaustion exists): for every string hash there are a table
constructed with capacity 4, two books inserted into it and a third book `r`
such that `insert r` returns `false`, without growth and leaving the table as
it was, although cells 2 and 3 are `EMPTY`: with `a` the hash of the empty
string modulo 4, the books of `exhaustBooks a` and `r = exhaustBook a`.  At
capacity 4 the cells reached from start index `s` are only `s` and
`(s + 1) mod 4`.  With the string hash `strHash0` the books are those of years
0 and 1, and `r` is the book of year 4. -/
theorem spurious_exhaustion (strHash : List Int → Nat) :
    (Reachable strHash
        (insertAll strHash (HashTable.new 4) (exhaustBooks (strHash [] % SIZE_MOD % 4))) ∧
      (insertAll strHash (HashTable.new 4) (exhaustBooks (strHash [] % SIZE_MOD % 4))).WF ∧
      (insertAll strHash (HashTable.new 4) (exhaustBooks (strHash [] % SIZE_MOD % 4))).sizeT = 4 ∧
      needsRehash
        (insertAll strHash (HashTable.new 4) (exhaustBooks (strHash [] % SIZE_MOD % 4))) = false ∧
      (insertAll strHash (HashTable.new 4) (exhaustBooks (strHash [] % SIZE_MOD % 4))).insert
          strHash (exhaustBook (strHash [] % SIZE_MOD % 4)) =
        (insertAll strHash (HashTable.new 4) (exhaustBooks (strHash [] % SIZE_MOD % 4)), false) ∧
      (slot (insertAll strHash (HashTable.new 4)
        (exhaustBooks (strHash [] % SIZE_MOD % 4))).table 2).status = CellStatus.EMPTY ∧
      (slot (insertAll strHash (HashTable.new 4)
        (exhaustBooks (strHash [] % SIZE_MOD % 4))).table 3).status = CellStatus.EMPTY) ∧
    (∀ s, s < 4 → ∀ k, k < 4 →
      quadraticProbing 4 s k = s ∨ quadraticProbing 4 s k = (s + 1) % 4) ∧
    (Reachable strHash0 (insertAll strHash0 (HashTable.new 4) [bookOfYear 0, bookOfYear 1]) ∧
      (insertAll strHash0 (HashTable.new 4) [bookOfYear 0, bookOfYear 1]).insert strHash0
          (bookOfYear 4) =
        (insertAll strHash0 (HashTable.new 4) [bookOfYear 0, bookOfYear 1], false) ∧
      (insertAll strHash0 (HashTable.new 4) [bookOfYear 0, bookOfYear 1]).table =
        [⟨bookOfYear 0, CellStatus.OCCUPIED⟩, ⟨bookOfYear 1, CellStatus.OCCUPIED⟩,
          HashItem.empty, HashItem.empty]) := by
  have ha : strHash [] % SIZE_MOD % 4 < 4 := Nat.mod_lt _ (by decide)
  obtain ⟨r1, r2, r3, r4, r5, r6, r7, r8, r9, -, -⟩ := exhaust_run _ ha
  have hagree : ∀ c, c ∣ 4 → HashAgree strHash (constHash (strHash [] % SIZE_MOD % 4)) c :=
    fun c hc => hashAgree_const strHash (by decide) (by decide) hc
  obtain ⟨e1, e2⟩ := @insertAll_congr strHash _ 4 hagree
    (exhaustBooks (strHash [] % SIZE_MOD % 4)) (HashTable.new 4) (plain_new _) r1
  have hplain : Plain (insertAll (constHash (strHash [] % SIZE_MOD % 4)) (HashTable.new 4)
      (exhaustBooks (strHash [] % SIZE_MOD % 4))).table :=
    plain_insertAll _ _ _ (plain_new _) (fun b hb => by
      simp only [exhaustBooks, List.mem_cons, List.mem_singleton, List.not_mem_nil, or_false] at hb
      rcases hb with rfl | rfl <;> rfl)
  have e3 := @insert_congr strHash (constHash (strHash [] % SIZE_MOD % 4)) _
    (exhaustBook (strHash [] % SIZE_MOD % 4)) hplain rfl
    (hagree _ (by rw [r3]))
    (hagree _ (by rw [growIfNeeded_of_not _ r6, r3]))
  rw [e1]
  refine ⟨⟨?_, ⟨by rw [r4, r3], by rw [r3]; decide⟩, r3, r6, by rw [e3]; exact r7, r8, r9⟩,
    by decide,
    reachable_insertAll strHash0 _ _ (Reachable.new 4 (by decide) (by decide)) (by decide),
    by decide, by decide⟩
  rw [← e1]
  exact reachable_insertAll strHash _ _ (Reachable.new 4 (by decide) (by decide))
    (by rw [e2]; exact r2)

/-! C19: Other books stay findable. -/

/-- C19 (other books stay findable without growth): on a table with `sizeT`
cells, `sizeT ≥ 1`, for books `q ≠ r`: (1) `search q` returns the same result
(same cell or not-found) after `remove r` as before; (2) when `insert r` does
not grow the table (`needsRehash` is false on entry) and `search q` found cell
`i` before, `search q` finds cell `i` after the insert, and that cell still
holds the same book. -/
theorem other_books_findable (strHash : List Int → Nat) (t : HashTable) (q r : Book)
    (hwf : t.WF) (hqr : q ≠ r) :
    (t.remove strHash r).1.search strHash q = t.search strHash q ∧
    (needsRehash t = false → ∀ i, t.search strHash q = some i →
      (t.insert strHash r).1.search strHash q = some i ∧
      slot (t.insert strHash r).1.table i = slot t.table i) := by
  constructor
  · cases hs : t.search strHash r with
    | none => rw [remove_of_search_none hs]
    | some i0 =>
      rw [remove_of_search_some hs]
      have hi0 := search_some hs
      have hlt : i0 < t.table.length := lt_length_of_status (by rw [hi0.1]; decide)
      show searchLoop ⟨t.table.set i0 ⟨r, CellStatus.DELETED⟩, t.sizeT,
          (t.size + (SIZE_MOD - 1)) % SIZE_MOD⟩ q (hashFunction strHash t.sizeT q) t.sizeT 0 =
        searchLoop t q (hashFunction strHash t.sizeT q) t.sizeT 0
      refine @searchLoop_congr ⟨t.table.set i0 ⟨r, CellStatus.DELETED⟩, t.sizeT,
          (t.size + (SIZE_MOD - 1)) % SIZE_MOD⟩ t q _ rfl (fun i => ?_) _ _
      show ((slot (t.table.set i0 ⟨r, CellStatus.DELETED⟩) i).status = CellStatus.EMPTY ↔ _) ∧
        (((slot (t.table.set i0 ⟨r, CellStatus.DELETED⟩) i).status = CellStatus.OCCUPIED ∧
          (slot (t.table.set i0 ⟨r, CellStatus.DELETED⟩) i).data = q) ↔ _)
      by_cases hii : i0 = i
      · subst hii
        rw [slot_set_self hlt, hi0.1, hi0.2]
        constructor
        · constructor
          · intro h; exact CellStatus.noConfusion h
          · intro h; exact CellStatus.noConfusion h
        · constructor
          · intro h; exact CellStatus.noConfusion h.1
          · intro h; exact absurd h.2.symm hqr
      · rw [slot_set_ne hii]
        exact ⟨Iff.rfl, Iff.rfl⟩
  · intro hno i hs
    have hi := search_some hs
    rw [insert_eq, growIfNeeded_of_not strHash hno]
    cases hins : insertLoop t r (hashFunction strHash t.sizeT r) t.sizeT 0 with
    | mk t2 ok =>
      cases ok with
      | false =>
        obtain ⟨ht2, -⟩ := insertLoop_false _ _ hins
        subst ht2
        exact ⟨hs, rfl⟩
      | true =>
        obtain ⟨k, -, -, hfree, -, ht2⟩ := insertLoop_true _ _ hins
        subst ht2
        have hci : quadraticProbing t.sizeT (hashFunction strHash t.sizeT r) k ≠ i := by
          intro hc
          rw [hc] at hfree
          exact hfree hi.1
        obtain ⟨k2, hk1, hk2, hk3, -, -, hpre⟩ := searchLoop_some _ _ hs
        refine ⟨?_, slot_set_ne hci _⟩
        show searchLoop _ q (hashFunction strHash t.sizeT q) t.sizeT 0 = some i
        have hgoal := @searchLoop_eq_some
          ⟨t.table.set (quadraticProbing t.sizeT (hashFunction strHash t.sizeT r) k)
            ⟨r, CellStatus.OCCUPIED⟩, t.sizeT, (t.size + 1) % SIZE_MOD⟩ q
          (hashFunction strHash t.sizeT q) t.sizeT 0 k2 hk1 hk2
          (by show (slot (t.table.set _ _) _).status = _
              rw [hk3, slot_set_ne hci]; exact hi.1)
          (by show (slot (t.table.set _ _) _).data = _
              rw [hk3, slot_set_ne hci]; exact hi.2)
          (by
            intro j hj1 hj2
            show (slot (t.table.set _ _) _).status ≠ CellStatus.EMPTY ∧
              ¬ ((slot (t.table.set _ _) _).status = CellStatus.OCCUPIED ∧
                (slot (t.table.set _ _) _).data = q)
            rcases slot_set_cases t.table
              (quadraticProbing t.sizeT (hashFunction strHash t.sizeT r) k)
              (quadraticProbing t.sizeT (hashFunction strHash t.sizeT q) j)
              ⟨r, CellStatus.OCCUPIED⟩ with hc | hc
            · rw [hc]
              exact ⟨fun h => CellStatus.noConfusion h, fun h => hqr h.2.symm⟩
            · rw [hc]
              exact hpre j hj1 hj2)
        rw [hgoal]
        exact congrArg some hk3

/-- C19 at concrete inputs: the default table holding the books of years 0 to 6,
with `q` the book of year 3 and `r` the book of year 5. -/
theorem other_books_findable_witness :
    tableSeven.WF ∧ bookOfYear 3 ≠ bookOfYear 5 ∧
    ((tableSeven.remove strHash0 (bookOfYear 5)).1.search strHash0 (bookOfYear 3) =
        tableSeven.search strHash0 (bookOfYear 3) ∧
      (needsRehash tableSeven = false → ∀ i, tableSeven.search strHash0 (bookOfYear 3) = some i →
        (tableSeven.insert strHash0 (bookOfYear 5)).1.search strHash0 (bookOfYear 3) = some i ∧
        slot (tableSeven.insert strHash0 (bookOfYear 5)).1.table i = slot tableSeven.table i)) :=
  ⟨by decide, by decide,
    other_books_findable strHash0 tableSeven (bookOfYear 3) (bookOfYear 5) (by decide) (by decide)⟩

/-! C20: Probe coverage for a prime capacity. -/

/-- C20 (probe coverage for prime capacity): for a prime `p` with
`p + ((p - 1) / 2)² ≤ 2^64` (so that `start + k * k` does not wrap for a start
index below `p` and `k ≤ (p - 1) / 2`), the cells reached by the attempts
`0 .. (p - 1) / 2` are `(start + k * k) mod p` and pairwise different; hence
when the table probed by `insert` (after the optional growth) has `p` cells and
fewer than `(p + 1) / 2` of them occupied, `insert` returns `true`; in
particular for `p = 11` and at most 5 occupied cells. -/
theorem prime_probe_coverage (strHash : List Int → Nat) (t : HashTable) (r : Book) (p : Nat)
    (hp : p.Prime) (hsmall : p + ((p - 1) / 2) * ((p - 1) / 2) ≤ SIZE_MOD) :
    (∀ start j k, start < p → j < k → k ≤ (p - 1) / 2 →
      quadraticProbing p start j = specProbe p start j ∧
      quadraticProbing p start k = specProbe p start k ∧
      specProbe p start j ≠ specProbe p start k) ∧
    ((t.growIfNeeded strHash).WF → (t.growIfNeeded strHash).sizeT = p →
      occupiedCount (t.growIfNeeded strHash) < (p + 1) / 2 →
      (t.insert strHash r).2 = true) ∧
    (p = 11 → (t.growIfNeeded strHash).WF → (t.growIfNeeded strHash).sizeT = 11 →
      occupiedCount (t.growIfNeeded strHash) ≤ 5 →
      (t.insert strHash r).2 = true) := by
  have hfit : ∀ start k, start < p → k ≤ (p - 1) / 2 → start + k * k < SIZE_MOD := by
    intro start k hs hk
    have := Nat.mul_le_mul hk hk
    omega
  have hmain : (t.growIfNeeded strHash).WF → (t.growIfNeeded strHash).sizeT = p →
      occupiedCount (t.growIfNeeded strHash) < (p + 1) / 2 →
      (t.insert strHash r).2 = true := by
    intro hwf hcap hocc
    rw [insert_eq]
    have hp2 : 2 ≤ p := hp.two_le
    have hstart : hashFunction strHash (t.growIfNeeded strHash).sizeT r < p := by
      have := hashFunction_lt strHash hwf.2 r
      rw [hcap] at this ⊢
      exact this
    by_contra hfail
    have hall : ∀ k, k ≤ (p - 1) / 2 →
        (slot (t.growIfNeeded strHash).table (quadraticProbing (t.growIfNeeded strHash).sizeT
          (hashFunction strHash (t.growIfNeeded strHash).sizeT r) k)).status =
          CellStatus.OCCUPIED := by
      intro k hk
      by_contra hfree
      exact hfail (insertLoop_success _ 0 k (Nat.zero_le _) (by rw [hcap]; omega) hfree)
    have hb := occupied_probe_bound (t.growIfNeeded strHash)
      (hashFunction strHash (t.growIfNeeded strHash).sizeT r) ((p - 1) / 2)
      (by
        intro j k hjk hk
        rw [hcap] at hstart ⊢
        rw [quadraticProbing_no_wrap (hfit _ j hstart (by omega)),
          quadraticProbing_no_wrap (hfit _ k hstart hk)]
        exact specProbe_injective_prime hp _ hjk hk)
      hall
    omega
  refine ⟨?_, hmain, ?_⟩
  · intro start j k hs hjk hk
    exact ⟨quadraticProbing_no_wrap (hfit start j hs (by omega)),
      quadraticProbing_no_wrap (hfit start k hs hk),
      specProbe_injective_prime hp start hjk hk⟩
  · intro hp11 hwf hcap hocc
    subst hp11
    exact hmain hwf hcap (by omega)

/-- C20 at concrete inputs: capacity 11, the default table holding the books of
years 0 to 4 (5 occupied cells), and a sixth book with start index 0. -/
theorem prime_probe_coverage_witness :
    Nat.Prime 11 ∧ 11 + ((11 - 1) / 2) * ((11 - 1) / 2) ≤ SIZE_MOD ∧
    (tableFive.growIfNeeded strHash0).WF ∧ (tableFive.growIfNeeded strHash0).sizeT = 11 ∧
    occupiedCount (tableFive.growIfNeeded strHash0) ≤ 5 ∧
    specProbe 11 7 2 ≠ specProbe 11 7 5 ∧
    (tableFive.insert strHash0 (bookOfYear 11)).2 = true :=
  ⟨by norm_num, by decide, by decide, by decide, by decide,
    ((prime_probe_coverage strHash0 tableFive (bookOfYear 11) 11 (by norm_num) (by decide)).1
      7 2 5 (by decide) (by decide) (by decide)).2.2,
    (prime_probe_coverage strHash0 tableFive (bookOfYear 11) 11 (by norm_num) (by decide)).2.2
      rfl (by decide) (by decide) (by decide)⟩

